import Mathlib

/-!
# Timeline: items, tasks, events and the task storage

A shallow embedding of `src/timeline.h` / `src/timeline.cpp`.

* `QDateTime` is either invalid (default constructed) or a number of milliseconds since
  the epoch.  Comparison follows the Qt documentation: all invalid date-times are equal to
  one another and less than every valid one.
* `std::shared_ptr<T>` is an optional address (`none` is `nullptr`); the pointed-to objects
  live in explicit heaps, so that object identity (aliasing) is visible.
* `QMap<QDateTime, V>` is a key-sorted association list, `QHash<quint64, V>` an association
  list with unique keys.
* A method returns `none` exactly where the C++ code would dereference a null pointer or an
  address holding no live object.
-/

namespace Timeline

/-! ## QDateTime -/

/-- Qt date-time value: invalid, or milliseconds since the epoch. -/
inductive QDateTime where
  | invalid : QDateTime
  | msecs : Int → QDateTime
  deriving DecidableEq, Repr

namespace QDateTime

/-- Method `QDateTime::isValid`. -/
def isValid : QDateTime → Bool
  | invalid => false
  | msecs _ => true

/-- Method `QDateTime::toMSecsSinceEpoch`; a default constructed value holds 0. -/
def toMSecsSinceEpoch : QDateTime → Int
  | invalid => 0
  | msecs ms => ms

/-- Static `QDateTime::fromMSecsSinceEpoch`. -/
def fromMSecsSinceEpoch (ms : Int) : QDateTime := msecs ms

/-- Comparison `operator<`: invalid is below every valid value. -/
def lt : QDateTime → QDateTime → Bool
  | invalid, invalid => false
  | invalid, msecs _ => true
  | msecs _, invalid => false
  | msecs a, msecs b => decide (a < b)

/-- Comparison `operator>=`, which Qt defines as the negation of `operator<`. -/
def ge (a b : QDateTime) : Bool := !(lt a b)

/-- Comparison `operator<=`, which Qt defines as the negation of `operator>`. -/
def le (a b : QDateTime) : Bool := !(lt b a)

/-- Comparison `operator!=`. -/
def ne (a b : QDateTime) : Bool := !(decide (a = b))

/-- Template `std::max(a, b)`: `(a < b) ? b : a`. -/
def max (a b : QDateTime) : QDateTime := if lt a b then b else a

/-- Template `std::min(a, b)`: `(b < a) ? b : a`. -/
def min (a b : QDateTime) : QDateTime := if lt b a then b else a

end QDateTime

/-! ## Containers -/

/-- Key-sorted association list standing for `QMap<QDateTime, V>`. -/
structure QMap (α : Type) where
  entries : List (QDateTime × α)
  deriving DecidableEq, Repr

namespace QMap

/-- Insertion into a key-sorted list; an entry with an equivalent key is replaced. -/
def insertList {α : Type} (k : QDateTime) (v : α) : List (QDateTime × α) → List (QDateTime × α)
  | [] => [(k, v)]
  | (k0, v0) :: rest =>
    if QDateTime.lt k k0 then (k, v) :: (k0, v0) :: rest
    else if QDateTime.lt k0 k then (k0, v0) :: insertList k v rest
    else (k, v) :: rest

/-- Lookup of the entry whose key is equivalent to `k`. -/
def findList {α : Type} (k : QDateTime) : List (QDateTime × α) → Option α
  | [] => none
  | (k0, v0) :: rest =>
    if !(QDateTime.lt k k0) && !(QDateTime.lt k0 k) then some v0 else findList k rest

/-- The empty map. -/
def empty {α : Type} : QMap α := ⟨[]⟩

/-- Method `QMap::insert(key, value)`: replaces the value when the key is present. -/
def insert {α : Type} (m : QMap α) (k : QDateTime) (v : α) : QMap α := ⟨insertList k v m.entries⟩

/-- Method `QMap::find(key)`; `none` stands for the `end()` iterator. -/
def find {α : Type} (m : QMap α) (k : QDateTime) : Option α := findList k m.entries

/-- Method `QMap::contains(key)`. -/
def contains {α : Type} (m : QMap α) (k : QDateTime) : Bool := (m.find k).isSome

/-- Method `QMap::size()`. -/
def size {α : Type} (m : QMap α) : Nat := m.entries.length

end QMap

/-- Association list over unsigned keys; stands for `QHash<quint64, V>` and for the heaps. -/
structure NatMap (α : Type) where
  entries : List (Nat × α)
  deriving DecidableEq, Repr

namespace NatMap

/-- Lookup in an association list. -/
def findList {α : Type} (k : Nat) : List (Nat × α) → Option α
  | [] => none
  | (k0, v0) :: rest => if k = k0 then some v0 else findList k rest

/-- Insertion with replacement of the value of an existing key. -/
def insertList {α : Type} (k : Nat) (v : α) : List (Nat × α) → List (Nat × α)
  | [] => [(k, v)]
  | (k0, v0) :: rest => if k = k0 then (k, v) :: rest else (k0, v0) :: insertList k v rest

/-- Removal of every entry stored under the key. -/
def removeList {α : Type} (k : Nat) : List (Nat × α) → List (Nat × α)
  | [] => []
  | (k0, v0) :: rest => if k = k0 then removeList k rest else (k0, v0) :: removeList k rest

/-- The empty table. -/
def empty {α : Type} : NatMap α := ⟨[]⟩

/-- Method `QHash::find(key)`; `none` stands for the `end()` iterator. -/
def find {α : Type} (m : NatMap α) (k : Nat) : Option α := findList k m.entries

/-- Method `QHash::insert(key, value)`. -/
def insert {α : Type} (m : NatMap α) (k : Nat) (v : α) : NatMap α := ⟨insertList k v m.entries⟩

/-- Method `QHash::remove(key)`. -/
def remove {α : Type} (m : NatMap α) (k : Nat) : NatMap α := ⟨removeList k m.entries⟩

end NatMap

/-! ## Items -/

/-- Enumeration `TimeLineTaskType`. -/
inductive TimeLineTaskType where
  | TASK_TYPE_TEST_EXAMPLE
  | TL_TASK_TYPE_INVALID
  deriving DecidableEq, Repr

/-- Enumeration `EventItem::EventStatus`. -/
inductive EventStatus where
  | EVENT_STATUS_SUCCEDED
  | EVENT_STATUS_ABORTED
  | EVENT_STATUS_FAILURE
  | EVENT_STATUS_INVALID
  deriving DecidableEq, Repr

/-- Shared pointer to a task: `none` is `nullptr`, `some a` an address in the task heap. -/
abbrev TaskItemPtr := Option Nat

/-- Shared pointer to an event: `none` is `nullptr`, `some a` an address in the event heap. -/
abbrev EventItemPtr := Option Nat

/-- Class `AbstractItem`: the time interval shared by tasks and events. -/
structure AbstractItem where
  mStartTime : QDateTime
  mEndTime : QDateTime
  deriving DecidableEq, Repr

/-- Method `AbstractItem::getIntersection(startTime, endTime)`. -/
def AbstractItem.getIntersection (self : AbstractItem) (startTime endTime : QDateTime) :
    QDateTime × QDateTime :=
  let intersection0 : QDateTime × QDateTime := (QDateTime.invalid, QDateTime.invalid)
  let intersection1 : QDateTime × QDateTime :=
    if QDateTime.lt startTime endTime then
      (QDateTime.max startTime self.mStartTime, QDateTime.min endTime self.mEndTime)
    else intersection0
  if QDateTime.ge intersection1.1 intersection1.2 then (QDateTime.invalid, QDateTime.invalid)
  else intersection1

/-- Class `EventItem`. -/
structure EventItem extends AbstractItem where
  mStatus : EventStatus
  mParentTask : TaskItemPtr
  deriving DecidableEq, Repr

/-- Class `TaskItem`. -/
structure TaskItem extends AbstractItem where
  mTaskId : Nat
  mIsInfinite : Bool
  mTaskType : TimeLineTaskType
  mEvent : QMap EventItemPtr
  mEventsWithInfoSigh : QMap EventItemPtr
  deriving DecidableEq, Repr

/-- Method `EventItem::setParentTask(task)`: the result flag and the updated event. -/
def EventItem.setParentTask (self : EventItem) (task : TaskItemPtr) : Bool × EventItem :=
  match task with
  | none => (false, self)
  | some a => (true, { self with mParentTask := some a })

/-- Method `TaskItem::eventCount()`, a `quint32`. -/
def TaskItem.eventCount (self : TaskItem) : Nat := self.mEvent.size % 2 ^ 32

/-- Method `TaskItem::addEvent(event)`.  The argument is the shared pointer together with
the event object it points to (`none` for `nullptr`); the maps store the pointer.  The status
compared against is the failure status of `EventItem::EventStatus`. -/
def TaskItem.addEvent (self : TaskItem) (event : Option (Nat × EventItem)) : Bool × TaskItem :=
  match event with
  | none => (false, self)
  | some (addr, ev) =>
    if !(self.mEvent.contains ev.mStartTime) then
      let mEvent1 := self.mEvent.insert ev.mEndTime (some addr)
      let info1 :=
        if ev.mStatus = EventStatus.EVENT_STATUS_FAILURE then
          let failureTime := QDateTime.fromMSecsSinceEpoch
            (Int.tdiv ev.mStartTime.toMSecsSinceEpoch 2 + Int.tdiv ev.mEndTime.toMSecsSinceEpoch 2)
          self.mEventsWithInfoSigh.insert failureTime (some addr)
        else self.mEventsWithInfoSigh
      let end1 :=
        if !self.mIsInfinite && (QDateTime.lt self.mEndTime ev.mEndTime || !self.mEndTime.isValid)
        then ev.mEndTime else self.mEndTime
      (true, { self with mEvent := mEvent1, mEventsWithInfoSigh := info1, mEndTime := end1 })
    else (true, self)

/-! ## Task storage -/

/-- Program state seen by `TaskStorage`: the heaps of task and event objects that shared
pointers refer to, and the storage table `mTasks` (`QHash<quint64, TaskItemPtr>`). -/
structure World where
  tasks : NatMap TaskItem
  events : NatMap EventItem
  mTasks : NatMap TaskItemPtr
  deriving DecidableEq, Repr

namespace TaskStorage

/-- Method `TaskStorage::addTask(task)`. -/
def addTask (w : World) (task : TaskItemPtr) : Option (Bool × World) :=
  match task with
  | none => some (false, w)
  | some pt =>
    match w.tasks.find pt with
    | none => none
    | some t =>
      match w.mTasks.find t.mTaskId with
      | none => some (true, { w with mTasks := w.mTasks.insert t.mTaskId (some pt) })
      | some none => some (true, { w with mTasks := w.mTasks.insert t.mTaskId (some pt) })
      | some (some pe) =>
        match w.tasks.find pe with
        | none => none
        | some existingTask =>
          if QDateTime.ne existingTask.mEndTime t.mEndTime then
            some (true, { w with
              tasks := w.tasks.insert pe { existingTask with mEndTime := t.mEndTime } })
          else some (true, w)

/-- Method `TaskStorage::removeTask(taskId)`. -/
def removeTask (w : World) (taskId : Nat) : Option World :=
  match w.mTasks.find taskId with
  | none => some w
  | some none => some w
  | some (some a) =>
    match w.tasks.find a with
    | none => none
    | some taskPtr =>
      let noNeedToDelete : Bool := decide (taskPtr.eventCount ≠ 0)
      if !noNeedToDelete then some { w with mTasks := w.mTasks.remove taskId }
      else some w

/-- Method `TaskStorage::addEvent(taskId, event)`.  The parameter `taskId` is declared
`const quint32`, so the value passed by the caller is reduced modulo `2 ^ 32` on entry. -/
def addEvent (w : World) (taskId : Nat) (event : EventItemPtr) : Option (Bool × World) :=
  let taskId32 := taskId % 2 ^ 32
  match w.mTasks.find taskId32 with
  | none => some (false, w)
  | some none => none
  | some (some a) =>
    match w.tasks.find a with
    | none => none
    | some parentTask =>
      match event with
      | none =>
        let r := parentTask.addEvent none
        if r.1 then none
        else some (false, { w with tasks := w.tasks.insert a r.2 })
      | some e =>
        match w.events.find e with
        | none => none
        | some ev =>
          let r := parentTask.addEvent (some (e, ev))
          let w1 : World := { w with tasks := w.tasks.insert a r.2 }
          if r.1 then
            some (true, { w1 with events := w1.events.insert e (ev.setParentTask (some a)).2 })
          else some (false, w1)

/-- Method `TaskStorage::clear()`. -/
def clear (w : World) : World := { w with mTasks := NatMap.empty }

/-- Method `TaskStorage::getTask(taskId)`. -/
def getTask (w : World) (taskId : Nat) : TaskItemPtr :=
  match w.mTasks.find taskId with
  | some taskPtr => taskPtr
  | none => none

/-- Method `TaskStorage::getEvent(taskId, startTime)`; the outer `none` is a null
dereference, the inner one the null event pointer. -/
def getEvent (w : World) (taskId : Nat) (startTime : QDateTime) : Option EventItemPtr :=
  match w.mTasks.find taskId with
  | none => some none
  | some none => none
  | some (some a) =>
    match w.tasks.find a with
    | none => none
    | some taskPtr =>
      match taskPtr.mEvent.find startTime with
      | some eventPtr => some eventPtr
      | none => some none

end TaskStorage

/-- Every pointer held by the storage table is non-null and refers to a live task object
(what `std::shared_ptr` guarantees for the entries that `addTask` inserts). -/
def World.storedTasksLive (w : World) : Bool :=
  w.mTasks.entries.all fun kv =>
    match kv.2 with
    | none => false
    | some a => (w.tasks.find a).isSome

/-- End time of the task object at address `a`, when there is one. -/
def World.taskEndTime (w : World) (a : Nat) : Option QDateTime :=
  (w.tasks.find a).map fun t => t.mEndTime

/-- Identifier of the parent task of the event object at address `e`: the value of
`e->getParentTask()->getTaskId()`, when both dereferences succeed. -/
def World.parentTaskId (w : World) (e : Nat) : Option Nat :=
  match w.events.find e with
  | none => none
  | some ev =>
    match ev.mParentTask with
    | none => none
    | some a => (w.tasks.find a).map fun t => t.mTaskId

/-- A run of `TaskItem::addEvent` over a sequence of non-null events, left to right. -/
def TaskItem.addEvents (self : TaskItem) : List (Nat × EventItem) → TaskItem
  | [] => self
  | e :: rest => TaskItem.addEvents (self.addEvent (some e)).2 rest

/-- The events of a sequence that `TaskItem::addEvent` actually inserts when the sequence is
passed to it left to right: those whose call finds the duplicate check negative. -/
def TaskItem.insertedEvents (self : TaskItem) : List (Nat × EventItem) → List (Nat × EventItem)
  | [] => []
  | e :: rest =>
    if !(self.mEvent.contains e.2.mStartTime) then
      e :: TaskItem.insertedEvents (self.addEvent (some e)).2 rest
    else TaskItem.insertedEvents (self.addEvent (some e)).2 rest

/-! ## Example objects -/

/-- A finite task with identifier 1, interval `[0, 0]` and no events. -/
def exampleTask : TaskItem :=
  { mStartTime := QDateTime.msecs 0, mEndTime := QDateTime.msecs 0, mTaskId := 1,
    mIsInfinite := false, mTaskType := TimeLineTaskType.TASK_TYPE_TEST_EXAMPLE,
    mEvent := QMap.empty, mEventsWithInfoSigh := QMap.empty }

/-- A succeeded event over `[s, e]` that has no parent task yet. -/
def exampleEvent (s e : Int) : EventItem :=
  { mStartTime := QDateTime.msecs s, mEndTime := QDateTime.msecs e,
    mStatus := EventStatus.EVENT_STATUS_SUCCEDED, mParentTask := none }

/-- Heaps with two task objects (identifiers 1 and `2 ^ 32 + 1`) and one event object
`[10, 20]`; the storage table is empty. -/
def freshWorld : World :=
  { tasks := ⟨[(0, exampleTask), (1, { exampleTask with mTaskId := 2 ^ 32 + 1 })]⟩,
    events := ⟨[(0, exampleEvent 10 20)]⟩,
    mTasks := NatMap.empty }

/-- The world `freshWorld` after `addTask` of the task object at address 0 (identifier 1). -/
def oneTaskWorld : World :=
  { freshWorld with mTasks := ⟨[(1, some 0)]⟩ }

/-- The world `oneTaskWorld` after `addEvent(1, event)` of the event object at address 0. -/
def oneEventWorld : World :=
  { tasks := ⟨[(0, { exampleTask with
        mEvent := ⟨[(QDateTime.msecs 20, some 0)]⟩, mEndTime := QDateTime.msecs 20 }),
      (1, { exampleTask with mTaskId := 2 ^ 32 + 1 })]⟩,
    events := ⟨[(0, { exampleEvent 10 20 with mParentTask := some 0 })]⟩,
    mTasks := ⟨[(1, some 0)]⟩ }

/-- The world `freshWorld` after `addTask` of both task objects. -/
def twoTaskWorld : World :=
  { freshWorld with mTasks := ⟨[(1, some 0), (2 ^ 32 + 1, some 1)]⟩ }

/-- A world whose storage holds, under identifier 1, the task object at address 0 with end
time 100; the task object at address 1 has the same identifier and end time 50. -/
def sameIdWorld : World :=
  { tasks := ⟨[(0, { exampleTask with mEndTime := QDateTime.msecs 100 }),
      (1, { exampleTask with mEndTime := QDateTime.msecs 50 })]⟩,
    events := NatMap.empty,
    mTasks := ⟨[(1, some 0)]⟩ }

/-- A world whose storage holds one task under the identifier `2 ^ 64 - 1`, the default
`quint64(-1)` of the constructor of `TaskItem`; the heap has one event object `[10, 20]`. -/
def defaultIdWorld : World :=
  { tasks := ⟨[(0, { exampleTask with mTaskId := 2 ^ 64 - 1 })]⟩,
    events := ⟨[(0, exampleEvent 10 20)]⟩,
    mTasks := ⟨[(2 ^ 64 - 1, some 0)]⟩ }

/-! ## Machine integers and runs -/

/-- Conversion of an unsigned value to `int` (32-bit two-complement). -/
def toInt32 (n : Nat) : Int :=
  if n % 2 ^ 32 < 2 ^ 31 then ((n % 2 ^ 32 : Nat) : Int)
  else ((n % 2 ^ 32 : Nat) : Int) - ((2 ^ 32 : Nat) : Int)

/-- Conversion of an unsigned value to `qint64` (64-bit two-complement). -/
def toInt64 (n : Nat) : Int :=
  if n % 2 ^ 64 < 2 ^ 63 then ((n % 2 ^ 64 : Nat) : Int)
  else ((n % 2 ^ 64 : Nat) : Int) - ((2 ^ 64 : Nat) : Int)

/-- Conversion of a signed value to `quint64`. -/
def toQuint64 (i : Int) : Nat := (i % ((2 ^ 64 : Nat) : Int)).toNat

/-- Outcome of running code that loops: a result, undefined behaviour (division by zero, a
null dereference, signed overflow), or the fuel of the model used up. -/
inductive Run (α : Type) where
  | done : α → Run α
  | crash : Run α
  | outOfFuel : Run α
  deriving DecidableEq, Repr

/-! ## TimeLineGrid -/

/-- Structure `TimeLineGrid::TimeLineGridSettings`. -/
structure TimeLineGridSettings where
  borderIndentY : Nat
  borderIndentX : Nat
  maximumScale : Nat
  minimumScale : Nat
  deriving DecidableEq, Repr

/-- Class `TimeLineGrid`: the members read and written by `setTimeRange` and
`calculateStep`. -/
structure TimeLineGrid where
  mTimeCenterMark : QDateTime
  mTimeDelta : Nat
  mSettings : TimeLineGridSettings
  deriving DecidableEq, Repr

namespace TimeLineGrid

/-- Constant `TimeLineGrid::second`. -/
def second : Nat := 1000

/-- Constant `TimeLineGrid::minute`. -/
def minute : Nat := second * 60

/-- Constant `TimeLineGrid::hour`. -/
def hour : Nat := minute * 60

/-- Constant `TimeLineGrid::day`. -/
def day : Nat := hour * 24

/-- Constant `TimeLineGrid::week`. -/
def week : Nat := day * 7

/-- Local constant `month` of `calculateStep`. -/
def month : Nat := day * 30

/-- Local constant `year` of `calculateStep`. -/
def year : Nat := day * 365

/-- The `while (true)` loop of `TimeLineGrid::calculateStep`; `span` is `2 * mTimeDelta` as a
`quint64`, the last two arguments are `timeUnit` and `tempStepMsec` at the loop head.  The
expression `5 * std::ceil((double)numberOfUnits / 5)` is exact on `int` values and is written
with integer division. -/
def calculateStepLoop (span : Nat) (maxNumberOfTextMarks : Int) : Nat → Nat → Nat → Run Nat
  | 0, _, _ => Run.outOfFuel
  | fuel + 1, timeUnit0, tempStepMsec0 =>
    let timeUnit : Nat :=
      if minute ≤ tempStepMsec0 ∧ tempStepMsec0 < hour then minute
      else if hour ≤ tempStepMsec0 ∧ tempStepMsec0 < day then hour
      else if day ≤ tempStepMsec0 ∧ tempStepMsec0 < month then day
      else if month ≤ tempStepMsec0 ∧ tempStepMsec0 < year then month
      else if year ≤ tempStepMsec0 then year
      else timeUnit0
    if timeUnit = 0 then Run.crash
    else
      let numberOfUnits0 : Int := toInt32 (tempStepMsec0 / timeUnit)
      let numberOfUnits : Int :=
        if numberOfUnits0 > 2 then 5 * ((numberOfUnits0 + 4) / 5) else numberOfUnits0
      if numberOfUnits ≥ 2 ^ 31 then Run.crash
      else
        let tempStepMsec1 : Nat := (toQuint64 numberOfUnits * timeUnit) % 2 ^ 64
        if tempStepMsec1 = 0 then Run.crash
        else
          let currNumberOfTimeMarks : Int := toInt32 (span / tempStepMsec1)
          if currNumberOfTimeMarks > maxNumberOfTextMarks then
            let tempStepMsec2 : Nat :=
              if timeUnit = second then (tempStepMsec1 + second) % 2 ^ 64
              else if timeUnit = minute then (tempStepMsec1 + minute) % 2 ^ 64
              else if timeUnit = hour then (tempStepMsec1 + hour) % 2 ^ 64
              else if timeUnit = day then (tempStepMsec1 + day) % 2 ^ 64
              else if timeUnit = month then year
              else if timeUnit = year then (tempStepMsec1 + year) % 2 ^ 64
              else tempStepMsec1
            calculateStepLoop span maxNumberOfTextMarks fuel timeUnit tempStepMsec2
          else if (timeUnit = second ∨ timeUnit = minute) ∧ numberOfUnits > 30 then
            calculateStepLoop span maxNumberOfTextMarks fuel timeUnit ((60 * timeUnit) % 2 ^ 64)
          else
            Run.done (if span > day ∧ timeUnit < day then day else tempStepMsec1)

/-- Method `TimeLineGrid::calculateStep(maxNumberOfTextMarks)`, with the fuel of its loop. -/
def calculateStep (self : TimeLineGrid) (fuel : Nat) (maxNumberOfTextMarks : Int) : Run Nat :=
  let span : Nat := (2 * self.mTimeDelta) % 2 ^ 64
  if toQuint64 maxNumberOfTextMarks = 0 then Run.crash
  else
    let stepMsec : Nat := span / toQuint64 maxNumberOfTextMarks
    if stepMsec < second then Run.done (2 ^ 64 - 1)
    else calculateStepLoop span maxNumberOfTextMarks fuel second stepMsec

/-- Method `TimeLineGrid::setTimeRange(centralTime, timeDelta)`: the returned flag, the grid
afterwards and the `rangeChanged(start, end)` signals emitted by the call (the `emit`
statement stands after `return true`). -/
def setTimeRange (self : TimeLineGrid) (centralTime : QDateTime) (timeDelta : Nat) :
    Bool × TimeLineGrid × List (QDateTime × QDateTime) :=
  if timeDelta ≥ self.mSettings.maximumScale ∧ timeDelta ≤ self.mSettings.minimumScale then
    (true, { self with mTimeCenterMark := centralTime, mTimeDelta := timeDelta }, [])
  else (false, self, [])

end TimeLineGrid

/-! ## Exact-arithmetic description of one iteration of calculateStep -/

namespace TimeLineGrid

/-- The time unit that the classification at the loop head of `calculateStep` selects for a
step of at least one second: the coarsest unit not above the step. -/
def bracketUnit (temp : Nat) : Nat :=
  if temp < 60000 then 1000
  else if temp < 3600000 then 60000
  else if temp < 86400000 then 3600000
  else if temp < 2592000000 then 86400000
  else if temp < 31536000000 then 2592000000
  else 31536000000

/-- The unit count after the rounding of `calculateStep`: counts above 2 go up to the next
multiple of 5. -/
def roundedUnits (n : Nat) : Nat := if n > 2 then 5 * ((n + 4) / 5) else n

/-- The candidate step of an iteration that starts with `temp`. -/
def roundedStep (temp : Nat) : Nat := roundedUnits (temp / bracketUnit temp) * bracketUnit temp

/-- The iteration of `calculateStep` that starts with `temp` is the last one and returns
`s`. -/
def ExitsWith (span : Nat) (maxNumberOfTextMarks : Int) (temp s : Nat) : Prop :=
  ((span / roundedStep temp : Nat) : Int) ≤ maxNumberOfTextMarks ∧
  ¬ ((bracketUnit temp = 1000 ∨ bracketUnit temp = 60000) ∧
      roundedUnits (temp / bracketUnit temp) > 30) ∧
  s = if span > 86400000 ∧ bracketUnit temp < 86400000 then 86400000 else roundedStep temp

end TimeLineGrid

/-! ## SphereTimeLineScaler -/

/-- Enumeration `QTimeLine::State`. -/
inductive QTimeLineState where
  | NotRunning
  | Paused
  | Running
  deriving DecidableEq, Repr

/-- Class `SphereTimeLineScaler`: the accumulator and the state of its `QTimeLine`. -/
structure SphereTimeLineScaler where
  mScheduledScaling : Int
  mZoomingTimeLine : QTimeLineState
  deriving DecidableEq, Repr

namespace SphereTimeLineScaler

/-- The value lies in the range of `int`. -/
def inIntRange (x : Int) : Bool := decide (-(2 ^ 31) ≤ x) && decide (x < 2 ^ 31)

/-- Method `SphereTimeLineScaler::startScaling(delta)`; `none` is signed overflow. -/
def startScaling (self : SphereTimeLineScaler) (delta : Int) : Option SphereTimeLineScaler :=
  let stepNum : Int := Int.tdiv delta 120
  let scheduled1 : Int := self.mScheduledScaling + stepNum
  if !(inIntRange scheduled1) || !(inIntRange (scheduled1 * stepNum)) then none
  else
    let scheduled2 : Int := if scheduled1 * stepNum < 0 then stepNum else scheduled1
    let timeLine : QTimeLineState :=
      if self.mZoomingTimeLine = QTimeLineState.NotRunning then QTimeLineState.Running
      else self.mZoomingTimeLine
    some { mScheduledScaling := scheduled2, mZoomingTimeLine := timeLine }

/-- Method `SphereTimeLineScaler::stopScaling()`: it stops the time line only. -/
def stopScaling (self : SphereTimeLineScaler) : SphereTimeLineScaler :=
  { self with mZoomingTimeLine := QTimeLineState.NotRunning }

end SphereTimeLineScaler

/-! ## TimeLineItems -/

/-- Method `QDateTime::addMSecs`; an invalid date-time stays invalid. -/
def QDateTime.addMSecs : QDateTime → Int → QDateTime
  | QDateTime.invalid, _ => QDateTime.invalid
  | QDateTime.msecs a, k => QDateTime.msecs (a + k)

/-- Method `QMap::lowerBound(key)` on the sorted entries: the entries from the first one whose
key is not less than `key`. -/
def QMap.lowerBoundList {α : Type} (k : QDateTime) :
    List (QDateTime × α) → List (QDateTime × α)
  | [] => []
  | (k0, v0) :: rest =>
    if QDateTime.lt k0 k then QMap.lowerBoundList k rest else (k0, v0) :: rest

/-- Qt class `QPoint` with integer coordinates. -/
structure QPoint where
  x : Int
  y : Int
  deriving DecidableEq, Repr

/-- Qt class `QRect`, stored by its corner coordinates as Qt does. -/
structure QRect where
  x1 : Int
  y1 : Int
  x2 : Int
  y2 : Int
  deriving DecidableEq, Repr

/-- Constructor `QRect(x, y, width, height)` of the Qt library. -/
def QRect.ofSize (x y width height : Int) : QRect :=
  { x1 := x, y1 := y, x2 := x + width - 1, y2 := y + height - 1 }

/-- Method `QRect::contains(x, y, proper)` of the Qt library, following its Qt 5 definition:
with `proper` the point has to lie strictly inside the edges. -/
def QRect.contains (r : QRect) (px py : Int) (proper : Bool) : Bool :=
  let l : Int := if r.x2 < r.x1 - 1 then r.x2 else r.x1
  let rgt : Int := if r.x2 < r.x1 - 1 then r.x1 else r.x2
  let t : Int := if r.y2 < r.y1 - 1 then r.y2 else r.y1
  let b : Int := if r.y2 < r.y1 - 1 then r.y1 else r.y2
  if proper then
    if px ≤ l ∨ px ≥ rgt then false
    else if py ≤ t ∨ py ≥ b then false
    else true
  else
    if px < l ∨ px > rgt then false
    else if py < t ∨ py > b then false
    else true

/-- Shared pointer to an `AbstractItem` held by a visible item (`TimeLineItemPtr`): the
dynamic type of the object and its address in the heap of that type. -/
inductive TimeLineItemPtr where
  | task : Nat → TimeLineItemPtr
  | event : Nat → TimeLineItemPtr
  deriving DecidableEq, Repr

/-- Shared pointer to a `TaskStyle` object. -/
abbrev TaskStylePtr := Option Nat

/-- Structure `TimeLineItems::VisibleItem`. -/
structure VisibleItem where
  item : TimeLineItemPtr
  style : TaskStylePtr
  rect : QRect
  deriving DecidableEq, Repr

/-- Table `QHash<TimeLineTaskType, TaskStylePtr>` in its iteration order. -/
structure StyleMap where
  entries : List (TimeLineTaskType × TaskStylePtr)
  deriving DecidableEq, Repr

/-- Lookup in the style table from position `i` on: the position of the entry (what
`std::distance(begin, it)` gives) and the style. -/
def StyleMap.findFrom (ty : TimeLineTaskType) :
    Nat → List (TimeLineTaskType × TaskStylePtr) → Option (Nat × TaskStylePtr)
  | _, [] => none
  | i, (ty0, st0) :: rest => if ty = ty0 then some (i, st0) else StyleMap.findFrom ty (i + 1) rest

/-- Method `QHash::find(key)` on the style table. -/
def StyleMap.find (m : StyleMap) (ty : TimeLineTaskType) : Option (Nat × TaskStylePtr) :=
  StyleMap.findFrom ty 0 m.entries

/-- Method `QHash::isEmpty()` on the style table. -/
def StyleMap.isEmpty (m : StyleMap) : Bool := m.entries.isEmpty

/-- Table `QMap<int, TaskStylePtr>` of the info marks, sorted by pixel position. -/
structure InfoMarks where
  entries : List (Int × TaskStylePtr)
  deriving DecidableEq, Repr

/-- Insertion into the sorted mark list; an entry at the same position is replaced. -/
def InfoMarks.insertList (k : Int) (v : TaskStylePtr) :
    List (Int × TaskStylePtr) → List (Int × TaskStylePtr)
  | [] => [(k, v)]
  | (k0, v0) :: rest =>
    if k < k0 then (k, v) :: (k0, v0) :: rest
    else if k0 < k then (k0, v0) :: InfoMarks.insertList k v rest
    else (k, v) :: rest

/-- Method `QMap::insert(key, value)` on the info marks. -/
def InfoMarks.insert (m : InfoMarks) (k : Int) (v : TaskStylePtr) : InfoMarks :=
  ⟨InfoMarks.insertList k v m.entries⟩

/-- Structure `TimeLineItems::TimeLineItemsSettings`: the member that decides what is
visible; the height portions only enter the pixel computations. -/
structure TimeLineItemsSettings where
  eventsVisibleScale : Nat
  deriving DecidableEq, Repr

/-- The pixel computations of `calculateVisibleItems`, which the code does in floating
point from the size of the area and the height portions: the rectangle of a task and of an
event from the axis number, the offset of the intersection from the window start and its
length (in ms), and the position of an info mark from its offset. -/
structure PixelGeometry where
  taskRect : Nat → Int → Int → QRect
  eventRect : Nat → Int → Int → QRect
  markPos : Int → Int

/-- Class `TimeLineItems`: `mTaskStorage` is null or points to the storage of the world;
`mPos` is the position `QGraphicsItem::pos()` of the item, which `setSize` sets from integer
coordinates. -/
structure TimeLineItems where
  mTaskStorage : Option Unit
  mVisibleItems : List VisibleItem
  mInfoMarks : InfoMarks
  mItemStyles : StyleMap
  mCentralTime : QDateTime
  mTimeDelta : Nat
  mSettings : TimeLineItemsSettings
  mPos : QPoint
  deriving DecidableEq, Repr

namespace TimeLineItems

/-- The loop of `TimeLineItems::getItemUnderPos`: `result` collects the items hit so far. -/
def getItemUnderPosLoop (origin pos : QPoint) :
    List VisibleItem → List TimeLineItemPtr → List TimeLineItemPtr
  | [], result => result
  | visibleItem :: rest, result =>
    if visibleItem.rect.contains (pos.x - origin.x) (pos.y - origin.y) true then
      getItemUnderPosLoop origin pos rest (result ++ [visibleItem.item])
    else getItemUnderPosLoop origin pos rest result

/-- Method `TimeLineItems::getItemUnderPos(pos)`. -/
def getItemUnderPos (self : TimeLineItems) (pos : QPoint) : List TimeLineItemPtr :=
  getItemUnderPosLoop self.mPos pos self.mVisibleItems []

/-- The start of the event loop of `calculateVisibleItems`: `lowerBound` of the window
start, stepping over a first event that ends exactly at the window start. -/
def eventsFrom (w : World) (visibleRangeStartTime : QDateTime)
    (events : List (QDateTime × EventItemPtr)) : Option (List (QDateTime × EventItemPtr)) :=
  match QMap.lowerBoundList visibleRangeStartTime events with
  | [] => some []
  | (k, ptr) :: rest =>
    match ptr with
    | none => none
    | some e =>
      match w.events.find e with
      | none => none
      | some ev =>
        if ev.mEndTime = visibleRangeStartTime then some rest else some ((k, ptr) :: rest)

/-- The event loop of `calculateVisibleItems`: it runs while the event starts before the
window end and appends one visible item per event. -/
def collectEvents (w : World) (geom : PixelGeometry) (axis : Nat) (style : TaskStylePtr)
    (visibleRangeStartTime visibleRangeEndTime : QDateTime) :
    List (QDateTime × EventItemPtr) → Option (List VisibleItem)
  | [] => some []
  | (_, ptr) :: rest =>
    match ptr with
    | none => none
    | some e =>
      match w.events.find e with
      | none => none
      | some ev =>
        if QDateTime.lt ev.mStartTime visibleRangeEndTime then
          let intersection :=
            ev.toAbstractItem.getIntersection visibleRangeStartTime visibleRangeEndTime
          let itemRect := geom.eventRect axis
            (intersection.1.toMSecsSinceEpoch - visibleRangeStartTime.toMSecsSinceEpoch)
            (intersection.2.toMSecsSinceEpoch - intersection.1.toMSecsSinceEpoch)
          match collectEvents w geom axis style visibleRangeStartTime visibleRangeEndTime
              rest with
          | none => none
          | some items =>
            some ({ item := TimeLineItemPtr.event e, style := style, rect := itemRect } :: items)
        else some []

/-- The info mark loop of `calculateVisibleItems`, from the `lowerBound` of the window start
while the key is before the window end. -/
def collectMarks (geom : PixelGeometry) (style : TaskStylePtr)
    (visibleRangeStartTime visibleRangeEndTime : QDateTime) :
    List (QDateTime × EventItemPtr) → InfoMarks → InfoMarks
  | [], marks => marks
  | (k, _) :: rest, marks =>
    if QDateTime.lt k visibleRangeEndTime then
      collectMarks geom style visibleRangeStartTime visibleRangeEndTime rest
        (marks.insert
          (geom.markPos (k.toMSecsSinceEpoch - visibleRangeStartTime.toMSecsSinceEpoch)) style)
    else marks

/-- The body of the task loop of `calculateVisibleItems` for one stored task pointer; `acc`
holds `mVisibleItems` and `mInfoMarks` built so far. -/
def projectTask (self : TimeLineItems) (w : World) (geom : PixelGeometry)
    (visibleRangeStartTime visibleRangeEndTime : QDateTime) (taskPtr : TaskItemPtr)
    (acc : List VisibleItem × InfoMarks) : Option (List VisibleItem × InfoMarks) :=
  match taskPtr with
  | none => none
  | some a =>
    match w.tasks.find a with
    | none => none
    | some task =>
      if task.eventCount = 0 ∧ task.mEndTime.isValid = false then some acc
      else
        match self.mItemStyles.find task.mTaskType with
        | none => some acc
        | some (currAxisConsecNumber, style) =>
          let intersection :=
            task.toAbstractItem.getIntersection visibleRangeStartTime visibleRangeEndTime
          if intersection.1.isValid = false then some acc
          else
            let itemRect := geom.taskRect currAxisConsecNumber
              (intersection.1.toMSecsSinceEpoch - visibleRangeStartTime.toMSecsSinceEpoch)
              (intersection.2.toMSecsSinceEpoch - intersection.1.toMSecsSinceEpoch)
            let visible1 := acc.1 ++
              [{ item := TimeLineItemPtr.task a, style := style, rect := itemRect }]
            let marks1 := collectMarks geom style visibleRangeStartTime visibleRangeEndTime
              (QMap.lowerBoundList visibleRangeStartTime task.mEventsWithInfoSigh.entries) acc.2
            if self.mTimeDelta ≤ self.mSettings.eventsVisibleScale ∧ task.eventCount ≠ 0 then
              match eventsFrom w visibleRangeStartTime task.mEvent.entries with
              | none => none
              | some events =>
                match collectEvents w geom currAxisConsecNumber style visibleRangeStartTime
                    visibleRangeEndTime events with
                | none => none
                | some items => some (visible1 ++ items, marks1)
            else some (visible1, marks1)

/-- The task loop of `calculateVisibleItems` over the entries of the storage table. -/
def projectTasks (self : TimeLineItems) (w : World) (geom : PixelGeometry)
    (visibleRangeStartTime visibleRangeEndTime : QDateTime) :
    List (Nat × TaskItemPtr) → List VisibleItem × InfoMarks →
      Option (List VisibleItem × InfoMarks)
  | [], acc => some acc
  | (_, taskPtr) :: rest, acc =>
    match projectTask self w geom visibleRangeStartTime visibleRangeEndTime taskPtr acc with
    | none => none
    | some acc1 =>
      projectTasks self w geom visibleRangeStartTime visibleRangeEndTime rest acc1

/-- The start of the visible range, `mCentralTime.addMSecs(-1 * (quint64)mTimeDelta)`. -/
def visibleRangeStartTime (self : TimeLineItems) : QDateTime :=
  self.mCentralTime.addMSecs (toInt64 ((toQuint64 (-1) * self.mTimeDelta) % 2 ^ 64))

/-- The end of the visible range, `mCentralTime.addMSecs(mTimeDelta)`. -/
def visibleRangeEndTime (self : TimeLineItems) : QDateTime :=
  self.mCentralTime.addMSecs (toInt64 self.mTimeDelta)

/-- Method `TimeLineItems::calculateVisibleItems()`; `none` is a null or dangling
dereference. -/
def calculateVisibleItems (self : TimeLineItems) (w : World) (geom : PixelGeometry) :
    Option TimeLineItems :=
  if self.mTaskStorage = none ∨ self.mItemStyles.isEmpty = true then some self
  else
    match projectTasks self w geom self.visibleRangeStartTime self.visibleRangeEndTime
        w.mTasks.entries ([], ⟨[]⟩) with
    | none => none
    | some acc => some { self with mVisibleItems := acc.1, mInfoMarks := acc.2 }

end TimeLineItems

/-- The event pointer of a map entry is non-null and refers to a live event object. -/
def World.eventEntryLive (w : World) (ev : QDateTime × EventItemPtr) : Bool :=
  match ev.2 with
  | none => false
  | some e => (w.events.find e).isSome

/-- The task pointer of a storage entry is non-null and refers to a live task object whose
primary map holds live event pointers only. -/
def World.taskEntryLive (w : World) (kv : Nat × TaskItemPtr) : Bool :=
  match kv.2 with
  | none => false
  | some a =>
    match w.tasks.find a with
    | none => false
    | some t => t.mEvent.entries.all (World.eventEntryLive w)

/-- Every pointer reachable from the storage table, to a task or to an event of its primary
map, is non-null and refers to a live object. -/
def World.storedEventsLive (w : World) : Bool :=
  w.mTasks.entries.all (World.taskEntryLive w)

/-- The number of visible items that refer to the task object at address `a`. -/
def TimeLineItems.taskItemCount (a : Nat) (items : List VisibleItem) : Nat :=
  (items.filter fun v => decide (v.item = TimeLineItemPtr.task a)).length

/-- The conditions under which `calculateVisibleItems` shows the task `t`: its type has a
registered style, its interval intersects the visible range, and it is not the case that it
has zero events and an invalid end time. -/
def TimeLineItems.showsTask (self : TimeLineItems) (t : TaskItem) : Prop :=
  (self.mItemStyles.find t.mTaskType).isSome = true ∧
  (t.toAbstractItem.getIntersection self.visibleRangeStartTime
    self.visibleRangeEndTime).1.isValid = true ∧
  ¬ (t.eventCount = 0 ∧ t.mEndTime.isValid = false)

/-- Decidability of `TimeLineItems.showsTask`. -/
instance TimeLineItems.showsTaskDecidable (self : TimeLineItems) (t : TaskItem) :
    Decidable (self.showsTask t) := by
  unfold TimeLineItems.showsTask
  infer_instance

/-! ## Further example objects -/

/-- A grid with the default settings (zoom bounds one minute and one week), centred at 0,
with half-span `d`. -/
def exampleGrid (d : Nat) : TimeLineGrid :=
  { mTimeCenterMark := QDateTime.msecs 0
    mTimeDelta := d
    mSettings :=
      { borderIndentY := 15
        borderIndentX := 0
        maximumScale := TimeLineGrid.minute
        minimumScale := TimeLineGrid.week } }

/-- A pixel geometry with one pixel per millisecond and axes 20 pixels apart. -/
def exampleGeometry : PixelGeometry :=
  { taskRect := fun axis off len => QRect.ofSize off (100 - 20 * (axis : Int) - 2) len 5
    eventRect := fun axis off len => QRect.ofSize off (100 - 20 * (axis : Int) - 7) len 15
    markPos := fun off => off }

/-- An item painter attached to the storage, with a style for `TASK_TYPE_TEST_EXAMPLE` only,
centred at `c` with half-span `d`; events are visible up to a half-span of 20 minutes. -/
def exampleItems (c : Int) (d : Nat) : TimeLineItems :=
  { mTaskStorage := some ()
    mVisibleItems := []
    mInfoMarks := ⟨[]⟩
    mItemStyles := ⟨[(TimeLineTaskType.TASK_TYPE_TEST_EXAMPLE, some 0)]⟩
    mCentralTime := QDateTime.msecs c
    mTimeDelta := d
    mSettings := { eventsVisibleScale := 1200000 }
    mPos := { x := 0, y := 15 } }

/-- Heaps with one task object (identifier 1) and the event objects `[50, 60]` and
`[0, 100]`; the storage table is empty. -/
def nestedEventsHeap : World :=
  { tasks := ⟨[(0, exampleTask)]⟩,
    events := ⟨[(0, exampleEvent 50 60), (1, exampleEvent 0 100)]⟩,
    mTasks := NatMap.empty }

/-- The world `nestedEventsHeap` after `addTask` of the task and `addEvent(1, _)` of both
events: the primary map holds `[50, 60]` under 60 and `[0, 100]` under 100. -/
def nestedEventsWorld : World :=
  { tasks := ⟨[(0, { exampleTask with
        mEvent := ⟨[(QDateTime.msecs 60, some 0), (QDateTime.msecs 100, some 1)]⟩,
        mEndTime := QDateTime.msecs 100 })]⟩,
    events := ⟨[(0, { exampleEvent 50 60 with mParentTask := some 0 }),
      (1, { exampleEvent 0 100 with mParentTask := some 0 })]⟩,
    mTasks := ⟨[(1, some 0)]⟩ }

/-- A world with three stored tasks without events: task 1 over `[0, 100]` with a styled
type, task 2 of the same type with invalid start and end times, and task 3 over `[0, 100]`
whose type has no style in `exampleItems`. -/
def projectionWorld : World :=
  { tasks := ⟨[(0, { exampleTask with mEndTime := QDateTime.msecs 100 }),
      (1, { exampleTask with
        mTaskId := 2, mStartTime := QDateTime.invalid, mEndTime := QDateTime.invalid }),
      (2, { exampleTask with
        mTaskId := 3, mEndTime := QDateTime.msecs 100,
        mTaskType := TimeLineTaskType.TL_TASK_TYPE_INVALID })]⟩,
    events := NatMap.empty,
    mTasks := ⟨[(1, some 0), (2, some 1), (3, some 2)]⟩ }

/-- The painter `exampleItems 25 15` with three visible items: a task bar, an event bar on
top of it and a second event bar further right. -/
def hitTestItems : TimeLineItems :=
  { exampleItems 25 15 with
    mVisibleItems :=
      [VisibleItem.mk (TimeLineItemPtr.task 0) (some 0) (QRect.ofSize 0 98 30 5),
        VisibleItem.mk (TimeLineItemPtr.event 1) (some 0) (QRect.ofSize 0 93 30 15),
        VisibleItem.mk (TimeLineItemPtr.event 2) (some 0) (QRect.ofSize 40 93 30 15)] }

/-! ## Further definitions for TaskItem::addEvent -/

/-- A failed event over `[s, e]` that has no parent task yet. -/
def failedEvent (s e : Int) : EventItem :=
  { mStartTime := QDateTime.msecs s, mEndTime := QDateTime.msecs e,
    mStatus := EventStatus.EVENT_STATUS_FAILURE, mParentTask := none }

/-- The key under which `TaskItem::addEvent` files a failed event in the failure-marker
map: `start / 2 + end / 2`, each division truncating toward zero. -/
def TaskItem.failureTime (ev : EventItem) : QDateTime :=
  QDateTime.fromMSecsSinceEpoch
    (Int.tdiv ev.mStartTime.toMSecsSinceEpoch 2 + Int.tdiv ev.mEndTime.toMSecsSinceEpoch 2)

/-- Some event stored in the primary map of the task (an entry whose pointer resolves in the
event heap) has the end time `t`. -/
def TaskItem.hasStoredEventEndingAt (events : NatMap EventItem) (self : TaskItem)
    (t : QDateTime) : Prop :=
  ∃ entry ∈ self.mEvent.entries, ∃ a ev0, entry.2 = some a ∧ events.find a = some ev0 ∧
    ev0.mEndTime = t

/-- Every entry of the primary map is filed under the end time of the event it points to. -/
def TaskItem.keyedByEndTime (events : NatMap EventItem) (self : TaskItem) : Prop :=
  ∀ entry ∈ self.mEvent.entries, ∃ a ev0, entry.2 = some a ∧ events.find a = some ev0 ∧
    ev0.mEndTime = entry.1

/-- The task `exampleTask` after `addEvent` of the event `[10, 20]` at address 0. -/
def adjacentEventsTask : TaskItem :=
  { exampleTask with
    mEvent := ⟨[(QDateTime.msecs 20, some 0)]⟩, mEndTime := QDateTime.msecs 20 }

/-- A world whose task (identifier 1) is `adjacentEventsTask`; the event heap also holds the
failed event `[20, 30]`, not yet added. -/
def adjacentEventsWorld : World :=
  { tasks := ⟨[(0, adjacentEventsTask)]⟩,
    events := ⟨[(0, { exampleEvent 10 20 with mParentTask := some 0 }), (1, failedEvent 20 30)]⟩,
    mTasks := ⟨[(1, some 0)]⟩ }

/-! ## The loop of calculateStep with its iterations recorded -/

namespace TimeLineGrid

/-- The six time units of `calculateStep`, in ms. -/
def timeUnits : List Nat := [1000, 60000, 3600000, 86400000, 2592000000, 31536000000]

/-- A step of the form `k * U` with `U` one of the six units and `k` equal to 1, 2 or a
positive multiple of 5, where `k <= 30` when `U` is the second or the minute. -/
def NiceStep (s : Nat) : Prop :=
  ∃ U ∈ timeUnits, s % U = 0 ∧
    (s / U = 1 ∨ s / U = 2 ∨ (0 < s / U ∧ (s / U) % 5 = 0)) ∧
    ((U = 1000 ∨ U = 60000) → s / U ≤ 30)

/-- The values of one iteration of the loop of `calculateStep` at its two divisions:
`timeUnit` and `tempStepMsec` at `tempStepMsec / timeUnit`, the rounded `numberOfUnits`, and
the new `tempStepMsec` that is the divisor of `2 * mTimeDelta / tempStepMsec`. -/
structure StepIteration where
  timeUnit : Nat
  tempStepMsec : Nat
  numberOfUnits : Int
  nextStepMsec : Nat
  deriving DecidableEq, Repr

/-- The loop of `calculateStep` (the same code as `calculateStepLoop`) that also records the
iterations it runs; at a crash the values not computed are recorded as 0. -/
def calculateStepTrace (span : Nat) (maxNumberOfTextMarks : Int) :
    Nat → Nat → Nat → List StepIteration × Run Nat
  | 0, _, _ => ([], Run.outOfFuel)
  | fuel + 1, timeUnit0, tempStepMsec0 =>
    let timeUnit : Nat :=
      if minute ≤ tempStepMsec0 ∧ tempStepMsec0 < hour then minute
      else if hour ≤ tempStepMsec0 ∧ tempStepMsec0 < day then hour
      else if day ≤ tempStepMsec0 ∧ tempStepMsec0 < month then day
      else if month ≤ tempStepMsec0 ∧ tempStepMsec0 < year then month
      else if year ≤ tempStepMsec0 then year
      else timeUnit0
    if timeUnit = 0 then ([⟨timeUnit, tempStepMsec0, 0, 0⟩], Run.crash)
    else
      let numberOfUnits0 : Int := toInt32 (tempStepMsec0 / timeUnit)
      let numberOfUnits : Int :=
        if numberOfUnits0 > 2 then 5 * ((numberOfUnits0 + 4) / 5) else numberOfUnits0
      if numberOfUnits ≥ 2 ^ 31 then ([⟨timeUnit, tempStepMsec0, numberOfUnits, 0⟩], Run.crash)
      else
        let tempStepMsec1 : Nat := (toQuint64 numberOfUnits * timeUnit) % 2 ^ 64
        if tempStepMsec1 = 0 then
          ([⟨timeUnit, tempStepMsec0, numberOfUnits, tempStepMsec1⟩], Run.crash)
        else
          let currNumberOfTimeMarks : Int := toInt32 (span / tempStepMsec1)
          if currNumberOfTimeMarks > maxNumberOfTextMarks then
            let tempStepMsec2 : Nat :=
              if timeUnit = second then (tempStepMsec1 + second) % 2 ^ 64
              else if timeUnit = minute then (tempStepMsec1 + minute) % 2 ^ 64
              else if timeUnit = hour then (tempStepMsec1 + hour) % 2 ^ 64
              else if timeUnit = day then (tempStepMsec1 + day) % 2 ^ 64
              else if timeUnit = month then year
              else if timeUnit = year then (tempStepMsec1 + year) % 2 ^ 64
              else tempStepMsec1
            (⟨timeUnit, tempStepMsec0, numberOfUnits, tempStepMsec1⟩ ::
                (calculateStepTrace span maxNumberOfTextMarks fuel timeUnit tempStepMsec2).1,
              (calculateStepTrace span maxNumberOfTextMarks fuel timeUnit tempStepMsec2).2)
          else if (timeUnit = second ∨ timeUnit = minute) ∧ numberOfUnits > 30 then
            (⟨timeUnit, tempStepMsec0, numberOfUnits, tempStepMsec1⟩ ::
                (calculateStepTrace span maxNumberOfTextMarks fuel timeUnit
                  ((60 * timeUnit) % 2 ^ 64)).1,
              (calculateStepTrace span maxNumberOfTextMarks fuel timeUnit
                  ((60 * timeUnit) % 2 ^ 64)).2)
          else
            ([⟨timeUnit, tempStepMsec0, numberOfUnits, tempStepMsec1⟩],
              Run.done (if span > day ∧ timeUnit < day then day else tempStepMsec1))

/-- Method `TimeLineGrid::calculateStep` with the iterations of its loop recorded. -/
def calculateStepTraced (self : TimeLineGrid) (fuel : Nat) (maxNumberOfTextMarks : Int) :
    List StepIteration × Run Nat :=
  let span : Nat := (2 * self.mTimeDelta) % 2 ^ 64
  if toQuint64 maxNumberOfTextMarks = 0 then ([], Run.crash)
  else
    let stepMsec : Nat := span / toQuint64 maxNumberOfTextMarks
    if stepMsec < second then ([], Run.done (2 ^ 64 - 1))
    else calculateStepTrace span maxNumberOfTextMarks fuel second stepMsec

/-- The divisions of an iteration are safe: the unit is at least one second and not above
`tempStepMsec`, the unit count is at least 1 and the new `tempStepMsec` is at least one
unit. -/
def StepIteration.safe (it : StepIteration) : Prop :=
  1000 ≤ it.timeUnit ∧ it.timeUnit ≤ it.tempStepMsec ∧ 1 ≤ it.numberOfUnits ∧
    it.timeUnit ≤ it.nextStepMsec

end TimeLineGrid

/-! ## Statement-level view of TimeLineGrid::setTimeRange -/

namespace TimeLineGrid

/-- The statements that occur in the body of `setTimeRange`. -/
inductive SetTimeRangeStmt where
  | assignCenterMark : SetTimeRangeStmt
  | assignTimeDelta : SetTimeRangeStmt
  | update : SetTimeRangeStmt
  | returnValue : Bool → SetTimeRangeStmt
  | emitRangeChanged : SetTimeRangeStmt
  deriving DecidableEq, Repr

/-- Sequential execution of statements of `setTimeRange` on the grid and the list of signals
emitted so far; a `return` ends the execution, so that the statements after it are not run.
The first component is the returned value, if a `return` was reached. -/
def execStmts (centralTime : QDateTime) (timeDelta : Nat) :
    List SetTimeRangeStmt → TimeLineGrid × List (QDateTime × QDateTime) →
      Option Bool × TimeLineGrid × List (QDateTime × QDateTime)
  | [], st => (none, st.1, st.2)
  | SetTimeRangeStmt.returnValue b :: _, st => (some b, st.1, st.2)
  | SetTimeRangeStmt.assignCenterMark :: rest, st =>
    execStmts centralTime timeDelta rest ({ st.1 with mTimeCenterMark := centralTime }, st.2)
  | SetTimeRangeStmt.assignTimeDelta :: rest, st =>
    execStmts centralTime timeDelta rest ({ st.1 with mTimeDelta := timeDelta }, st.2)
  | SetTimeRangeStmt.update :: rest, st => execStmts centralTime timeDelta rest st
  | SetTimeRangeStmt.emitRangeChanged :: rest, st =>
    execStmts centralTime timeDelta rest (st.1, st.2 ++
      [(st.1.mTimeCenterMark.addMSecs (toInt64 ((toQuint64 (-1) * timeDelta) % 2 ^ 64)),
        st.1.mTimeCenterMark.addMSecs (toInt64 timeDelta))])

/-- The body of `setTimeRange` statement by statement: the block of the `if` in source
order, followed by the final `return false`. -/
def setTimeRangeStmts (self : TimeLineGrid) (centralTime : QDateTime) (timeDelta : Nat) :
    Option Bool × TimeLineGrid × List (QDateTime × QDateTime) :=
  if timeDelta ≥ self.mSettings.maximumScale ∧ timeDelta ≤ self.mSettings.minimumScale then
    execStmts centralTime timeDelta
      [SetTimeRangeStmt.assignCenterMark, SetTimeRangeStmt.assignTimeDelta,
        SetTimeRangeStmt.update, SetTimeRangeStmt.returnValue true,
        SetTimeRangeStmt.emitRangeChanged, SetTimeRangeStmt.returnValue false] (self, [])
  else execStmts centralTime timeDelta [SetTimeRangeStmt.returnValue false] (self, [])

end TimeLineGrid

/-! ## SphereTimeLineScroller -/

namespace SphereTimeLineScroller

/-- Constant `mFreeFallAcceleration`. -/
def mFreeFallAcceleration : ℚ := 10

/-- The local `scrollTime` of `startScrolling`,
`std::abs(mInitialVelocity / (mFrictionCoeff * mFreeFallAcceleration)) * 1000`, in exact
rational arithmetic. -/
def scrollTime (mInitialVelocity mFrictionCoeff : ℚ) : ℚ :=
  abs (mInitialVelocity / (mFrictionCoeff * mFreeFallAcceleration)) * 1000

/-- The local `acceleration` of `onUpdateScroll` after the direction test. -/
def acceleration (mInitialVelocity mFrictionCoeff : ℚ) : ℚ :=
  if mInitialVelocity > 0 then -(mFrictionCoeff * mFreeFallAcceleration / 1000)
  else mFrictionCoeff * mFreeFallAcceleration / 1000

/-- The local `newPos` of `onUpdateScroll` as a function of the elapsed time, in exact
rational arithmetic; the time is rational so that the end of the duration is a value of
it. -/
def newPos (mInitialVelocity mFrictionCoeff elapsedTime : ℚ) : ℚ :=
  mInitialVelocity * elapsedTime
    + acceleration mInitialVelocity mFrictionCoeff * elapsedTime * elapsedTime / 2

/-- The position computed by `onUpdateScroll` when the time line reports the `int`
`elapsedTime`. -/
def onUpdateScroll (mInitialVelocity mFrictionCoeff : ℚ) (elapsedTime : Int) : ℚ :=
  newPos mInitialVelocity mFrictionCoeff (elapsedTime : ℚ)

end SphereTimeLineScroller

/-! ## Info marks of TimeLineItems -/

/-- Lookup in the list of info marks. -/
def InfoMarks.findList (k : Int) : List (Int × TaskStylePtr) → Option TaskStylePtr
  | [] => none
  | (k0, v0) :: rest => if k = k0 then some v0 else InfoMarks.findList k rest

/-- Method `QMap::find(key)` on the info marks; `none` stands for the `end()` iterator. -/
def InfoMarks.find (m : InfoMarks) (k : Int) : Option TaskStylePtr :=
  InfoMarks.findList k m.entries

/-- The keys of the map are strictly ascending, as in every `QMap`. -/
def QMap.Sorted {α : Type} (m : QMap α) : Prop :=
  m.entries.Pairwise fun a b => QDateTime.lt a.1 b.1 = true

/-- Decidability of `QMap.Sorted`. -/
instance QMap.sortedDecidable {α : Type} (m : QMap α) : Decidable m.Sorted := by
  unfold QMap.Sorted
  infer_instance

/-- The failure-marker map of every stored task has strictly ascending keys. -/
def World.storedMarkersSorted (w : World) : Bool :=
  w.mTasks.entries.all fun kv =>
    match kv.2 with
    | none => true
    | some a =>
      match w.tasks.find a with
      | none => true
      | some t => decide t.mEventsWithInfoSigh.Sorted

/-- Some task among the storage entries `es` that the projection pass shows has the style
`st` and a failure marker inside the visible range whose pixel position is `p`. -/
def TimeLineItems.marksPixel (self : TimeLineItems) (w : World) (geom : PixelGeometry)
    (es : List (Nat × TaskItemPtr)) (p : Int) (st : TaskStylePtr) : Prop :=
  ∃ kv ∈ es, ∃ a t, kv.2 = some a ∧ w.tasks.find a = some t ∧ self.showsTask t ∧
    (self.mItemStyles.find t.mTaskType).map Prod.snd = some st ∧
    ∃ entry ∈ t.mEventsWithInfoSigh.entries,
      QDateTime.lt entry.1 self.visibleRangeStartTime = false ∧
      QDateTime.lt entry.1 self.visibleRangeEndTime = true ∧
      geom.markPos (entry.1.toMSecsSinceEpoch
        - self.visibleRangeStartTime.toMSecsSinceEpoch) = p

/-- The entry of a primary map is filed under the end time of the event it points to, and
that event starts strictly before it ends. -/
def World.eventEntryProper (w : World) (x : QDateTime × EventItemPtr) : Bool :=
  match x.2 with
  | none => false
  | some e =>
    match w.events.find e with
    | none => false
    | some ev => decide (ev.mEndTime = x.1) && QDateTime.lt ev.mStartTime ev.mEndTime

/-- The primary map of every stored task has strictly ascending keys, files every event
under its end time and holds only events that start strictly before they end. -/
def World.storedEventsProper (w : World) : Bool :=
  w.mTasks.entries.all fun kv =>
    match kv.2 with
    | none => true
    | some a =>
      match w.tasks.find a with
      | none => true
      | some t => decide t.mEvent.Sorted && t.mEvent.entries.all (World.eventEntryProper w)

/-- The visible item is an event item for a live event whose intersection with the window
`[vs, ve]` is valid, and its rectangle is computed from that intersection. -/
def TimeLineItems.eventItemValid (w : World) (geom : PixelGeometry) (vs ve : QDateTime)
    (v : VisibleItem) : Prop :=
  ∀ e, v.item = TimeLineItemPtr.event e →
    ∃ ev axis, w.events.find e = some ev ∧
      (ev.toAbstractItem.getIntersection vs ve).1.isValid = true ∧
      v.rect = geom.eventRect axis
        ((ev.toAbstractItem.getIntersection vs ve).1.toMSecsSinceEpoch - vs.toMSecsSinceEpoch)
        ((ev.toAbstractItem.getIntersection vs ve).2.toMSecsSinceEpoch
          - (ev.toAbstractItem.getIntersection vs ve).1.toMSecsSinceEpoch)

/-- Heaps with one task object over `[1000, 2000]` (identifier 1) and the failed event
`[0, 100]`; the storage table is empty. -/
def markerOutsideTaskHeap : World :=
  { tasks := ⟨[(0, { exampleTask with
        mStartTime := QDateTime.msecs 1000, mEndTime := QDateTime.msecs 2000 })]⟩,
    events := ⟨[(0, failedEvent 0 100)]⟩,
    mTasks := NatMap.empty }

/-- A world whose task (identifier 1, interval `[1000, 2000]`, styled type) holds the failed
event `[0, 100]`, filed in the failure-marker map under 50. -/
def markerOutsideTaskWorld : World :=
  { tasks := ⟨[(0, { exampleTask with
        mStartTime := QDateTime.msecs 1000, mEndTime := QDateTime.msecs 2000,
        mEvent := ⟨[(QDateTime.msecs 100, some 0)]⟩,
        mEventsWithInfoSigh := ⟨[(QDateTime.msecs 50, some 0)]⟩ })]⟩,
    events := ⟨[(0, { failedEvent 0 100 with mParentTask := some 0 })]⟩,
    mTasks := ⟨[(1, some 0)]⟩ }

/-- A world with two tasks over `[0, 100]` of different types, each holding one failed event
`[40, 60]`, filed in its failure-marker map under 50. -/
def markerClashWorld : World :=
  { tasks := ⟨[(0, { exampleTask with
        mEndTime := QDateTime.msecs 100,
        mEvent := ⟨[(QDateTime.msecs 60, some 0)]⟩,
        mEventsWithInfoSigh := ⟨[(QDateTime.msecs 50, some 0)]⟩ }),
      (1, { exampleTask with
        mTaskId := 2, mEndTime := QDateTime.msecs 100,
        mTaskType := TimeLineTaskType.TL_TASK_TYPE_INVALID,
        mEvent := ⟨[(QDateTime.msecs 60, some 1)]⟩,
        mEventsWithInfoSigh := ⟨[(QDateTime.msecs 50, some 1)]⟩ })]⟩,
    events := ⟨[(0, { failedEvent 40 60 with mParentTask := some 0 }),
      (1, { failedEvent 40 60 with mParentTask := some 1 })]⟩,
    mTasks := ⟨[(1, some 0), (2, some 1)]⟩ }

/-- The painter `exampleItems c d` with a second style, for `TL_TASK_TYPE_INVALID`. -/
def twoStyleItems (c : Int) (d : Nat) : TimeLineItems :=
  { exampleItems c d with
    mItemStyles := ⟨[(TimeLineTaskType.TASK_TYPE_TEST_EXAMPLE, some 0),
      (TimeLineTaskType.TL_TASK_TYPE_INVALID, some 1)]⟩ }

/-- Heaps with one task object over `[0, 100]` (identifier 1) and the zero-length event
`[20, 20]`; the storage table is empty. -/
def zeroLengthEventHeap : World :=
  { tasks := ⟨[(0, { exampleTask with mEndTime := QDateTime.msecs 100 })]⟩,
    events := ⟨[(0, exampleEvent 20 20)]⟩,
    mTasks := NatMap.empty }

/-- The world `zeroLengthEventHeap` after `addTask` of the task and `addEvent(1, _)` of the
event. -/
def zeroLengthEventWorld : World :=
  { tasks := ⟨[(0, { exampleTask with
        mEndTime := QDateTime.msecs 100,
        mEvent := ⟨[(QDateTime.msecs 20, some 0)]⟩ })]⟩,
    events := ⟨[(0, { exampleEvent 20 20 with mParentTask := some 0 })]⟩,
    mTasks := ⟨[(1, some 0)]⟩ }

/-! ## Basic facts about the containers and the time order -/

theorem QDateTime.lt_irrefl (a : QDateTime) : QDateTime.lt a a = false := by
  cases a <;> simp [QDateTime.lt]

theorem QDateTime.lt_asymm {a b : QDateTime} (h : QDateTime.lt a b = true) :
    QDateTime.lt b a = false := by
  cases a <;> cases b <;> simp_all [QDateTime.lt]
  omega

theorem QDateTime.ge_refl (a : QDateTime) : QDateTime.ge a a = true := by
  simp [QDateTime.ge, QDateTime.lt_irrefl]

theorem QDateTime.ge_invalid (a : QDateTime) : QDateTime.ge a QDateTime.invalid = true := by
  cases a <;> simp [QDateTime.ge, QDateTime.lt]

theorem QDateTime.ge_trans {a b c : QDateTime} (h1 : QDateTime.ge a b = true)
    (h2 : QDateTime.ge b c = true) : QDateTime.ge a c = true := by
  cases a <;> cases b <;> cases c <;> simp_all [QDateTime.ge, QDateTime.lt]
  omega

theorem QDateTime.max_msecs (x y : Int) :
    QDateTime.max (QDateTime.msecs x) (QDateTime.msecs y) = QDateTime.msecs (Max.max x y) := by
  unfold QDateTime.max QDateTime.lt
  by_cases h : x < y
  · simp [h, max_eq_right (le_of_lt h)]
  · simp [h, max_eq_left (not_lt.mp h)]

theorem QDateTime.min_msecs (x y : Int) :
    QDateTime.min (QDateTime.msecs x) (QDateTime.msecs y) = QDateTime.msecs (Min.min x y) := by
  unfold QDateTime.min QDateTime.lt
  by_cases h : y < x
  · simp [h, min_eq_right (le_of_lt h)]
  · simp [h, min_eq_left (not_lt.mp h)]

theorem QMap.insertList_idem {α : Type} (k : QDateTime) (v : α) (l : List (QDateTime × α)) :
    QMap.insertList k v (QMap.insertList k v l) = QMap.insertList k v l := by
  induction l with
  | nil => simp [QMap.insertList, QDateTime.lt_irrefl]
  | cons hd rest ih =>
    obtain ⟨k0, v0⟩ := hd
    by_cases h1 : QDateTime.lt k k0 = true
    · simp [QMap.insertList, h1, QDateTime.lt_irrefl]
    · by_cases h2 : QDateTime.lt k0 k = true
      · simp [QMap.insertList, h1, h2, ih]
      · simp [QMap.insertList, h1, h2, QDateTime.lt_irrefl]

theorem QMap.insert_idem {α : Type} (m : QMap α) (k : QDateTime) (v : α) :
    (m.insert k v).insert k v = m.insert k v := by
  simp [QMap.insert, QMap.insertList_idem]

theorem NatMap.findList_insertList_self {α : Type} (k : Nat) (v : α) (l : List (Nat × α)) :
    NatMap.findList k (NatMap.insertList k v l) = some v := by
  induction l with
  | nil => simp [NatMap.insertList, NatMap.findList]
  | cons hd rest ih =>
    obtain ⟨k0, v0⟩ := hd
    by_cases h : k = k0
    · simp [NatMap.insertList, NatMap.findList, h]
    · simp [NatMap.insertList, NatMap.findList, h, ih]

theorem NatMap.findList_insertList_ne {α : Type} (k j : Nat) (v : α) (l : List (Nat × α))
    (hne : j ≠ k) : NatMap.findList j (NatMap.insertList k v l) = NatMap.findList j l := by
  induction l with
  | nil => simp [NatMap.insertList, NatMap.findList, hne]
  | cons hd rest ih =>
    obtain ⟨k0, v0⟩ := hd
    by_cases h : k = k0
    · subst h
      simp [NatMap.insertList, NatMap.findList, hne]
    · by_cases hj : j = k0
      · simp [NatMap.insertList, NatMap.findList, h, hj]
      · simp [NatMap.insertList, NatMap.findList, h, hj, ih]

theorem NatMap.insertList_of_findList {α : Type} (k : Nat) (v : α) (l : List (Nat × α))
    (h : NatMap.findList k l = some v) : NatMap.insertList k v l = l := by
  induction l with
  | nil => simp [NatMap.findList] at h
  | cons hd rest ih =>
    obtain ⟨k0, v0⟩ := hd
    by_cases hk : k = k0
    · subst hk
      simp [NatMap.findList] at h
      simp [NatMap.insertList, h]
    · simp [NatMap.findList, hk] at h
      simp [NatMap.insertList, hk, ih h]

theorem NatMap.findList_removeList_self {α : Type} (k : Nat) (l : List (Nat × α)) :
    NatMap.findList k (NatMap.removeList k l) = none := by
  induction l with
  | nil => simp [NatMap.removeList, NatMap.findList]
  | cons hd rest ih =>
    obtain ⟨k0, v0⟩ := hd
    by_cases h : k = k0
    · simp [NatMap.removeList, h] at ih ⊢
      exact ih
    · simp [NatMap.removeList, NatMap.findList, h, ih]

theorem NatMap.findList_removeList_ne {α : Type} (k j : Nat) (l : List (Nat × α))
    (hne : j ≠ k) : NatMap.findList j (NatMap.removeList k l) = NatMap.findList j l := by
  induction l with
  | nil => simp [NatMap.removeList, NatMap.findList]
  | cons hd rest ih =>
    obtain ⟨k0, v0⟩ := hd
    by_cases h : k = k0
    · subst h
      simp [NatMap.removeList, NatMap.findList, hne, ih]
    · by_cases hj : j = k0
      · simp [NatMap.removeList, NatMap.findList, h, hj]
      · simp [NatMap.removeList, NatMap.findList, h, hj, ih]

theorem NatMap.find_insert_self {α : Type} (m : NatMap α) (k : Nat) (v : α) :
    (m.insert k v).find k = some v :=
  NatMap.findList_insertList_self k v m.entries

theorem NatMap.find_insert_ne {α : Type} (m : NatMap α) (k j : Nat) (v : α) (hne : j ≠ k) :
    (m.insert k v).find j = m.find j :=
  NatMap.findList_insertList_ne k j v m.entries hne

theorem NatMap.insert_of_find {α : Type} (m : NatMap α) (k : Nat) (v : α)
    (h : m.find k = some v) : m.insert k v = m := by
  cases m with
  | mk entries =>
    simp only [NatMap.insert]
    congr
    exact NatMap.insertList_of_findList k v entries h

theorem NatMap.find_remove_self {α : Type} (m : NatMap α) (k : Nat) :
    (m.remove k).find k = none :=
  NatMap.findList_removeList_self k m.entries

theorem NatMap.find_remove_ne {α : Type} (m : NatMap α) (k j : Nat) (hne : j ≠ k) :
    (m.remove k).find j = m.find j :=
  NatMap.findList_removeList_ne k j m.entries hne

theorem NatMap.mem_of_findList {α : Type} (k : Nat) (v : α) (l : List (Nat × α))
    (h : NatMap.findList k l = some v) : (k, v) ∈ l := by
  induction l with
  | nil => simp [NatMap.findList] at h
  | cons hd rest ih =>
    obtain ⟨k0, v0⟩ := hd
    by_cases hk : k = k0
    · subst hk
      simp [NatMap.findList] at h
      simp [h]
    · simp [NatMap.findList, hk] at h
      exact List.mem_cons_of_mem _ (ih h)

/-- A pointer found in a storage table whose entries are all live is non-null and resolves
to a task object. -/
theorem World.live_of_find (w : World) (hlive : w.storedTasksLive = true) (k : Nat)
    (p : TaskItemPtr) (h : w.mTasks.find k = some p) :
    ∃ a t, p = some a ∧ w.tasks.find a = some t := by
  have hmem := NatMap.mem_of_findList k p w.mTasks.entries h
  have hall := List.all_eq_true.mp hlive (k, p) hmem
  cases p with
  | none => simp at hall
  | some a =>
    cases hf : w.tasks.find a with
    | none => simp [hf] at hall
    | some t => exact ⟨a, t, rfl, hf⟩

/-! ## TaskItem::addEvent -/

theorem TaskItem.addEvent_fst (self : TaskItem) (e : Nat × EventItem) :
    (self.addEvent (some e)).1 = true := by
  obtain ⟨addr, ev⟩ := e
  simp only [TaskItem.addEvent]
  split <;> rfl

theorem TaskItem.addEvent_infinite (self : TaskItem) (e : Nat × EventItem) :
    (self.addEvent (some e)).2.mIsInfinite = self.mIsInfinite := by
  obtain ⟨addr, ev⟩ := e
  simp only [TaskItem.addEvent]
  split <;> rfl

theorem TaskItem.addEvent_end_ge (self : TaskItem) (e : Nat × EventItem) :
    QDateTime.ge (self.addEvent (some e)).2.mEndTime self.mEndTime = true := by
  obtain ⟨addr, ev⟩ := e
  simp only [TaskItem.addEvent]
  split
  · simp only
    split
    · rename_i h
      simp only [Bool.and_eq_true, Bool.or_eq_true] at h
      rcases h.2 with h2 | h2
      · simp [QDateTime.ge, QDateTime.lt_asymm h2]
      · cases hE : self.mEndTime with
        | invalid => exact QDateTime.ge_invalid _
        | msecs x => simp [hE, QDateTime.isValid] at h2
    · exact QDateTime.ge_refl _
  · exact QDateTime.ge_refl _

theorem TaskItem.addEvent_end_ge_inserted (self : TaskItem) (e : Nat × EventItem)
    (hfin : self.mIsInfinite = false) (hnew : self.mEvent.contains e.2.mStartTime = false) :
    QDateTime.ge (self.addEvent (some e)).2.mEndTime e.2.mEndTime = true := by
  obtain ⟨addr, ev⟩ := e
  simp only at hnew
  simp only [TaskItem.addEvent, hnew, hfin, Bool.not_false, Bool.true_and, if_true]
  split
  · exact QDateTime.ge_refl _
  · rename_i h
    simp only [Bool.or_eq_true, not_or, Bool.not_eq_true] at h
    simp [QDateTime.ge, h.1]

theorem TaskItem.addEvents_end_ge (seq : List (Nat × EventItem)) (self : TaskItem) :
    QDateTime.ge (self.addEvents seq).mEndTime self.mEndTime = true := by
  induction seq generalizing self with
  | nil => exact QDateTime.ge_refl _
  | cons e rest ih =>
    exact QDateTime.ge_trans (ih (self.addEvent (some e)).2) (TaskItem.addEvent_end_ge self e)

theorem TaskItem.addEvent_some (self : TaskItem) (addr : Nat) (ev : EventItem) :
    self.addEvent (some (addr, ev)) =
      if self.mEvent.contains ev.mStartTime then (true, self)
      else (true, { self with
        mEvent := self.mEvent.insert ev.mEndTime (some addr),
        mEventsWithInfoSigh :=
          if ev.mStatus = EventStatus.EVENT_STATUS_FAILURE then
            self.mEventsWithInfoSigh.insert (QDateTime.fromMSecsSinceEpoch
              (Int.tdiv ev.mStartTime.toMSecsSinceEpoch 2 + Int.tdiv ev.mEndTime.toMSecsSinceEpoch 2))
              (some addr)
          else self.mEventsWithInfoSigh,
        mEndTime :=
          if !self.mIsInfinite && (QDateTime.lt self.mEndTime ev.mEndTime || !self.mEndTime.isValid)
          then ev.mEndTime else self.mEndTime }) := by
  simp only [TaskItem.addEvent]
  cases h : self.mEvent.contains ev.mStartTime <;> simp

/-- Re-running the end-time update of `TaskItem::addEvent` with the same event end time does
not change the end time again. -/
theorem TaskItem.endUpdate_idem (inf : Bool) (e t : QDateTime) :
    (if !inf && (QDateTime.lt (if !inf && (QDateTime.lt e t || !e.isValid) then t else e) t
        || !(if !inf && (QDateTime.lt e t || !e.isValid) then t else e).isValid)
      then t else (if !inf && (QDateTime.lt e t || !e.isValid) then t else e))
    = (if !inf && (QDateTime.lt e t || !e.isValid) then t else e) := by
  cases e with
  | invalid => cases inf <;> cases t <;> simp [QDateTime.lt, QDateTime.isValid]
  | msecs a =>
    cases t with
    | invalid => cases inf <;> simp [QDateTime.lt, QDateTime.isValid]
    | msecs b => by_cases h : a < b <;> cases inf <;> simp [QDateTime.lt, QDateTime.isValid, h]

/-- C3: for every task and every non-null event, a second `TaskItem::addEvent` of the same
event right after the first returns true and leaves the task exactly as the first call left
it; in particular `eventCount()`, the primary event map, the failure-marker map and the end
time are the same. -/
theorem TaskItem.addEvent_twice_same (self : TaskItem) (addr : Nat) (ev : EventItem) :
    ((self.addEvent (some (addr, ev))).2.addEvent (some (addr, ev)))
        = (true, (self.addEvent (some (addr, ev))).2) ∧
    ((self.addEvent (some (addr, ev))).2.addEvent (some (addr, ev))).2.eventCount
        = (self.addEvent (some (addr, ev))).2.eventCount ∧
    ((self.addEvent (some (addr, ev))).2.addEvent (some (addr, ev))).2.mEvent
        = (self.addEvent (some (addr, ev))).2.mEvent ∧
    ((self.addEvent (some (addr, ev))).2.addEvent (some (addr, ev))).2.mEventsWithInfoSigh
        = (self.addEvent (some (addr, ev))).2.mEventsWithInfoSigh ∧
    ((self.addEvent (some (addr, ev))).2.addEvent (some (addr, ev))).2.mEndTime
        = (self.addEvent (some (addr, ev))).2.mEndTime := by
  have key : (self.addEvent (some (addr, ev))).2.addEvent (some (addr, ev))
      = (true, (self.addEvent (some (addr, ev))).2) := by
    by_cases h : self.mEvent.contains ev.mStartTime = true
    · have h1 : self.addEvent (some (addr, ev)) = (true, self) := by
        rw [TaskItem.addEvent_some, if_pos h]
      rw [h1]
      exact h1
    · have h1 := TaskItem.addEvent_some self addr ev
      rw [if_neg h] at h1
      rw [h1]
      simp only
      rw [TaskItem.addEvent_some]
      split_ifs with h2 hs <;>
        first
          | rfl
          | simp only [QMap.insert_idem, TaskItem.endUpdate_idem]
  rw [key]
  exact ⟨rfl, rfl, rfl, rfl, rfl⟩

/-- C2 (the code at the failing input): the task holds the event `[10, 20]`, stored under its
end time 20; adding a second event with the same start time 10 and end 30 is not recognised
as a duplicate: `eventCount()` goes from 1 to 2 and the end time moves from 20 to 30. -/
theorem TaskItem.addEvent_same_start_is_inserted :
    (exampleEvent 10 20).mStartTime = (exampleEvent 10 30).mStartTime ∧
    (exampleTask.addEvent (some (0, exampleEvent 10 20))).2.eventCount = 1 ∧
    (exampleTask.addEvent (some (0, exampleEvent 10 20))).2.mEndTime = QDateTime.msecs 20 ∧
    ((exampleTask.addEvent (some (0, exampleEvent 10 20))).2.addEvent
      (some (1, exampleEvent 10 30))).2.eventCount = 2 ∧
    ((exampleTask.addEvent (some (0, exampleEvent 10 20))).2.addEvent
      (some (1, exampleEvent 10 30))).2.mEndTime = QDateTime.msecs 30 := by
  decide

/-- C4 as stated fails: on the finite task `exampleTask` the events `[10, 10]` and
`[10, 50]` are added in this order, both calls return true, the second one is skipped as a
duplicate, and the end time afterwards (10) is not `>=` the end time 50 of the second event. -/
theorem TaskItem.addEvents_end_misses_duplicate :
    exampleTask.mIsInfinite = false ∧
    (exampleTask.addEvent (some (0, exampleEvent 10 10))).1 = true ∧
    ((exampleTask.addEvent (some (0, exampleEvent 10 10))).2.addEvent
      (some (1, exampleEvent 10 50))).1 = true ∧
    (exampleTask.addEvents [(0, exampleEvent 10 10), (1, exampleEvent 10 50)]).mEndTime
      = QDateTime.msecs 10 ∧
    QDateTime.ge
      (exampleTask.addEvents [(0, exampleEvent 10 10), (1, exampleEvent 10 50)]).mEndTime
      (exampleEvent 10 50).mEndTime = false := by
  decide

/-- C4 (amended): for every finite task and every finite sequence of non-null events passed
one after another to `TaskItem::addEvent`, every call returns true, and the end time
afterwards is `>=` the end time of every event of the sequence that its call inserted (an
event skipped by the duplicate check does not extend the end time). -/
theorem TaskItem.addEvents_end_covers_inserted (seq : List (Nat × EventItem)) (self : TaskItem)
    (hfin : self.mIsInfinite = false) :
    (∀ t : TaskItem, ∀ e ∈ seq, (t.addEvent (some e)).1 = true) ∧
    ∀ e ∈ self.insertedEvents seq,
      QDateTime.ge (self.addEvents seq).mEndTime e.2.mEndTime = true := by
  refine ⟨fun t e _ => TaskItem.addEvent_fst t e, ?_⟩
  induction seq generalizing self with
  | nil => intro e he; simp [TaskItem.insertedEvents] at he
  | cons e0 rest ih =>
    have hfin1 : (self.addEvent (some e0)).2.mIsInfinite = false := by
      rw [TaskItem.addEvent_infinite]; exact hfin
    intro e he
    by_cases hc : self.mEvent.contains e0.2.mStartTime = true
    · simp only [TaskItem.insertedEvents, hc, Bool.not_true] at he
      exact ih _ hfin1 e he
    · have hc1 : self.mEvent.contains e0.2.mStartTime = false := by
        simpa using hc
      simp only [TaskItem.insertedEvents, hc1, Bool.not_false, if_true] at he
      rcases List.mem_cons.mp he with h | h
      · subst h
        exact QDateTime.ge_trans (TaskItem.addEvents_end_ge rest _)
          (TaskItem.addEvent_end_ge_inserted self e hfin hc1)
      · exact ih _ hfin1 e h

/-- Witness for C4 (amended): events `[10, 10]`, `[10, 50]` (skipped) and `[30, 40]` on
`exampleTask`; the end time afterwards covers the inserted event `[30, 40]`. -/
theorem TaskItem.addEvents_end_covers_inserted_witness :
    exampleTask.mIsInfinite = false ∧
    QDateTime.ge
      (exampleTask.addEvents
        [(0, exampleEvent 10 10), (1, exampleEvent 10 50), (2, exampleEvent 30 40)]).mEndTime
      (QDateTime.msecs 40) = true :=
  ⟨rfl, (TaskItem.addEvents_end_covers_inserted
      [(0, exampleEvent 10 10), (1, exampleEvent 10 50), (2, exampleEvent 30 40)]
      exampleTask rfl).2 (2, exampleEvent 30 40) (by decide)⟩

/-- C5: for every task with a valid end time (finite in particular) and every non-null event
(with a valid end time in particular), the end time after `TaskItem::addEvent` is valid and
`>=` the end time before the call; the same holds after any sequence of such calls. -/
theorem TaskItem.addEvent_end_monotone (self : TaskItem) (addr : Nat) (ev : EventItem)
    (seq : List (Nat × EventItem)) (hvalid : self.mEndTime.isValid = true) :
    ((self.addEvent (some (addr, ev))).2.mEndTime.isValid = true ∧
      QDateTime.le self.mEndTime (self.addEvent (some (addr, ev))).2.mEndTime = true) ∧
    ((self.addEvents seq).mEndTime.isValid = true ∧
      QDateTime.le self.mEndTime (self.addEvents seq).mEndTime = true) := by
  have valid_of_ge : ∀ a : QDateTime, QDateTime.ge a self.mEndTime = true → a.isValid = true := by
    intro a ha
    cases a with
    | msecs x => rfl
    | invalid =>
      cases hE : self.mEndTime with
      | invalid => rw [hE] at hvalid; exact hvalid
      | msecs y => rw [hE] at ha; simp [QDateTime.ge, QDateTime.lt] at ha
  have h1 := TaskItem.addEvent_end_ge self (addr, ev)
  have h2 := TaskItem.addEvents_end_ge seq self
  exact ⟨⟨valid_of_ge _ h1, h1⟩, ⟨valid_of_ge _ h2, h2⟩⟩

/-- Witness for C5: the finite task `exampleTask` (end 0) receives the event `[10, 20]`,
then the sequence `[5, 7]`, `[30, 40]`. -/
theorem TaskItem.addEvent_end_monotone_witness :
    (exampleTask.mIsInfinite = false ∧ exampleTask.mEndTime.isValid = true ∧
      (exampleEvent 10 20).mEndTime.isValid = true) ∧
    ((exampleTask.addEvent (some (0, exampleEvent 10 20))).2.mEndTime.isValid = true ∧
      QDateTime.le exampleTask.mEndTime
        (exampleTask.addEvent (some (0, exampleEvent 10 20))).2.mEndTime = true) ∧
    ((exampleTask.addEvents [(1, exampleEvent 5 7), (2, exampleEvent 30 40)]).mEndTime.isValid
        = true ∧
      QDateTime.le exampleTask.mEndTime
        (exampleTask.addEvents [(1, exampleEvent 5 7), (2, exampleEvent 30 40)]).mEndTime
        = true) :=
  ⟨by decide,
    TaskItem.addEvent_end_monotone exampleTask 0 (exampleEvent 10 20)
      [(1, exampleEvent 5 7), (2, exampleEvent 30 40)] rfl⟩

/-! ## AbstractItem::getIntersection -/

theorem AbstractItem.getIntersection_msecs (a1 a2 b1 b2 : Int) :
    (AbstractItem.mk (QDateTime.msecs a1) (QDateTime.msecs a2)).getIntersection
        (QDateTime.msecs b1) (QDateTime.msecs b2)
      = if b1 < b2 ∧ Max.max b1 a1 < Min.min b2 a2
        then (QDateTime.msecs (Max.max b1 a1), QDateTime.msecs (Min.min b2 a2))
        else (QDateTime.invalid, QDateTime.invalid) := by
  unfold AbstractItem.getIntersection
  by_cases h : b1 < b2
  · by_cases h2 : Max.max b1 a1 < Min.min b2 a2
    · simp [QDateTime.lt, QDateTime.ge, QDateTime.max_msecs, QDateTime.min_msecs, h, h2]
    · simp [QDateTime.lt, QDateTime.ge, QDateTime.max_msecs, QDateTime.min_msecs, h, h2]
  · simp [QDateTime.lt, QDateTime.ge, h]

/-- C10: for an item interval `[a1, a2]` and a window `[b1, b2]` of valid times with
`a1 <= a2` and `b1 <= b2`, `AbstractItem::getIntersection` returns the invalid pair iff
`max(a1, b1) >= min(a2, b2)`; otherwise it returns exactly `(max(a1, b1), min(a2, b2))`,
whose start is strictly before its end; and the result is the same when item and window
swap roles. -/
theorem AbstractItem.getIntersection_spec (a1 a2 b1 b2 : Int) (hA : a1 ≤ a2) (hB : b1 ≤ b2) :
    ((AbstractItem.mk (QDateTime.msecs a1) (QDateTime.msecs a2)).getIntersection
        (QDateTime.msecs b1) (QDateTime.msecs b2) = (QDateTime.invalid, QDateTime.invalid)
      ↔ Min.min a2 b2 ≤ Max.max a1 b1) ∧
    (¬ (Min.min a2 b2 ≤ Max.max a1 b1) →
      (AbstractItem.mk (QDateTime.msecs a1) (QDateTime.msecs a2)).getIntersection
          (QDateTime.msecs b1) (QDateTime.msecs b2)
        = (QDateTime.msecs (Max.max a1 b1), QDateTime.msecs (Min.min a2 b2)) ∧
      Max.max a1 b1 < Min.min a2 b2) ∧
    (AbstractItem.mk (QDateTime.msecs a1) (QDateTime.msecs a2)).getIntersection
        (QDateTime.msecs b1) (QDateTime.msecs b2)
      = (AbstractItem.mk (QDateTime.msecs b1) (QDateTime.msecs b2)).getIntersection
        (QDateTime.msecs a1) (QDateTime.msecs a2) := by
  rw [AbstractItem.getIntersection_msecs, AbstractItem.getIntersection_msecs,
    max_comm b1 a1, min_comm b2 a2]
  have key : (b1 < b2 ∧ Max.max a1 b1 < Min.min a2 b2) ↔ Max.max a1 b1 < Min.min a2 b2 := by
    constructor
    · exact fun h => h.2
    · intro h
      refine ⟨?_, h⟩
      have h1 := le_max_right a1 b1
      have h2 := min_le_right a2 b2
      omega
  have key2 : (a1 < a2 ∧ Max.max a1 b1 < Min.min a2 b2) ↔ Max.max a1 b1 < Min.min a2 b2 := by
    constructor
    · exact fun h => h.2
    · intro h
      refine ⟨?_, h⟩
      have h1 := le_max_left a1 b1
      have h2 := min_le_left a2 b2
      omega
  simp only [key, key2]
  refine ⟨?_, ?_, trivial⟩
  · by_cases h : Max.max a1 b1 < Min.min a2 b2
    · rw [if_pos h]
      constructor
      · intro heq
        cases (Prod.mk.inj heq).1
      · intro hle
        exact absurd h (not_lt.mpr hle)
    · rw [if_neg h]
      exact ⟨fun _ => not_lt.mp h, fun _ => rfl⟩
  · intro h
    have h3 := not_le.mp h
    rw [if_pos h3]
    exact ⟨rfl, h3⟩

/-- Witness for C10: the item `[0, 10]` and the window `[5, 20]` intersect in `[5, 10]`. -/
theorem AbstractItem.getIntersection_spec_witness :
    (AbstractItem.mk (QDateTime.msecs 0) (QDateTime.msecs 10)).getIntersection
        (QDateTime.msecs 5) (QDateTime.msecs 20) = (QDateTime.msecs 5, QDateTime.msecs 10) ∧
    (((AbstractItem.mk (QDateTime.msecs 0) (QDateTime.msecs 10)).getIntersection
        (QDateTime.msecs 5) (QDateTime.msecs 20) = (QDateTime.invalid, QDateTime.invalid)
      ↔ Min.min (10 : Int) 20 ≤ Max.max (0 : Int) 5) ∧
    (¬ (Min.min (10 : Int) 20 ≤ Max.max (0 : Int) 5) →
      (AbstractItem.mk (QDateTime.msecs 0) (QDateTime.msecs 10)).getIntersection
          (QDateTime.msecs 5) (QDateTime.msecs 20)
        = (QDateTime.msecs (Max.max (0 : Int) 5), QDateTime.msecs (Min.min (10 : Int) 20)) ∧
      Max.max (0 : Int) 5 < Min.min (10 : Int) 20) ∧
    (AbstractItem.mk (QDateTime.msecs 0) (QDateTime.msecs 10)).getIntersection
        (QDateTime.msecs 5) (QDateTime.msecs 20)
      = (AbstractItem.mk (QDateTime.msecs 5) (QDateTime.msecs 20)).getIntersection
        (QDateTime.msecs 0) (QDateTime.msecs 10)) :=
  ⟨by decide, AbstractItem.getIntersection_spec 0 10 5 20 (by decide) (by decide)⟩

/-! ## TaskStorage -/

/-- The example worlds are what the storage operations produce from `freshWorld`. -/
theorem TaskStorage.example_worlds_reachable :
    TaskStorage.addTask freshWorld (some 0) = some (true, oneTaskWorld) ∧
    TaskStorage.addEvent oneTaskWorld 1 (some 0) = some (true, oneEventWorld) ∧
    TaskStorage.addTask oneTaskWorld (some 1) = some (true, twoTaskWorld) ∧
    TaskStorage.addTask { sameIdWorld with mTasks := NatMap.empty } (some 0)
      = some (true, sameIdWorld) := by
  decide

/-- C1: in a world whose stored pointers are live, `TaskStorage::removeTask(taskId)` removes
the entry iff a task is stored under `taskId` and its `eventCount()` is 0: in that case the
table has no entry under `taskId` afterwards; in every other case the world is unchanged, so
`getTask(taskId)` returns the same task.  Entries under other identifiers and the objects in
the heaps are never affected. -/
theorem TaskStorage.removeTask_spec (w : World) (taskId : Nat)
    (hlive : w.storedTasksLive = true) :
    ∃ w1, TaskStorage.removeTask w taskId = some w1 ∧
      ((∃ a t, w.mTasks.find taskId = some (some a) ∧ w.tasks.find a = some t ∧
            t.eventCount = 0) →
          w1.mTasks.find taskId = none ∧ TaskStorage.getTask w1 taskId = none) ∧
      (¬ (∃ a t, w.mTasks.find taskId = some (some a) ∧ w.tasks.find a = some t ∧
            t.eventCount = 0) →
          w1 = w ∧ TaskStorage.getTask w1 taskId = TaskStorage.getTask w taskId) ∧
      (∀ other, other ≠ taskId → w1.mTasks.find other = w.mTasks.find other) ∧
      w1.tasks = w.tasks ∧ w1.events = w.events := by
  cases hf : w.mTasks.find taskId with
  | none =>
    refine ⟨w, by simp [TaskStorage.removeTask, hf], ?_, ?_, fun _ _ => rfl, rfl, rfl⟩
    · rintro ⟨a, t, h, _⟩
      cases h
    · intro _
      exact ⟨rfl, rfl⟩
  | some p =>
    obtain ⟨a, t, hp, ht⟩ := World.live_of_find w hlive taskId p hf
    subst hp
    by_cases hc : t.eventCount = 0
    · refine ⟨{ w with mTasks := w.mTasks.remove taskId }, ?_, ?_, ?_, ?_, rfl, rfl⟩
      · simp [TaskStorage.removeTask, hf, ht, hc]
      · intro _
        have h0 : (w.mTasks.remove taskId).find taskId = none :=
          NatMap.find_remove_self w.mTasks taskId
        exact ⟨h0, by simp [TaskStorage.getTask, h0]⟩
      · intro hn
        exact absurd ⟨a, t, rfl, ht, hc⟩ hn
      · intro other hne
        exact NatMap.find_remove_ne w.mTasks taskId other hne
    · refine ⟨w, by simp [TaskStorage.removeTask, hf, ht, hc], ?_, ?_, fun _ _ => rfl, rfl, rfl⟩
      · rintro ⟨a1, t1, h1, h2, h3⟩
        cases h1
        rw [ht] at h2
        cases h2
        exact absurd h3 hc
      · intro _
        exact ⟨rfl, rfl⟩

/-- Witness for C1: task T (identifier 1) was added and received one event; `removeTask(1)`
leaves the world as it was and `getTask(1)` still returns T. -/
theorem TaskStorage.removeTask_spec_witness :
    TaskStorage.addTask freshWorld (some 0) = some (true, oneTaskWorld) ∧
    TaskStorage.addEvent oneTaskWorld 1 (some 0) = some (true, oneEventWorld) ∧
    oneEventWorld.storedTasksLive = true ∧
    TaskStorage.removeTask oneEventWorld 1 = some oneEventWorld ∧
    TaskStorage.getTask oneEventWorld 1 = some 0 ∧
    ∃ w1, TaskStorage.removeTask oneEventWorld 1 = some w1 ∧
      ((∃ a t, oneEventWorld.mTasks.find 1 = some (some a) ∧
            oneEventWorld.tasks.find a = some t ∧ t.eventCount = 0) →
          w1.mTasks.find 1 = none ∧ TaskStorage.getTask w1 1 = none) ∧
      (¬ (∃ a t, oneEventWorld.mTasks.find 1 = some (some a) ∧
            oneEventWorld.tasks.find a = some t ∧ t.eventCount = 0) →
          w1 = oneEventWorld ∧
          TaskStorage.getTask w1 1 = TaskStorage.getTask oneEventWorld 1) ∧
      (∀ other, other ≠ 1 → w1.mTasks.find other = oneEventWorld.mTasks.find other) ∧
      w1.tasks = oneEventWorld.tasks ∧ w1.events = oneEventWorld.events :=
  ⟨by decide, by decide, by decide, by decide, by decide,
    TaskStorage.removeTask_spec oneEventWorld 1 (by decide)⟩

/-- C6 as stated fails: the storage holds under identifier 1 a task with end time 100;
`addTask` of another task object with identifier 1 and the earlier end time 50 keeps the
stored object but sets its end time to 50, not to `max(100, 50) = 100`. -/
theorem TaskStorage.addTask_existing_takes_earlier_end :
    sameIdWorld.taskEndTime 0 = some (QDateTime.msecs 100) ∧
    sameIdWorld.taskEndTime 1 = some (QDateTime.msecs 50) ∧
    (TaskStorage.addTask sameIdWorld (some 1)).map
        (fun r => (r.1, TaskStorage.getTask r.2 1, r.2.taskEndTime 0))
      = some (true, some 0, some (QDateTime.msecs 50)) ∧
    (TaskStorage.addTask sameIdWorld (some 1)).map (fun r => r.2.taskEndTime 0)
      ≠ some (some (QDateTime.max (QDateTime.msecs 100) (QDateTime.msecs 50))) := by
  decide

/-- C6 (amended): for every store that already holds a task object under identifier `k` and
every non-null task `t` with `getTaskId() == k`, `TaskStorage::addTask(t)` returns true, keeps
the existing task object stored under `k` (the table is unchanged) and sets the end time of
that object to the end time of `t`, whether later or earlier; the other fields of the
object, every other task object and every event object are unchanged. -/
theorem TaskStorage.addTask_existing (w : World) (pt pe : Nat) (t existingTask : TaskItem)
    (ht : w.tasks.find pt = some t) (hk : w.mTasks.find t.mTaskId = some (some pe))
    (he : w.tasks.find pe = some existingTask) :
    ∃ w1, TaskStorage.addTask w (some pt) = some (true, w1) ∧
      w1.mTasks = w.mTasks ∧ TaskStorage.getTask w1 t.mTaskId = some pe ∧
      w1.tasks.find pe = some { existingTask with mEndTime := t.mEndTime } ∧
      (∀ a, a ≠ pe → w1.tasks.find a = w.tasks.find a) ∧
      w1.events = w.events := by
  by_cases hd : existingTask.mEndTime = t.mEndTime
  · refine ⟨w, ?_, rfl, ?_, ?_, fun _ _ => rfl, rfl⟩
    · simp [TaskStorage.addTask, ht, hk, he, QDateTime.ne, hd]
    · simp [TaskStorage.getTask, hk]
    · rw [he, ← hd]
  · refine ⟨{ w with tasks := w.tasks.insert pe { existingTask with mEndTime := t.mEndTime } },
      ?_, rfl, ?_, ?_, ?_, rfl⟩
    · simp [TaskStorage.addTask, ht, hk, he, QDateTime.ne, hd]
    · simp [TaskStorage.getTask, hk]
    · exact NatMap.find_insert_self _ _ _
    · intro a hne
      exact NatMap.find_insert_ne _ _ _ _ hne

/-- Witness for C6 (amended): in `sameIdWorld` the task object at address 1 (identifier 1, end
50) is added while the object at address 0 (end 100) is stored under identifier 1. -/
theorem TaskStorage.addTask_existing_witness :
    ∃ w1, TaskStorage.addTask sameIdWorld (some 1) = some (true, w1) ∧
      w1.mTasks = sameIdWorld.mTasks ∧ TaskStorage.getTask w1 1 = some 0 ∧
      w1.tasks.find 0 = some { exampleTask with mEndTime := QDateTime.msecs 50 } ∧
      (∀ a, a ≠ 0 → w1.tasks.find a = sameIdWorld.tasks.find a) ∧
      w1.events = sameIdWorld.events :=
  TaskStorage.addTask_existing sameIdWorld 1 0
    { exampleTask with mEndTime := QDateTime.msecs 50 }
    { exampleTask with mEndTime := QDateTime.msecs 100 } (by decide) (by decide) (by decide)

/-- Within the 32-bit range of its parameter (`taskId < 2 ^ 32`), in a world whose stored
pointers are live and with an event pointer that is null or refers to a live event object,
`TaskStorage::addEvent(taskId, event)` returns false iff no task is stored under `taskId` or
`event` is null; and whenever it returns false the world (the table, every task with its
events, failure markers and end time, every event) is unchanged. -/
theorem TaskStorage.addEvent_false_iff (w : World) (taskId : Nat) (event : EventItemPtr)
    (hid : taskId < 2 ^ 32) (hlive : w.storedTasksLive = true)
    (hev : ∀ e, event = some e → (w.events.find e).isSome = true) :
    ∃ r w1, TaskStorage.addEvent w taskId event = some (r, w1) ∧
      (r = false ↔ (TaskStorage.getTask w taskId = none ∨ event = none)) ∧
      (r = false → w1 = w) := by
  have hmod : taskId % 2 ^ 32 = taskId := Nat.mod_eq_of_lt hid
  have hmod2 : taskId % 4294967296 = taskId := hmod
  cases hf : w.mTasks.find taskId with
  | none =>
    refine ⟨false, w, ?_, ?_, fun _ => rfl⟩
    · simp [TaskStorage.addEvent, hmod2, hf]
    · simp [TaskStorage.getTask, hf]
  | some p =>
    obtain ⟨a, t, hp, ht⟩ := World.live_of_find w hlive taskId p hf
    subst hp
    cases event with
    | none =>
      refine ⟨false, w, ?_, ?_, fun _ => rfl⟩
      · have hw : ({ w with tasks := w.tasks.insert a t } : World) = w := by
          rw [NatMap.insert_of_find w.tasks a t ht]
        simp [TaskStorage.addEvent, hmod2, hf, ht, TaskItem.addEvent, hw]
      · simp
    | some e =>
      cases hfe : w.events.find e with
      | none =>
        have := hev e rfl
        rw [hfe] at this
        cases this
      | some ev =>
        refine ⟨true, { w with
          tasks := w.tasks.insert a (t.addEvent (some (e, ev))).2,
          events := w.events.insert e (ev.setParentTask (some a)).2 }, ?_, ?_, ?_⟩
        · simp only [TaskStorage.addEvent, hmod, hf, ht, hfe, TaskItem.addEvent_fst, if_true]
        · simp [TaskStorage.getTask, hf]
        · intro h
          cases h

/-- An instance of the 32-bit case: in `oneTaskWorld` (one task under identifier 1) adding the
live event at address 0 under the unknown identifier 7 returns false and changes nothing. -/
theorem TaskStorage.addEvent_false_iff_witness :
    TaskStorage.addEvent oneTaskWorld 7 (some 0) = some (false, oneTaskWorld) ∧
    TaskStorage.addEvent oneTaskWorld 1 none = some (false, oneTaskWorld) ∧
    ∃ r w1, TaskStorage.addEvent oneTaskWorld 7 (some 0) = some (r, w1) ∧
      (r = false ↔ (TaskStorage.getTask oneTaskWorld 7 = none ∨ (some 0 : EventItemPtr) = none)) ∧
      (r = false → w1 = oneTaskWorld) :=
  ⟨by decide, by decide,
    TaskStorage.addEvent_false_iff oneTaskWorld 7 (some 0) (by decide) (by decide)
      (by intro e he; cases he; decide)⟩

/-- Within the 32-bit range of its parameter, a successful `TaskStorage::addEvent` sets the
back-reference of the event to the task object stored under the given identifier. -/
theorem TaskStorage.addEvent_sets_parent (w : World) (taskId e a : Nat) (t : TaskItem)
    (ev : EventItem) (hid : taskId < 2 ^ 32) (hf : w.mTasks.find taskId = some (some a))
    (ht : w.tasks.find a = some t) (hfe : w.events.find e = some ev) :
    ∃ w1, TaskStorage.addEvent w taskId (some e) = some (true, w1) ∧
      TaskStorage.getTask w1 taskId = some a ∧
      (w1.events.find e).map (fun x => x.mParentTask) = some (some a) := by
  have hmod : taskId % 2 ^ 32 = taskId := Nat.mod_eq_of_lt hid
  refine ⟨{ w with
    tasks := w.tasks.insert a (t.addEvent (some (e, ev))).2,
    events := w.events.insert e (ev.setParentTask (some a)).2 }, ?_, ?_, ?_⟩
  · simp only [TaskStorage.addEvent, hmod, hf, ht, hfe, TaskItem.addEvent_fst, if_true]
  · simp [TaskStorage.getTask, hf]
  · simp [NatMap.find_insert_self, EventItem.setParentTask]

/-- C7 (the code at the failing inputs): task identifiers and the keys of the store are
`quint64`, the parameter of `TaskStorage::addEvent` is a `quint32`, and the equivalence fails
in both directions.  In `oneTaskWorld` no task is stored under `2 ^ 32 + 1` and the event is
non-null, yet `addEvent(2 ^ 32 + 1, e)` returns true and the event lands in the task stored
under identifier 1.  In `defaultIdWorld` (reached by `addTask`) a task is stored under
`2 ^ 64 - 1` and the event is non-null, yet `addEvent(2 ^ 64 - 1, e)` returns false (and
leaves the world as it was). -/
theorem TaskStorage.addEvent_result_ignores_high_bits :
    (oneTaskWorld.storedTasksLive = true ∧ (oneTaskWorld.events.find 0).isSome = true ∧
      TaskStorage.getTask oneTaskWorld (2 ^ 32 + 1) = none ∧
      (TaskStorage.addEvent oneTaskWorld (2 ^ 32 + 1) (some 0)).map
          (fun r => (r.1, (r.2.tasks.find 0).map TaskItem.eventCount, r.2.parentTaskId 0))
        = some (true, some 1, some 1) ∧
      (oneTaskWorld.tasks.find 0).map TaskItem.eventCount = some 0) ∧
    (defaultIdWorld.storedTasksLive = true ∧ (defaultIdWorld.events.find 0).isSome = true ∧
      TaskStorage.addTask { defaultIdWorld with mTasks := NatMap.empty } (some 0)
        = some (true, defaultIdWorld) ∧
      TaskStorage.getTask defaultIdWorld (2 ^ 64 - 1) = some 0 ∧
      TaskStorage.addEvent defaultIdWorld (2 ^ 64 - 1) (some 0)
        = some (false, defaultIdWorld)) := by
  decide

/-- C8 (the code at the failing input): tasks are stored under the identifiers 1 and
`2 ^ 32 + 1`; `addEvent(2 ^ 32 + 1, e)` returns true but, its parameter being a `quint32`,
hands the event to the task stored under identifier 1: afterwards
`e.getParentTask()->getTaskId()` is 1, the task under 1 holds one event and the task under
`2 ^ 32 + 1` none. -/
theorem TaskStorage.addEvent_truncates_task_id :
    TaskStorage.getTask twoTaskWorld (2 ^ 32 + 1) = some 1 ∧
    (TaskStorage.addEvent twoTaskWorld (2 ^ 32 + 1) (some 0)).map
        (fun r => (r.1, r.2.parentTaskId 0))
      = some (true, some 1) ∧
    (TaskStorage.addEvent twoTaskWorld (2 ^ 32 + 1) (some 0)).map
        (fun r => ((r.2.tasks.find 0).map TaskItem.eventCount,
          (r.2.tasks.find 1).map TaskItem.eventCount))
      = some (some 1, some 0) := by
  decide

/-- C9 (the code at the failing input): the task under identifier 1 has no events; after
`addEvent(1, e)` with `e = [10, 20]` returned true, `getEvent(1, 10)` (the start time of `e`)
returns the null pointer, while `getEvent(1, 20)` (its end time) returns `e`. -/
theorem TaskStorage.getEvent_misses_start_time :
    (oneTaskWorld.tasks.find 0).map TaskItem.eventCount = some 0 ∧
    TaskStorage.addEvent oneTaskWorld 1 (some 0) = some (true, oneEventWorld) ∧
    (oneEventWorld.events.find 0).map (fun ev => ev.mStartTime) = some (QDateTime.msecs 10) ∧
    TaskStorage.getEvent oneEventWorld 1 (QDateTime.msecs 10) = some none ∧
    TaskStorage.getEvent oneEventWorld 1 (QDateTime.msecs 20) = some (some 0) := by
  decide

/-! ## TimeLineGrid::calculateStep -/

namespace TimeLineGrid

theorem toInt32_of_lt (n : Nat) (h : n < 2147483648) : toInt32 n = (n : Int) := by
  unfold toInt32
  have h1 : n % 2 ^ 32 = n := Nat.mod_eq_of_lt (by omega)
  rw [h1]
  simp
  omega

theorem toQuint64_natCast (n : Nat) (h : n < 2 ^ 64) : toQuint64 (n : Int) = n := by
  unfold toQuint64
  omega

theorem roundedUnits_bounds (n : Nat) : n ≤ roundedUnits n ∧ roundedUnits n ≤ n + 4 ∧ (1 ≤ n → 1 ≤ roundedUnits n) := by
  unfold roundedUnits
  split <;> omega

theorem roundedUnits_cast (n : Nat) :
    (if (n : Int) > 2 then 5 * (((n : Int) + 4) / 5) else (n : Int)) = ((roundedUnits n : Nat) : Int) := by
  unfold roundedUnits
  split <;> split <;> omega

theorem classify_eq (unit temp : Nat) (h1 : 1000 ≤ temp) (hinv : temp < 60000 → unit = 1000) :
    (if minute ≤ temp ∧ temp < hour then minute
      else if hour ≤ temp ∧ temp < day then hour
      else if day ≤ temp ∧ temp < month then day
      else if month ≤ temp ∧ temp < year then month
      else if year ≤ temp then year
      else unit) = bracketUnit temp := by
  simp only [minute, hour, day, month, year, second, bracketUnit]
  split_ifs <;> omega

theorem bracketUnit_cases (temp : Nat) :
    (bracketUnit temp = 1000 ∧ temp < 60000) ∨
    (bracketUnit temp = 60000 ∧ 60000 ≤ temp ∧ temp < 3600000) ∨
    (bracketUnit temp = 3600000 ∧ 3600000 ≤ temp ∧ temp < 86400000) ∨
    (bracketUnit temp = 86400000 ∧ 86400000 ≤ temp ∧ temp < 2592000000) ∨
    (bracketUnit temp = 2592000000 ∧ 2592000000 ≤ temp ∧ temp < 31536000000) ∨
    (bracketUnit temp = 31536000000 ∧ 31536000000 ≤ temp) := by
  unfold bracketUnit
  split_ifs <;> omega

theorem bracketUnit_bounds (temp : Nat) (h : 1000 ≤ temp) :
    1000 ≤ bracketUnit temp ∧ bracketUnit temp ≤ temp ∧ bracketUnit temp ≤ 31536000000 := by
  rcases bracketUnit_cases temp with h1 | h1 | h1 | h1 | h1 | h1 <;> omega

theorem switch_eq (U T : Nat) (hT : T + U < 2 ^ 64)
    (hU : U = 1000 ∨ U = 60000 ∨ U = 3600000 ∨ U = 86400000 ∨ U = 2592000000 ∨ U = 31536000000) :
    (if U = second then (T + second) % 2 ^ 64
      else if U = minute then (T + minute) % 2 ^ 64
      else if U = hour then (T + hour) % 2 ^ 64
      else if U = day then (T + day) % 2 ^ 64
      else if U = month then year
      else if U = year then (T + year) % 2 ^ 64
      else T) = if U = 2592000000 then 31536000000 else T + U := by
  simp only [minute, hour, day, month, year, second]
  rcases hU with h | h | h | h | h | h <;> subst h <;> simp <;> omega

theorem calculateStepLoop_succ (span : Nat) (m : Int) (fuel unit temp : Nat)
    (h1 : 1000 ≤ temp) (h2 : temp ≤ 9300000000000000000)
    (hc : span / roundedStep temp < 2147483648) (hinv : temp < 60000 → unit = 1000) :
    calculateStepLoop span m (fuel + 1) unit temp =
      if ((span / roundedStep temp : Nat) : Int) > m then
        calculateStepLoop span m fuel (bracketUnit temp)
          (if bracketUnit temp = 2592000000 then 31536000000
            else roundedStep temp + bracketUnit temp)
      else if (bracketUnit temp = 1000 ∨ bracketUnit temp = 60000) ∧
          roundedUnits (temp / bracketUnit temp) > 30 then
        calculateStepLoop span m fuel (bracketUnit temp) (60 * bracketUnit temp)
      else Run.done (if span > 86400000 ∧ bracketUnit temp < 86400000 then 86400000
        else roundedStep temp) := by
  obtain ⟨hU1, hU2, hU3⟩ := bracketUnit_bounds temp h1
  have hUc : bracketUnit temp = 1000 ∨ bracketUnit temp = 60000 ∨ bracketUnit temp = 3600000 ∨
      bracketUnit temp = 86400000 ∨ bracketUnit temp = 2592000000 ∨
      bracketUnit temp = 31536000000 := by
    rcases bracketUnit_cases temp with h | h | h | h | h | h <;> omega
  have hn0 : temp / bracketUnit temp < 1000000000 := by
    rcases bracketUnit_cases temp with h | h | h | h | h | h <;> rw [h.1] <;> omega
  have hn : temp / bracketUnit temp < 2147483648 := by omega
  have hn1 : 1 ≤ temp / bracketUnit temp := (Nat.one_le_div_iff (by omega)).mpr hU2
  obtain ⟨hx1, hx2, hx3⟩ := roundedUnits_bounds (temp / bracketUnit temp)
  have hx4 := hx3 hn1
  have hT1 : roundedStep temp ≤ temp + 4 * bracketUnit temp := by
    unfold roundedStep
    calc roundedUnits (temp / bracketUnit temp) * bracketUnit temp
        ≤ (temp / bracketUnit temp + 4) * bracketUnit temp := Nat.mul_le_mul_right _ hx2
      _ = temp / bracketUnit temp * bracketUnit temp + 4 * bracketUnit temp := by ring
      _ ≤ temp + 4 * bracketUnit temp := by
          have := Nat.div_mul_le_self temp (bracketUnit temp)
          omega
  have hT2 : bracketUnit temp ≤ roundedStep temp := by
    unfold roundedStep
    calc bracketUnit temp = 1 * bracketUnit temp := by ring
      _ ≤ roundedUnits (temp / bracketUnit temp) * bracketUnit temp :=
          Nat.mul_le_mul_right _ hx4
  rw [calculateStepLoop]
  simp only [classify_eq unit temp h1 hinv]
  have hz : ¬ (bracketUnit temp = 0) := by omega
  rw [if_neg hz]
  simp only [toInt32_of_lt _ hn, roundedUnits_cast]
  have hx5 : ¬ (((roundedUnits (temp / bracketUnit temp) : Nat) : Int) ≥ 2 ^ 31) := by
    omega
  rw [if_neg hx5]
  rw [toQuint64_natCast _ (by omega)]
  have hmod : (roundedUnits (temp / bracketUnit temp) * bracketUnit temp) % 2 ^ 64
      = roundedStep temp := by
    unfold roundedStep at hT1 ⊢
    exact Nat.mod_eq_of_lt (by omega)
  simp only [hmod]
  have hz2 : ¬ (roundedStep temp = 0) := by omega
  rw [if_neg hz2]
  rw [toInt32_of_lt _ hc, switch_eq _ _ (by omega) hUc]
  have h60 : (60 * bracketUnit temp) % 2 ^ 64 = 60 * bracketUnit temp :=
    Nat.mod_eq_of_lt (by omega)
  simp only [h60, second, minute, hour, day]
  norm_num

theorem roundedStep_bounds (temp : Nat) (h1 : 1000 ≤ temp) :
    bracketUnit temp ≤ roundedStep temp ∧ temp < roundedStep temp + bracketUnit temp ∧
    roundedStep temp ≤ temp + 4 * bracketUnit temp := by
  obtain ⟨hU1, hU2, hU3⟩ := bracketUnit_bounds temp h1
  have hn0 : 1 ≤ temp / bracketUnit temp := (Nat.one_le_div_iff (by omega)).mpr hU2
  obtain ⟨hx1, hx2, hx3⟩ := roundedUnits_bounds (temp / bracketUnit temp)
  have hx4 := hx3 hn0
  have h3 : temp / bracketUnit temp * bracketUnit temp ≤ roundedStep temp := by
    unfold roundedStep
    exact Nat.mul_le_mul_right _ hx1
  have h4 : temp < temp / bracketUnit temp * bracketUnit temp + bracketUnit temp := by
    have := Nat.lt_div_mul_add (a := temp) (b := bracketUnit temp) (by omega)
    omega
  have h5 := Nat.div_mul_le_self temp (bracketUnit temp)
  refine ⟨?_, by omega, ?_⟩
  · unfold roundedStep
    calc bracketUnit temp = 1 * bracketUnit temp := by ring
      _ ≤ roundedUnits (temp / bracketUnit temp) * bracketUnit temp :=
          Nat.mul_le_mul_right _ hx4
  · unfold roundedStep
    calc roundedUnits (temp / bracketUnit temp) * bracketUnit temp
        ≤ (temp / bracketUnit temp + 4) * bracketUnit temp := Nat.mul_le_mul_right _ hx2
      _ = temp / bracketUnit temp * bracketUnit temp + 4 * bracketUnit temp := by ring
      _ ≤ temp + 4 * bracketUnit temp := by omega

theorem calculateStep_infeasible (self : TimeLineGrid) (maxLabels : Nat) (h1 : 1 ≤ maxLabels)
    (h2 : maxLabels ≤ 2 ^ 30) (hd : self.mTimeDelta ≤ 2 ^ 62)
    (hinf : 2 * self.mTimeDelta / maxLabels < 1000) (fuel : Nat) :
    self.calculateStep fuel (maxLabels : Int) = Run.done (2 ^ 64 - 1) := by
  have hq : toQuint64 (maxLabels : Int) = maxLabels := toQuint64_natCast _ (by omega)
  have hspan : (2 * self.mTimeDelta) % 2 ^ 64 = 2 * self.mTimeDelta :=
    Nat.mod_eq_of_lt (by omega)
  have hz : ¬ (maxLabels = 0) := by omega
  have hlt : 2 * self.mTimeDelta / maxLabels < second := by
    simp only [second]
    omega
  simp only [calculateStep, hq, hspan, if_neg hz, if_pos hlt]

theorem ExitsWith.bounds {span : Nat} {m : Int} {temp s : Nat} (h : ExitsWith span m temp s)
    (h1 : 1000 ≤ temp) :
    1000 ≤ s ∧ s ≤ temp + 4 * 31536000000 ∧ (86400000 < span → 86400000 ≤ s) := by
  obtain ⟨_, _, hs⟩ := h
  obtain ⟨hT1, hT2, hT3⟩ := roundedStep_bounds temp h1
  rcases bracketUnit_cases temp with h | h | h | h | h | h <;> rw [hs] <;> split_ifs <;> omega

theorem calculateStepLoop_20min (k : Nat) :
    calculateStepLoop 1200000 5 (k + 1) 1000 240000 = Run.done 300000 := by
  rw [calculateStepLoop_succ _ _ _ _ _ (by omega) (by omega)
    (Nat.lt_of_le_of_lt (Nat.div_le_self _ _) (by norm_num)) (by omega)]
  simp [roundedStep, bracketUnit, roundedUnits]

/-- Outside the exact range: with the half-span `2 ^ 63 + 600000` the product
`2 * mTimeDelta` wraps around to 1200000 and the step is the one of a 20-minute span. -/
theorem calculateStep_wrapped_span (c : QDateTime) (st : TimeLineGridSettings) (k : Nat) :
    calculateStep ⟨c, 2 ^ 63 + 600000, st⟩ (k + 1) 5 = Run.done 300000 := by
  have hq : toQuint64 (5 : Int) = 5 := toQuint64_natCast 5 (by omega)
  have e : calculateStep ⟨c, 2 ^ 63 + 600000, st⟩ (k + 1) 5
      = calculateStepLoop 1200000 5 (k + 1) 1000 240000 := by
    simp only [calculateStep, hq, second]
    norm_num
  rw [e, calculateStepLoop_20min]

/-- Outside the exact range: with the half-span `2 ^ 63` the product `2 * mTimeDelta` wraps
around to 0 and the sentinel is returned. -/
theorem calculateStep_wrapped_zero (c : QDateTime) (st : TimeLineGridSettings) (fuel : Nat) :
    calculateStep ⟨c, 2 ^ 63, st⟩ fuel 1 = Run.done (2 ^ 64 - 1) := by
  have hq : toQuint64 (1 : Int) = 1 := toQuint64_natCast 1 (by omega)
  simp only [calculateStep, hq, second]
  norm_num

/-- C12 as stated fails: with the half-span `2 ^ 63` and `maxLabels = 1` the quotient
`floor(2 * d / maxLabels)` is `2 ^ 64`, not below 1000, but `2 * mTimeDelta` wraps around to
0 and `calculateStep` returns the sentinel. -/
theorem calculateStep_sentinel_wraps :
    ¬ (2 * 2 ^ 63 / 1 < 1000) ∧
    calculateStep (exampleGrid (2 ^ 63)) 1 1 = Run.done (2 ^ 64 - 1) ∧
    calculateStep (exampleGrid (2 ^ 63)) 1000 1 = Run.done (2 ^ 64 - 1) :=
  ⟨by norm_num, calculateStep_wrapped_zero _ _ 1, calculateStep_wrapped_zero _ _ 1000⟩

theorem calculateStep_eq_loop_20min (c : QDateTime) (st : TimeLineGridSettings) (k : Nat) :
    calculateStep ⟨c, 600000, st⟩ (k + 1) 5
      = calculateStepLoop 1200000 5 (k + 1) 1000 240000 := by
  have hq : toQuint64 (5 : Int) = 5 := toQuint64_natCast 5 (by omega)
  simp only [calculateStep, hq, second]
  norm_num

theorem calculateStep_eq_loop_2h (c : QDateTime) (st : TimeLineGridSettings) (k : Nat) :
    calculateStep ⟨c, 3600000, st⟩ (k + 1) 4
      = calculateStepLoop 7200000 4 (k + 1) 1000 1800000 := by
  have hq : toQuint64 (4 : Int) = 4 := toQuint64_natCast 4 (by omega)
  simp only [calculateStep, hq, second]
  norm_num

/-- C13: with a visible span of 20 minutes (half-span 600000 ms) and `maxLabels = 5`,
`TimeLineGrid::calculateStep` returns 300000 ms; with a visible span of 2 hours (half-span
3600000 ms) and `maxLabels = 4` it returns 1800000 ms, the 30-minute step; both for every
central time, every settings and every positive fuel. -/
theorem calculateStep_examples (c : QDateTime) (st : TimeLineGridSettings) (k : Nat) :
    calculateStep ⟨c, 600000, st⟩ (k + 1) 5 = Run.done 300000 ∧
    calculateStep ⟨c, 3600000, st⟩ (k + 1) 4 = Run.done 1800000 ∧
    (calculateStep ⟨c, 3600000, st⟩ (k + 1) 4 = Run.done 1800000 ∨
      calculateStep ⟨c, 3600000, st⟩ (k + 1) 4 = Run.done 3600000) := by
  have e1 : calculateStep ⟨c, 600000, st⟩ (k + 1) 5 = Run.done 300000 := by
    rw [calculateStep_eq_loop_20min, calculateStepLoop_20min]
  have e2 : calculateStep ⟨c, 3600000, st⟩ (k + 1) 4 = Run.done 1800000 := by
    rw [calculateStep_eq_loop_2h,
      calculateStepLoop_succ _ _ _ _ _ (by omega) (by omega)
        (Nat.lt_of_le_of_lt (Nat.div_le_self _ _) (by norm_num)) (by omega)]
    simp [roundedStep, bracketUnit, roundedUnits]
  exact ⟨e1, e2, Or.inl e2⟩

/-- C14 as stated fails: with the half-span `2 ^ 63 + 600000` and `maxLabels = 5` the request
is feasible and the span `2 * d` exceeds one day, but `2 * mTimeDelta` wraps around to 20
minutes and the step returned is 300000 ms, below one day. -/
theorem calculateStep_multi_day_wraps :
    1000 ≤ 2 * (2 ^ 63 + 600000) / 5 ∧ 86400000 < 2 * (2 ^ 63 + 600000) ∧
    calculateStep (exampleGrid (2 ^ 63 + 600000)) 1 5 = Run.done 300000 ∧
    calculateStep (exampleGrid (2 ^ 63 + 600000)) 1000 5 = Run.done 300000 ∧
    ¬ (86400000 ≤ 300000) :=
  ⟨by norm_num, by norm_num, calculateStep_wrapped_span _ _ 0,
    calculateStep_wrapped_span _ _ 999, by norm_num⟩

/-- C15: `TimeLineGrid::setTimeRange(centralTime, timeDelta)` returns true iff
`maximumScale <= timeDelta <= minimumScale`; when it returns true the stored central time
and half-span equal the arguments; when it returns false the grid, in particular the stored
central time and half-span, is exactly what it was before the call. -/
theorem setTimeRange_spec (self : TimeLineGrid) (centralTime : QDateTime) (timeDelta : Nat) :
    ((self.setTimeRange centralTime timeDelta).1 = true ↔
      (self.mSettings.maximumScale ≤ timeDelta ∧ timeDelta ≤ self.mSettings.minimumScale)) ∧
    ((self.setTimeRange centralTime timeDelta).1 = true →
      (self.setTimeRange centralTime timeDelta).2.1.mTimeCenterMark = centralTime ∧
      (self.setTimeRange centralTime timeDelta).2.1.mTimeDelta = timeDelta) ∧
    ((self.setTimeRange centralTime timeDelta).1 = false →
      (self.setTimeRange centralTime timeDelta).2.1 = self ∧
      (self.setTimeRange centralTime timeDelta).2.1.mTimeCenterMark = self.mTimeCenterMark ∧
      (self.setTimeRange centralTime timeDelta).2.1.mTimeDelta = self.mTimeDelta) := by
  unfold setTimeRange
  by_cases h : timeDelta ≥ self.mSettings.maximumScale ∧ timeDelta ≤ self.mSettings.minimumScale
  · rw [if_pos h]
    exact ⟨⟨fun _ => h, fun _ => rfl⟩, fun _ => ⟨rfl, rfl⟩, fun hf => (by cases hf)⟩
  · rw [if_neg h]
    exact ⟨⟨fun hf => (by cases hf), fun hb => absurd hb h⟩, fun hf => (by cases hf),
      fun _ => ⟨rfl, rfl, rfl⟩⟩

/-- Witness for C15: on the default grid (bounds one minute and one week) the half-span
120000 ms is accepted and the half-span 1000 ms is rejected. -/
theorem setTimeRange_spec_witness :
    ((exampleGrid 600000).setTimeRange (QDateTime.msecs 5) 120000).1 = true ∧
    ((exampleGrid 600000).setTimeRange (QDateTime.msecs 5) 1000)
      = (false, exampleGrid 600000, []) ∧
    ((exampleGrid 600000).setTimeRange (QDateTime.msecs 5) 120000).2.1.mTimeCenterMark
      = QDateTime.msecs 5 ∧
    ((exampleGrid 600000).setTimeRange (QDateTime.msecs 5) 120000).2.1.mTimeDelta = 120000 :=
  ⟨by decide, by decide,
    (setTimeRange_spec (exampleGrid 600000) (QDateTime.msecs 5) 120000).2.1 (by decide)⟩

end TimeLineGrid

/-! ## SphereTimeLineScaler -/

/-- C16 (the code at the failing input): from the accumulator 0 the delta `+120` leaves 1;
the reversing delta `-120` (one step of the opposite sign) then leaves 0, not the step `-1`,
because the sum is formed before the sign test.  The sequence `+120, +120, -120` does end
at `-1`. -/
theorem SphereTimeLineScaler.startScaling_reversal_sums :
    (SphereTimeLineScaler.mk 0 QTimeLineState.NotRunning).startScaling 120
      = some (SphereTimeLineScaler.mk 1 QTimeLineState.Running) ∧
    Int.tdiv (-120) 120 = -1 ∧
    (SphereTimeLineScaler.mk 1 QTimeLineState.Running).startScaling (-120)
      = some (SphereTimeLineScaler.mk 0 QTimeLineState.Running) ∧
    (SphereTimeLineScaler.mk 1 QTimeLineState.Running).startScaling 120
      = some (SphereTimeLineScaler.mk 2 QTimeLineState.Running) ∧
    (SphereTimeLineScaler.mk 2 QTimeLineState.Running).startScaling (-120)
      = some (SphereTimeLineScaler.mk (-1) QTimeLineState.Running) := by
  decide

/-- C17 (the code at the failing input): `stopScaling()` never changes the accumulator; with
2 steps accumulated, `stopScaling()` followed by `startScaling(120)` leaves 3, not
`120 / 120 = 1`. -/
theorem SphereTimeLineScaler.stopScaling_keeps_accumulator :
    (∀ sc : SphereTimeLineScaler, sc.stopScaling.mScheduledScaling = sc.mScheduledScaling) ∧
    (SphereTimeLineScaler.mk 2 QTimeLineState.Running).stopScaling
      = SphereTimeLineScaler.mk 2 QTimeLineState.NotRunning ∧
    (SphereTimeLineScaler.mk 2 QTimeLineState.Running).stopScaling.startScaling 120
      = some (SphereTimeLineScaler.mk 3 QTimeLineState.Running) := by
  refine ⟨fun _ => rfl, ?_, ?_⟩ <;> decide

/-! ## TimeLineItems -/

namespace TimeLineItems

theorem getItemUnderPosLoop_eq (origin pos : QPoint) (l : List VisibleItem)
    (result : List TimeLineItemPtr) :
    getItemUnderPosLoop origin pos l result = result ++
      (l.filter fun v => v.rect.contains (pos.x - origin.x) (pos.y - origin.y) true).map
        fun v => v.item := by
  induction l generalizing result with
  | nil => simp [getItemUnderPosLoop]
  | cons v rest ih =>
    by_cases h : v.rect.contains (pos.x - origin.x) (pos.y - origin.y) true = true
    · simp [getItemUnderPosLoop, h, ih]
    · simp [getItemUnderPosLoop, h, ih]

theorem QRect.contains_proper (r : QRect) (px py : Int) (hx : r.x1 ≤ r.x2) (hy : r.y1 ≤ r.y2) :
    r.contains px py true = true ↔ (r.x1 < px ∧ px < r.x2 ∧ r.y1 < py ∧ py < r.y2) := by
  unfold QRect.contains
  have h1 : ¬ (r.x2 < r.x1 - 1) := by omega
  have h2 : ¬ (r.y2 < r.y1 - 1) := by omega
  simp only [h1, h2, if_false, if_true]
  split_ifs <;> simp <;> omega

/-- C18: `TimeLineItems::getItemUnderPos(pos)` returns exactly the items of the visible
items, in list order, whose rectangle properly contains the point `pos - this->pos()`; hence
a sub-sequence of the visible list with nothing added; an empty visible list or a point
inside no rectangle gives the empty list; and for a rectangle with `x1 <= x2`, `y1 <= y2`
proper containment means strictly between the edges. -/
theorem getItemUnderPos_spec (self : TimeLineItems) (pos : QPoint) :
    self.getItemUnderPos pos =
      (self.mVisibleItems.filter fun v =>
        v.rect.contains (pos.x - self.mPos.x) (pos.y - self.mPos.y) true).map
        (fun v => v.item) ∧
    List.Sublist (self.getItemUnderPos pos) (self.mVisibleItems.map fun v => v.item) ∧
    (self.mVisibleItems = [] → self.getItemUnderPos pos = []) ∧
    ((∀ v ∈ self.mVisibleItems,
        v.rect.contains (pos.x - self.mPos.x) (pos.y - self.mPos.y) true = false) →
      self.getItemUnderPos pos = []) ∧
    (∀ v ∈ self.mVisibleItems, v.rect.x1 ≤ v.rect.x2 → v.rect.y1 ≤ v.rect.y2 →
      (v.rect.contains (pos.x - self.mPos.x) (pos.y - self.mPos.y) true = true ↔
        (v.rect.x1 < pos.x - self.mPos.x ∧ pos.x - self.mPos.x < v.rect.x2 ∧
          v.rect.y1 < pos.y - self.mPos.y ∧ pos.y - self.mPos.y < v.rect.y2))) := by
  have heq : self.getItemUnderPos pos =
      (self.mVisibleItems.filter fun v =>
        v.rect.contains (pos.x - self.mPos.x) (pos.y - self.mPos.y) true).map
        (fun v => v.item) := by
    simp [getItemUnderPos, getItemUnderPosLoop_eq]
  refine ⟨heq, ?_, ?_, ?_, ?_⟩
  · rw [heq]
    exact List.Sublist.map _ (List.filter_sublist _)
  · intro h
    rw [heq, h]
    rfl
  · intro h
    rw [heq, List.filter_eq_nil_iff.mpr (fun v hv => by simp [h v hv])]
    rfl
  · intro v _ hx hy
    exact QRect.contains_proper v.rect _ _ hx hy

theorem lowerBoundList_mem {α : Type} (k : QDateTime) (l : List (QDateTime × α)) :
    ∀ x ∈ QMap.lowerBoundList k l, x ∈ l := by
  induction l with
  | nil => intro x hx; simp [QMap.lowerBoundList] at hx
  | cons hd rest ih =>
    obtain ⟨k0, v0⟩ := hd
    intro x hx
    by_cases h : QDateTime.lt k0 k = true
    · simp only [QMap.lowerBoundList, h, if_true] at hx
      exact List.mem_cons_of_mem _ (ih x hx)
    · simp only [QMap.lowerBoundList, h] at hx
      exact hx

theorem eventEntryLive_elim (w : World) (x : QDateTime × EventItemPtr)
    (h : w.eventEntryLive x = true) : ∃ e ev, x.2 = some e ∧ w.events.find e = some ev := by
  unfold World.eventEntryLive at h
  cases hp : x.2 with
  | none => simp [hp] at h
  | some e =>
    cases hf : w.events.find e with
    | none => simp [hp, hf] at h
    | some ev => exact ⟨e, ev, rfl, hf⟩

theorem eventsFrom_some (w : World) (vs : QDateTime) (l : List (QDateTime × EventItemPtr))
    (hl : ∀ x ∈ l, w.eventEntryLive x = true) :
    ∃ l1, eventsFrom w vs l = some l1 ∧ ∀ x ∈ l1, x ∈ l := by
  unfold eventsFrom
  have hmem := lowerBoundList_mem vs l
  cases hlb : QMap.lowerBoundList vs l with
  | nil => exact ⟨[], rfl, fun x hx => by simp at hx⟩
  | cons hd rest =>
    obtain ⟨k, ptr⟩ := hd
    rw [hlb] at hmem
    obtain ⟨e, ev, hp, hf⟩ := eventEntryLive_elim w (k, ptr)
      (hl _ (hmem _ (List.mem_cons_self _ _)))
    simp only at hp
    subst hp
    simp only [hf]
    split_ifs
    · exact ⟨rest, rfl, fun x hx => hmem x (List.mem_cons_of_mem _ hx)⟩
    · exact ⟨_, rfl, hmem⟩

theorem taskItemCount_append (a : Nat) (l1 l2 : List VisibleItem) :
    taskItemCount a (l1 ++ l2) = taskItemCount a l1 + taskItemCount a l2 := by
  simp [taskItemCount]

theorem collectEvents_some (w : World) (geom : PixelGeometry) (axis : Nat)
    (style : TaskStylePtr) (vs ve : QDateTime) (l : List (QDateTime × EventItemPtr))
    (hl : ∀ x ∈ l, w.eventEntryLive x = true) :
    ∃ items, collectEvents w geom axis style vs ve l = some items ∧
      ∀ a, taskItemCount a items = 0 := by
  induction l with
  | nil => exact ⟨[], rfl, fun a => rfl⟩
  | cons hd rest ih =>
    obtain ⟨k, ptr⟩ := hd
    obtain ⟨e, ev, hp, hf⟩ := eventEntryLive_elim w (k, ptr) (hl _ (List.mem_cons_self _ _))
    simp only at hp
    subst hp
    obtain ⟨items, hitems, hcount⟩ := ih (fun x hx => hl x (List.mem_cons_of_mem _ hx))
    simp only [collectEvents, hf, hitems]
    split_ifs
    · refine ⟨_, rfl, fun a => ?_⟩
      have := hcount a
      simp only [taskItemCount] at this ⊢
      simp [List.filter_cons, this]
    · exact ⟨[], rfl, fun a => rfl⟩

theorem projectTask_count (self : TimeLineItems) (w : World) (geom : PixelGeometry)
    (a1 : Nat) (t1 : TaskItem) (acc : List VisibleItem × InfoMarks)
    (ht : w.tasks.find a1 = some t1)
    (hl : ∀ x ∈ t1.mEvent.entries, w.eventEntryLive x = true) :
    ∃ res, projectTask self w geom self.visibleRangeStartTime self.visibleRangeEndTime
        (some a1) acc = some res ∧
      ∀ a, taskItemCount a res.1 =
        taskItemCount a acc.1 + (if self.showsTask t1 ∧ a1 = a then 1 else 0) := by
  simp only [projectTask, ht]
  by_cases hskip : t1.eventCount = 0 ∧ t1.mEndTime.isValid = false
  · rw [if_pos hskip]
    refine ⟨acc, rfl, fun a => ?_⟩
    have : ¬ (self.showsTask t1 ∧ a1 = a) := fun h => h.1.2.2 hskip
    simp [this]
  · rw [if_neg hskip]
    cases hst : self.mItemStyles.find t1.mTaskType with
    | none =>
      refine ⟨acc, rfl, fun a => ?_⟩
      have : ¬ (self.showsTask t1 ∧ a1 = a) := fun h => by
        have := h.1.1
        rw [hst] at this
        cases this
      simp [this]
    | some axst =>
      obtain ⟨axis, style⟩ := axst
      simp only
      by_cases hint : (t1.toAbstractItem.getIntersection self.visibleRangeStartTime
          self.visibleRangeEndTime).1.isValid = false
      · rw [if_pos hint]
        refine ⟨acc, rfl, fun a => ?_⟩
        have : ¬ (self.showsTask t1 ∧ a1 = a) := fun h => by
          have := h.1.2.1
          rw [hint] at this
          cases this
        simp [this]
      · rw [if_neg hint]
        have hshow : self.showsTask t1 := ⟨by rw [hst]; rfl, by simpa using hint, hskip⟩
        have hcount1 : ∀ a (rect : QRect),
            taskItemCount a [VisibleItem.mk (TimeLineItemPtr.task a1) style rect]
              = if a1 = a then 1 else 0 := by
          intro a rect
          by_cases h : a1 = a
          · simp [taskItemCount, h]
          · simp [taskItemCount, h]
        split_ifs with hev
        · obtain ⟨evs, hevs, hsub⟩ := eventsFrom_some w self.visibleRangeStartTime
            t1.mEvent.entries hl
          obtain ⟨items, hitems, hzero⟩ := collectEvents_some w geom axis style
            self.visibleRangeStartTime self.visibleRangeEndTime evs
            (fun x hx => hl x (hsub x hx))
          simp only [hevs, hitems]
          refine ⟨_, rfl, fun a => ?_⟩
          simp only [taskItemCount_append, hcount1, hzero, hshow, true_and]
          omega
        · refine ⟨_, rfl, fun a => ?_⟩
          simp only [taskItemCount_append, hcount1, hshow, true_and]

theorem taskEntryLive_elim (w : World) (kv : Nat × TaskItemPtr)
    (h : w.taskEntryLive kv = true) :
    ∃ a t, kv.2 = some a ∧ w.tasks.find a = some t ∧
      ∀ x ∈ t.mEvent.entries, w.eventEntryLive x = true := by
  unfold World.taskEntryLive at h
  cases hp : kv.2 with
  | none => simp [hp] at h
  | some a =>
    cases hf : w.tasks.find a with
    | none => simp [hp, hf] at h
    | some t =>
      simp only [hp, hf] at h
      exact ⟨a, t, rfl, hf, fun x hx => List.all_eq_true.mp h x hx⟩

theorem projectTasks_count (self : TimeLineItems) (w : World) (geom : PixelGeometry)
    (es : List (Nat × TaskItemPtr)) (acc : List VisibleItem × InfoMarks)
    (hlive : ∀ kv ∈ es, w.taskEntryLive kv = true) :
    ∃ res, projectTasks self w geom self.visibleRangeStartTime self.visibleRangeEndTime es acc
        = some res ∧
      ∀ a t, w.tasks.find a = some t →
        taskItemCount a res.1 = taskItemCount a acc.1 +
          (if self.showsTask t then (es.filter fun kv => decide (kv.2 = some a)).length
            else 0) := by
  induction es generalizing acc with
  | nil => exact ⟨acc, rfl, fun a t _ => by simp⟩
  | cons hd rest ih =>
    obtain ⟨k, p⟩ := hd
    obtain ⟨a1, t1, hp, ht1, hev⟩ := taskEntryLive_elim w (k, p)
      (hlive _ (List.mem_cons_self _ _))
    simp only at hp
    subst hp
    obtain ⟨res1, hres1, hcount1⟩ := projectTask_count self w geom a1 t1 acc ht1 hev
    obtain ⟨res, hres, hcount⟩ := ih res1 (fun kv hkv => hlive kv (List.mem_cons_of_mem _ hkv))
    refine ⟨res, by simp only [projectTasks, hres1, hres], fun a t ht => ?_⟩
    rw [hcount a t ht, hcount1 a]
    by_cases haa : a1 = a
    · subst haa
      rw [ht1] at ht
      cases ht
      by_cases hs : self.showsTask t1
      · simp [hs, List.filter_cons]
        omega
      · simp [hs]
    · have hne : ¬ ((some a1 : TaskItemPtr) = some a) := fun h => haa (Option.some.inj h)
      by_cases hs : self.showsTask t
      · simp [hs, haa, List.filter_cons, hne]
      · simp [hs, haa]

theorem filter_ptr_length_one (es : List (Nat × TaskItemPtr)) (k : Nat) (p : TaskItemPtr)
    (hnd : (es.map Prod.snd).Nodup) (hmem : (k, p) ∈ es) :
    (es.filter fun kv => decide (kv.2 = p)).length = 1 := by
  induction es with
  | nil => simp at hmem
  | cons hd rest ih =>
    simp only [List.map_cons, List.nodup_cons] at hnd
    by_cases h : hd.2 = p
    · have hrest : rest.filter (fun kv => decide (kv.2 = p)) = [] := by
        rw [List.filter_eq_nil_iff]
        intro kv hkv hdec
        have : kv.2 = p := by simpa using hdec
        exact hnd.1 (by rw [h, ← this]; exact List.mem_map_of_mem _ hkv)
      simp [List.filter_cons, h, hrest]
    · have hmem2 : (k, p) ∈ rest := by
        rcases List.mem_cons.mp hmem with h2 | h2
        · exact absurd (by rw [← h2]) h
        · exact h2
      simp [List.filter_cons, h, ih hnd.2 hmem2]

theorem taskItemCount_pos_iff (a : Nat) (l : List VisibleItem) :
    0 < taskItemCount a l ↔ ∃ v ∈ l, v.item = TimeLineItemPtr.task a := by
  unfold taskItemCount
  rw [List.length_pos_iff_exists_mem]
  constructor
  · rintro ⟨v, hv⟩
    rw [List.mem_filter] at hv
    exact ⟨v, hv.1, by simpa using hv.2⟩
  · rintro ⟨v, hv, hitem⟩
    exact ⟨v, List.mem_filter.mpr ⟨hv, by simpa using hitem⟩⟩

theorem calculateVisibleItems_count (self : TimeLineItems) (w : World)
    (geom : PixelGeometry) (hs : self.mTaskStorage ≠ none)
    (hst : self.mItemStyles.isEmpty = false) (hlive : w.storedEventsLive = true) :
    (∃ r, self.calculateVisibleItems w geom = some r ∧
      ∀ k a t, (k, some a) ∈ w.mTasks.entries → w.tasks.find a = some t →
        ((∃ v ∈ r.mVisibleItems, v.item = TimeLineItemPtr.task a) ↔ self.showsTask t) ∧
        ((w.mTasks.entries.map Prod.snd).Nodup → self.showsTask t →
          taskItemCount a r.mVisibleItems = 1)) := by
  obtain ⟨res, hres, hcount⟩ := projectTasks_count self w geom w.mTasks.entries ([], ⟨[]⟩)
    (fun kv hkv => List.all_eq_true.mp hlive kv hkv)
  refine ⟨{ self with mVisibleItems := res.1, mInfoMarks := res.2 }, ?_, ?_⟩
  · have hc : ¬ (self.mTaskStorage = none ∨ self.mItemStyles.isEmpty = true) := by
      rw [hst]
      simp [hs]
    simp only [calculateVisibleItems, if_neg hc, hres]
  · intro k a t hmem ht
    have hpos : 0 < (w.mTasks.entries.filter fun kv => decide (kv.2 = some a)).length := by
      rw [List.length_pos_iff_exists_mem]
      exact ⟨(k, some a), List.mem_filter.mpr ⟨hmem, by simp⟩⟩
    have hc := hcount a t ht
    have hc2 : taskItemCount a res.1 = if self.showsTask t then
        (w.mTasks.entries.filter fun kv => decide (kv.2 = some a)).length else 0 := by
      rw [hc]
      simp [taskItemCount]
    show ((∃ v ∈ res.1, v.item = TimeLineItemPtr.task a) ↔ self.showsTask t) ∧
      ((w.mTasks.entries.map Prod.snd).Nodup → self.showsTask t →
        taskItemCount a res.1 = 1)
    rw [← taskItemCount_pos_iff]
    by_cases hshow : self.showsTask t
    · rw [if_pos hshow] at hc2
      refine ⟨⟨fun _ => hshow, fun _ => by omega⟩, fun hnd _ => ?_⟩
      rw [hc2]
      exact filter_ptr_length_one w.mTasks.entries k (some a) hnd hmem
    · rw [if_neg hshow] at hc2
      exact ⟨⟨fun h => by omega, fun h => absurd h hshow⟩, fun _ h => absurd h hshow⟩

theorem toInt64_neg (d : Nat) (hd : d < 2 ^ 63) :
    toInt64 ((toQuint64 (-1) * d) % 2 ^ 64) = -(d : Int) := by
  have h1 : toQuint64 (-1) = 18446744073709551615 := by decide
  rw [h1]
  unfold toInt64
  split_ifs <;> omega

theorem toInt64_of_lt (d : Nat) (hd : d < 2 ^ 63) : toInt64 d = (d : Int) := by
  unfold toInt64
  split_ifs <;> omega

theorem showsTask_valid_times (self : TimeLineItems) (t : TaskItem) (c s e : Int)
    (hc : self.mCentralTime = QDateTime.msecs c) (hd : self.mTimeDelta < 2 ^ 63)
    (hs : t.mStartTime = QDateTime.msecs s) (he : t.mEndTime = QDateTime.msecs e) :
    self.showsTask t ↔
      ((self.mItemStyles.find t.mTaskType).isSome = true ∧
        Max.max (c - (self.mTimeDelta : Int)) s < Min.min (c + (self.mTimeDelta : Int)) e) := by
  have hitem : t.toAbstractItem = AbstractItem.mk (QDateTime.msecs s) (QDateTime.msecs e) := by
    rw [← hs, ← he]
  have hvs : self.visibleRangeStartTime = QDateTime.msecs (c - (self.mTimeDelta : Int)) := by
    simp only [visibleRangeStartTime, hc, toInt64_neg _ hd, QDateTime.addMSecs]
    rfl
  have hve : self.visibleRangeEndTime = QDateTime.msecs (c + (self.mTimeDelta : Int)) := by
    simp only [visibleRangeEndTime, hc, toInt64_of_lt _ hd, QDateTime.addMSecs]
  unfold showsTask
  rw [hitem, hvs, hve, AbstractItem.getIntersection_msecs]
  constructor
  · rintro ⟨h1, h2, _⟩
    refine ⟨h1, ?_⟩
    by_contra hlt
    rw [if_neg (fun h => hlt h.2)] at h2
    cases h2
  · rintro ⟨h1, h2⟩
    have hlt : c - (self.mTimeDelta : Int) < c + (self.mTimeDelta : Int) := by
      have h3 := le_max_left (c - (self.mTimeDelta : Int)) s
      have h4 := min_le_left (c + (self.mTimeDelta : Int)) e
      omega
    refine ⟨h1, ?_, fun h => by simp [QDateTime.isValid] at h⟩
    rw [if_pos ⟨hlt, h2⟩]
    rfl

/-- C19: in one projection pass (`calculateVisibleItems` with a storage attached, at least
one registered style and live stored pointers) a task item for a stored task `t` is in the
resulting visible list iff `t` has a registered style, its interval intersects the visible
range and it is not the case that it has zero events and an invalid end time; such a task
contributes exactly one task item (the table holding each task object once).  For valid
times the intersection condition is `max(center - d, start) < min(center + d, end)`.  In
`projectionWorld` the first skip condition is triggered by a task with a registered style
(task object 1) and the style condition by a task with a valid end time (task object 2). -/
theorem calculateVisibleItems_task_items (self : TimeLineItems) (w : World)
    (geom : PixelGeometry) (hs : self.mTaskStorage ≠ none)
    (hst : self.mItemStyles.isEmpty = false) (hlive : w.storedEventsLive = true) :
    (∃ r, self.calculateVisibleItems w geom = some r ∧
      ∀ k a t, (k, some a) ∈ w.mTasks.entries → w.tasks.find a = some t →
        ((∃ v ∈ r.mVisibleItems, v.item = TimeLineItemPtr.task a) ↔ self.showsTask t) ∧
        ((w.mTasks.entries.map Prod.snd).Nodup → self.showsTask t →
          taskItemCount a r.mVisibleItems = 1)) ∧
    (∀ (t : TaskItem) (c s e : Int), self.mCentralTime = QDateTime.msecs c →
      self.mTimeDelta < 2 ^ 63 → t.mStartTime = QDateTime.msecs s →
      t.mEndTime = QDateTime.msecs e →
      (self.showsTask t ↔
        ((self.mItemStyles.find t.mTaskType).isSome = true ∧
          Max.max (c - (self.mTimeDelta : Int)) s
            < Min.min (c + (self.mTimeDelta : Int)) e))) ∧
    ((projectionWorld.tasks.find 1).map
        (fun t => (((exampleItems 25 15).mItemStyles.find t.mTaskType).isSome,
          t.eventCount, t.mEndTime.isValid)) = some (true, 0, false) ∧
      (calculateVisibleItems (exampleItems 25 15) projectionWorld exampleGeometry).map
        (fun r => taskItemCount 1 r.mVisibleItems) = some 0) ∧
    ((projectionWorld.tasks.find 2).map
        (fun t => (((exampleItems 25 15).mItemStyles.find t.mTaskType).isSome,
          t.mEndTime.isValid)) = some (false, true) ∧
      (calculateVisibleItems (exampleItems 25 15) projectionWorld exampleGeometry).map
        (fun r => taskItemCount 2 r.mVisibleItems) = some 0) :=
  ⟨calculateVisibleItems_count self w geom hs hst hlive,
    fun t c s e hc hd hs he => showsTask_valid_times self t c s e hc hd hs he,
    ⟨rfl, rfl⟩, ⟨rfl, rfl⟩⟩

/-- Witness for C19: `projectionWorld` seen through `exampleItems 25 15` (window `[10, 40]`);
only the task object 0 gets a task item. -/
theorem calculateVisibleItems_task_items_witness :
    (calculateVisibleItems (exampleItems 25 15) projectionWorld exampleGeometry).map
      (fun r => r.mVisibleItems.map fun v => v.item) = some [TimeLineItemPtr.task 0] ∧
    ∃ r, (exampleItems 25 15).calculateVisibleItems projectionWorld exampleGeometry = some r ∧
      ∀ k a t, (k, some a) ∈ projectionWorld.mTasks.entries →
        projectionWorld.tasks.find a = some t →
        ((∃ v ∈ r.mVisibleItems, v.item = TimeLineItemPtr.task a) ↔
          (exampleItems 25 15).showsTask t) ∧
        ((projectionWorld.mTasks.entries.map Prod.snd).Nodup →
          (exampleItems 25 15).showsTask t → taskItemCount a r.mVisibleItems = 1) :=
  ⟨rfl, (calculateVisibleItems_task_items (exampleItems 25 15) projectionWorld exampleGeometry
    (by decide) (by decide) (by decide)).1⟩

/-- C20 (the code at the failing input): the task holds the nested events `[50, 60]` and
`[0, 100]`, added through `addEvent`; the window is `[10, 40]` with events visible.  The
event `[0, 100]` starts before the window end and intersects the window in `[10, 40]`, but
the event loop starts at `[50, 60]` (the map is ordered by end time), finds its start not
before the window end and stops: the visible list holds the task item only. -/
theorem calculateVisibleItems_misses_nested_event :
    ((TaskStorage.addTask nestedEventsHeap (some 0)).bind fun r0 =>
      (TaskStorage.addEvent r0.2 1 (some 0)).bind fun r1 =>
        TaskStorage.addEvent r1.2 1 (some 1)) = some (true, nestedEventsWorld) ∧
    (nestedEventsWorld.tasks.find 0).map (fun t => t.mEvent.find (QDateTime.msecs 100))
      = some (some (some 1)) ∧
    (nestedEventsWorld.events.find 1).map (fun ev => (ev.mStartTime, ev.mEndTime))
      = some (QDateTime.msecs 0, QDateTime.msecs 100) ∧
    (exampleItems 25 15).visibleRangeStartTime = QDateTime.msecs 10 ∧
    (exampleItems 25 15).visibleRangeEndTime = QDateTime.msecs 40 ∧
    (exampleItems 25 15).mTimeDelta ≤ (exampleItems 25 15).mSettings.eventsVisibleScale ∧
    QDateTime.lt (QDateTime.msecs 0) (QDateTime.msecs 40) = true ∧
    (exampleEvent 0 100).toAbstractItem.getIntersection (QDateTime.msecs 10) (QDateTime.msecs 40)
      = (QDateTime.msecs 10, QDateTime.msecs 40) ∧
    (calculateVisibleItems (exampleItems 25 15) nestedEventsWorld exampleGeometry).map
      (fun r => r.mVisibleItems.map fun v => v.item) = some [TimeLineItemPtr.task 0] := by
  decide

/-- Witness for C18: three visible items and the point `(10, 115)`, item origin `(0, 15)`:
the task bar and the first event bar are hit, the second event bar is not. -/
theorem getItemUnderPos_spec_witness :
    hitTestItems.getItemUnderPos { x := 10, y := 115 }
      = [TimeLineItemPtr.task 0, TimeLineItemPtr.event 1] ∧
    hitTestItems.getItemUnderPos { x := 10, y := 115 } =
      (hitTestItems.mVisibleItems.filter fun v =>
        v.rect.contains (10 - hitTestItems.mPos.x) (115 - hitTestItems.mPos.y) true).map
        (fun v => v.item) :=
  ⟨by decide, (getItemUnderPos_spec hitTestItems { x := 10, y := 115 }).1⟩

end TimeLineItems

/-! ## TaskItem::addEvent: the failure-marker key and the duplicate check -/

theorem QDateTime.equiv_iff (a b : QDateTime) :
    (!(QDateTime.lt a b) && !(QDateTime.lt b a)) = true ↔ a = b := by
  cases a <;> cases b <;> simp [QDateTime.lt]
  omega

theorem QMap.findList_insertList_same_key {α : Type} (k : QDateTime) (v : α)
    (l : List (QDateTime × α)) : QMap.findList k (QMap.insertList k v l) = some v := by
  induction l with
  | nil => simp [QMap.insertList, QMap.findList, QDateTime.lt_irrefl]
  | cons hd rest ih =>
    obtain ⟨k0, v0⟩ := hd
    by_cases h1 : QDateTime.lt k k0 = true
    · simp [QMap.insertList, h1, QMap.findList, QDateTime.lt_irrefl]
    · by_cases h2 : QDateTime.lt k0 k = true
      · simp [QMap.insertList, h1, h2, QMap.findList, ih]
      · simp [QMap.insertList, h1, h2, QMap.findList, QDateTime.lt_irrefl]

theorem QMap.mem_insertList {α : Type} (k : QDateTime) (v : α) (l : List (QDateTime × α))
    (x : QDateTime × α) (hx : x ∈ QMap.insertList k v l) : x = (k, v) ∨ x ∈ l := by
  induction l with
  | nil =>
    simp only [QMap.insertList, List.mem_singleton] at hx
    exact Or.inl hx
  | cons hd rest ih =>
    obtain ⟨k0, v0⟩ := hd
    by_cases h1 : QDateTime.lt k k0 = true
    · rw [QMap.insertList, if_pos h1] at hx
      rcases List.mem_cons.mp hx with h | h
      · exact Or.inl h
      · exact Or.inr h
    · by_cases h2 : QDateTime.lt k0 k = true
      · rw [QMap.insertList, if_neg h1, if_pos h2] at hx
        rcases List.mem_cons.mp hx with h | h
        · exact Or.inr (by rw [h]; exact List.mem_cons_self _ _)
        · rcases ih h with h3 | h3
          · exact Or.inl h3
          · exact Or.inr (List.mem_cons_of_mem _ h3)
      · rw [QMap.insertList, if_neg h1, if_neg h2] at hx
        rcases List.mem_cons.mp hx with h | h
        · exact Or.inl h
        · exact Or.inr (List.mem_cons_of_mem _ h)

theorem QMap.mem_insertList_self {α : Type} (k : QDateTime) (v : α)
    (l : List (QDateTime × α)) : (k, v) ∈ QMap.insertList k v l := by
  induction l with
  | nil => simp [QMap.insertList]
  | cons hd rest ih =>
    obtain ⟨k0, v0⟩ := hd
    by_cases h1 : QDateTime.lt k k0 = true
    · simp [QMap.insertList, h1]
    · by_cases h2 : QDateTime.lt k0 k = true
      · simp [QMap.insertList, h1, h2, ih]
      · simp [QMap.insertList, h1, h2]

theorem QMap.contains_iff {α : Type} (m : QMap α) (k : QDateTime) :
    m.contains k = true ↔ ∃ entry ∈ m.entries, entry.1 = k := by
  unfold QMap.contains QMap.find
  induction m.entries with
  | nil => simp [QMap.findList]
  | cons hd rest ih =>
    obtain ⟨k0, v0⟩ := hd
    by_cases h : (!(QDateTime.lt k k0) && !(QDateTime.lt k0 k)) = true
    · have hk := (QDateTime.equiv_iff k k0).mp h
      simp [QMap.findList, hk, QDateTime.lt_irrefl]
    · have hk : ¬ (k = k0) := fun hk => h ((QDateTime.equiv_iff k k0).mpr hk)
      have hk2 : ¬ (k0 = k) := fun h2 => hk h2.symm
      simp only [QMap.findList, h, Bool.false_eq_true, if_false, ih, List.mem_cons,
        exists_eq_or_imp, hk2, false_or]

/-- The failure-marker entries after `TaskItem::addEvent`: the ones before the call and at
most the new event, which then has failed and is filed under `failureTime`. -/
theorem TaskItem.addEvent_failure_entries (self : TaskItem) (addr : Nat) (ev : EventItem)
    (x : QDateTime × EventItemPtr)
    (hx : x ∈ (self.addEvent (some (addr, ev))).2.mEventsWithInfoSigh.entries) :
    x ∈ self.mEventsWithInfoSigh.entries ∨
      (ev.mStatus = EventStatus.EVENT_STATUS_FAILURE ∧
        x = (TaskItem.failureTime ev, some addr)) := by
  rw [TaskItem.addEvent_some] at hx
  by_cases h1 : self.mEvent.contains ev.mStartTime = true
  · rw [if_pos h1] at hx
    exact Or.inl hx
  · rw [if_neg h1] at hx
    by_cases h2 : ev.mStatus = EventStatus.EVENT_STATUS_FAILURE
    · simp only [if_pos h2] at hx
      rcases QMap.mem_insertList _ _ _ x hx with h | h
      · exact Or.inr ⟨h2, h⟩
      · exact Or.inl h
    · simp only [if_neg h2] at hx
      exact Or.inl hx

theorem TaskItem.addEvents_failure_entries (seq : List (Nat × EventItem)) (self : TaskItem)
    (x : QDateTime × EventItemPtr)
    (hx : x ∈ (self.addEvents seq).mEventsWithInfoSigh.entries) :
    x ∈ self.mEventsWithInfoSigh.entries ∨
      ∃ p ∈ seq, p.2.mStatus = EventStatus.EVENT_STATUS_FAILURE ∧
        x = (TaskItem.failureTime p.2, some p.1) := by
  induction seq generalizing self with
  | nil => exact Or.inl hx
  | cons e rest ih =>
    obtain ⟨addr, ev⟩ := e
    rcases ih (self.addEvent (some (addr, ev))).2 hx with h | ⟨p, hp, h⟩
    · rcases TaskItem.addEvent_failure_entries self addr ev x h with h2 | h2
      · exact Or.inl h2
      · exact Or.inr ⟨(addr, ev), List.mem_cons_self _ _, h2⟩
    · exact Or.inr ⟨p, List.mem_cons_of_mem _ hp, h⟩

theorem tdiv_midpoint (s e : Int) (hs : 0 ≤ s) (he : s ≤ e) :
    Int.tdiv s 2 + Int.tdiv e 2 = (s + e) / 2 - (if s % 2 = 1 ∧ e % 2 = 1 then 1 else 0) := by
  rw [Int.tdiv_eq_ediv (by omega) (by omega), Int.tdiv_eq_ediv (by omega) (by omega)]
  split_ifs <;> omega

/-- C26 as stated fails: the failed event `[1, 3]` is inserted by `TaskItem::addEvent` (the
task has no events), its midpoint is `(1 + 3) / 2 = 2`, but the failure-marker map holds it
under the key `1 / 2 + 3 / 2 = 1` and has nothing under 2. -/
theorem TaskItem.addEvent_failure_key_off_by_one :
    exampleTask.mEvent.contains (failedEvent 1 3).mStartTime = false ∧
    ((1 : Int) + 3) / 2 = 2 ∧
    (exampleTask.addEvent (some (0, failedEvent 1 3))).2.mEventsWithInfoSigh.entries
      = [(QDateTime.msecs 1, some 0)] ∧
    (exampleTask.addEvent (some (0, failedEvent 1 3))).2.mEventsWithInfoSigh.find
      (QDateTime.msecs 2) = none := by
  decide

/-- C26 (amended): for every failed event with start `s` and end `e` (ms since the epoch) that
`TaskItem::addEvent` inserts, the key under which it is stored in the failure-marker map is
`s / 2 + e / 2`, each division truncating toward zero; for `0 <= s <= e` this is
`(s + e) / 2` when `s` or `e` is even and `(s + e) / 2 - 1` when both are odd.  And after any
sequence of `addEvent` calls on a task whose failure-marker map was empty, every entry of
that map points to a failed event of the sequence and is filed under that key of it. -/
theorem TaskItem.addEvent_failure_key (self : TaskItem) (addr : Nat) (ev : EventItem)
    (s e : Int) (hs : ev.mStartTime = QDateTime.msecs s) (he : ev.mEndTime = QDateTime.msecs e)
    (hfail : ev.mStatus = EventStatus.EVENT_STATUS_FAILURE)
    (hnew : self.mEvent.contains ev.mStartTime = false) :
    ((self.addEvent (some (addr, ev))).2.mEventsWithInfoSigh
        = self.mEventsWithInfoSigh.insert
            (QDateTime.msecs (Int.tdiv s 2 + Int.tdiv e 2)) (some addr) ∧
      (self.addEvent (some (addr, ev))).2.mEventsWithInfoSigh.find
        (QDateTime.msecs (Int.tdiv s 2 + Int.tdiv e 2)) = some (some addr)) ∧
    (0 ≤ s → s ≤ e →
      Int.tdiv s 2 + Int.tdiv e 2
        = (s + e) / 2 - (if s % 2 = 1 ∧ e % 2 = 1 then 1 else 0)) ∧
    (∀ (seq : List (Nat × EventItem)) (t : TaskItem), t.mEventsWithInfoSigh.entries = [] →
      ∀ x ∈ (t.addEvents seq).mEventsWithInfoSigh.entries,
        ∃ p ∈ seq, p.2.mStatus = EventStatus.EVENT_STATUS_FAILURE ∧
          x = (TaskItem.failureTime p.2, some p.1)) := by
  have h1 := TaskItem.addEvent_some self addr ev
  rw [hnew] at h1
  simp only [Bool.false_eq_true, if_false, hfail, if_true, hs, he,
    QDateTime.toMSecsSinceEpoch, QDateTime.fromMSecsSinceEpoch] at h1
  refine ⟨?_, fun h0 hle => tdiv_midpoint s e h0 hle, ?_⟩
  · rw [h1]
    exact ⟨rfl, QMap.findList_insertList_same_key _ _ _⟩
  · intro seq t ht x hx
    rcases TaskItem.addEvents_failure_entries seq t x hx with h | h
    · rw [ht] at h
      cases h
    · exact h

/-- Witness for C26 (amended): the failed event `[10, 21]` added to `exampleTask` is filed
under `10 / 2 + 21 / 2 = 15`. -/
theorem TaskItem.addEvent_failure_key_witness :
    ((exampleTask.addEvent (some (0, failedEvent 10 21))).2.mEventsWithInfoSigh.find
        (QDateTime.msecs 15) = some (some 0)) :=
  ((TaskItem.addEvent_failure_key exampleTask 0 (failedEvent 10 21) 10 21 rfl rfl rfl
    (by decide)).1).2

theorem TaskItem.contains_iff_stored (events : NatMap EventItem) (self : TaskItem)
    (t : QDateTime) (hkeys : self.keyedByEndTime events) :
    self.mEvent.contains t = true ↔ self.hasStoredEventEndingAt events t := by
  rw [QMap.contains_iff]
  constructor
  · rintro ⟨entry, hmem, hk⟩
    obtain ⟨a, ev0, h1, h2, h3⟩ := hkeys entry hmem
    exact ⟨entry, hmem, a, ev0, h1, h2, by rw [h3, hk]⟩
  · rintro ⟨entry, hmem, a, ev0, h1, h2, h3⟩
    obtain ⟨a1, ev1, h4, h5, h6⟩ := hkeys entry hmem
    rw [h1] at h4
    cases h4
    rw [h2] at h5
    cases h5
    exact ⟨entry, hmem, by rw [← h6, h3]⟩

theorem TaskStorage.addEvent_skipped (w : World) (taskId a e : Nat) (t : TaskItem)
    (ev : EventItem) (hid : taskId < 2 ^ 32) (hf : w.mTasks.find taskId = some (some a))
    (ht : w.tasks.find a = some t) (hfe : w.events.find e = some ev)
    (hc : t.mEvent.contains ev.mStartTime = true) :
    TaskStorage.addEvent w taskId (some e) = some (true,
      { w with events := w.events.insert e (ev.setParentTask (some a)).2 }) := by
  have hmod : taskId % 2 ^ 32 = taskId := Nat.mod_eq_of_lt hid
  have h1 : t.addEvent (some (e, ev)) = (true, t) := by
    rw [TaskItem.addEvent_some, if_pos hc]
  simp only [TaskStorage.addEvent, hmod, hf, ht, hfe, h1, if_true,
    NatMap.insert_of_find w.tasks a t ht]

/-- C27: `TaskItem::addEvent` with a non-null event `e` (not yet in the primary map, whose
entries are filed under the end times of their events) returns true, and it stores `e` in
the primary map iff no stored event has an end time equal to the start time of `e`.  When
it stores `e`, the map is the old one with `e` inserted under its end time.  When a stored
event ends exactly where `e` starts, the task is left exactly as it was (`e` is not stored,
gets no failure marker and does not extend the end time), and `TaskStorage::addEvent` still
returns true, changing nothing but the back-reference of `e`; `adjacentEventsWorld` shows
it for the failed event `[20, 30]` after `[10, 20]`. -/
theorem TaskItem.addEvent_stores_iff (events : NatMap EventItem) (self : TaskItem)
    (addr : Nat) (ev : EventItem) (hkeys : self.keyedByEndTime events)
    (hfresh : ∀ k, (k, some addr) ∉ self.mEvent.entries) :
    (self.addEvent (some (addr, ev))).1 = true ∧
    ((∃ k, (k, some addr) ∈ (self.addEvent (some (addr, ev))).2.mEvent.entries) ↔
      ¬ self.hasStoredEventEndingAt events ev.mStartTime) ∧
    (¬ self.hasStoredEventEndingAt events ev.mStartTime →
      (self.addEvent (some (addr, ev))).2.mEvent = self.mEvent.insert ev.mEndTime (some addr) ∧
      (self.addEvent (some (addr, ev))).2.mEvent.find ev.mEndTime = some (some addr)) ∧
    (self.hasStoredEventEndingAt events ev.mStartTime →
      self.addEvent (some (addr, ev)) = (true, self) ∧
      ∀ (w : World) (taskId a : Nat), w.events = events → taskId < 2 ^ 32 →
        w.mTasks.find taskId = some (some a) → w.tasks.find a = some self →
        w.events.find addr = some ev →
        TaskStorage.addEvent w taskId (some addr) = some (true,
          { w with events := w.events.insert addr (ev.setParentTask (some a)).2 })) ∧
    (TaskStorage.addEvent adjacentEventsWorld 1 (some 1)).map
        (fun r => (r.1, r.2.tasks, r.2.parentTaskId 1))
      = some (true, adjacentEventsWorld.tasks, some 1) := by
  have hc := TaskItem.contains_iff_stored events self ev.mStartTime hkeys
  have h1 := TaskItem.addEvent_some self addr ev
  refine ⟨TaskItem.addEvent_fst self (addr, ev), ?_, ?_, ?_, by decide⟩
  · by_cases h : self.mEvent.contains ev.mStartTime = true
    · rw [if_pos h] at h1
      rw [h1]
      constructor
      · rintro ⟨k, hk⟩
        exact absurd hk (hfresh k)
      · intro hn
        exact absurd (hc.mp h) hn
    · rw [if_neg h] at h1
      rw [h1]
      constructor
      · intro _ hn
        exact h (hc.mpr hn)
      · intro _
        exact ⟨ev.mEndTime, QMap.mem_insertList_self _ _ _⟩
  · intro hn
    have h : ¬ (self.mEvent.contains ev.mStartTime = true) := fun h => hn (hc.mp h)
    rw [if_neg h] at h1
    rw [h1]
    exact ⟨rfl, QMap.findList_insertList_same_key _ _ _⟩
  · intro hy
    rw [if_pos (hc.mpr hy)] at h1
    refine ⟨h1, fun w taskId a _ hid hf ht hfe => ?_⟩
    exact TaskStorage.addEvent_skipped w taskId a addr self ev hid hf ht hfe (hc.mpr hy)

/-- Witness for C27: `adjacentEventsTask` holds the event `[10, 20]`; the failed event
`[20, 30]` starts where that one ends and `addEvent` returns true without changing the
task. -/
theorem TaskItem.addEvent_stores_iff_witness :
    (exampleTask.addEvent (some (0, exampleEvent 10 20))).2 = adjacentEventsTask ∧
    (failedEvent 20 30).mStartTime = (exampleEvent 10 20).mEndTime ∧
    adjacentEventsTask.addEvent (some (1, failedEvent 20 30)) = (true, adjacentEventsTask) :=
  ⟨by decide, rfl,
    ((TaskItem.addEvent_stores_iff adjacentEventsWorld.events adjacentEventsTask 1
      (failedEvent 20 30)
      (fun entry h => ⟨0, { exampleEvent 10 20 with mParentTask := some 0 },
        by rw [List.mem_singleton.mp h], rfl, by rw [List.mem_singleton.mp h]; rfl⟩)
      (fun k h => by cases List.mem_singleton.mp h)).2.2.2.1
      ⟨(QDateTime.msecs 20, some 0), List.mem_singleton.mpr rfl, 0,
        { exampleEvent 10 20 with mParentTask := some 0 }, rfl, rfl, rfl⟩).1⟩

/-! ## TimeLineGrid::calculateStep in machine arithmetic -/

namespace TimeLineGrid

theorem toInt32_le (n : Nat) : toInt32 n ≤ (n : Int) := by
  unfold toInt32
  have := Nat.mod_le n (2 ^ 32)
  split_ifs <;> omega

theorem calculateStepLoop_step (span : Nat) (m : Int) (fuel unit temp : Nat)
    (h1 : 1000 ≤ temp) (h2 : temp ≤ 9300000000000000000)
    (hinv : temp < 60000 → unit = 1000) :
    calculateStepLoop span m (fuel + 1) unit temp =
      if toInt32 (span / roundedStep temp) > m then
        calculateStepLoop span m fuel (bracketUnit temp)
          (if bracketUnit temp = 2592000000 then 31536000000
            else roundedStep temp + bracketUnit temp)
      else if (bracketUnit temp = 1000 ∨ bracketUnit temp = 60000) ∧
          roundedUnits (temp / bracketUnit temp) > 30 then
        calculateStepLoop span m fuel (bracketUnit temp) (60 * bracketUnit temp)
      else Run.done (if span > 86400000 ∧ bracketUnit temp < 86400000 then 86400000
        else roundedStep temp) := by
  obtain ⟨hU1, hU2, hU3⟩ := bracketUnit_bounds temp h1
  have hUc : bracketUnit temp = 1000 ∨ bracketUnit temp = 60000 ∨ bracketUnit temp = 3600000 ∨
      bracketUnit temp = 86400000 ∨ bracketUnit temp = 2592000000 ∨
      bracketUnit temp = 31536000000 := by
    rcases bracketUnit_cases temp with h | h | h | h | h | h <;> omega
  have hn0 : temp / bracketUnit temp < 1000000000 := by
    rcases bracketUnit_cases temp with h | h | h | h | h | h <;> rw [h.1] <;> omega
  have hn : temp / bracketUnit temp < 2147483648 := by omega
  have hn1 : 1 ≤ temp / bracketUnit temp := (Nat.one_le_div_iff (by omega)).mpr hU2
  obtain ⟨hx1, hx2, hx3⟩ := roundedUnits_bounds (temp / bracketUnit temp)
  have hx4 := hx3 hn1
  obtain ⟨hT2, _, hT1⟩ := roundedStep_bounds temp h1
  rw [calculateStepLoop]
  simp only [classify_eq unit temp h1 hinv]
  have hz : ¬ (bracketUnit temp = 0) := by omega
  rw [if_neg hz]
  simp only [toInt32_of_lt _ hn, roundedUnits_cast]
  have hx5 : ¬ (((roundedUnits (temp / bracketUnit temp) : Nat) : Int) ≥ 2 ^ 31) := by
    omega
  rw [if_neg hx5]
  rw [toQuint64_natCast _ (by omega)]
  have hmod : (roundedUnits (temp / bracketUnit temp) * bracketUnit temp) % 2 ^ 64
      = roundedStep temp := by
    unfold roundedStep at hT1 ⊢
    exact Nat.mod_eq_of_lt (by omega)
  simp only [hmod]
  have hz2 : ¬ (roundedStep temp = 0) := by omega
  rw [if_neg hz2]
  rw [switch_eq _ _ (by omega) hUc]
  have h60 : (60 * bracketUnit temp) % 2 ^ 64 = 60 * bracketUnit temp :=
    Nat.mod_eq_of_lt (by omega)
  simp only [h60, second, minute, hour, day]
  norm_num

/-- Invariant rule for the loop of `calculateStep`: an invariant of the loop-head value of
`tempStepMsec` that the widening and the collapse preserve gives, with enough fuel, a result
that satisfies what the invariant implies at the exit. -/
theorem calculateStepLoop_invariant (span : Nat) (m : Int) (Inv Post : Nat → Prop)
    (hb : ∀ t, Inv t → 1000 ≤ t ∧ t ≤ 9300000000000000000)
    (hw : ∀ t, Inv t → toInt32 (span / roundedStep t) > m →
      Inv (if bracketUnit t = 2592000000 then 31536000000
        else roundedStep t + bracketUnit t))
    (hc : ∀ t, Inv t → ¬ (toInt32 (span / roundedStep t) > m) →
      ((bracketUnit t = 1000 ∨ bracketUnit t = 60000) ∧
        roundedUnits (t / bracketUnit t) > 30) → Inv (60 * bracketUnit t))
    (he : ∀ t, Inv t → ¬ (toInt32 (span / roundedStep t) > m) →
      ¬ ((bracketUnit t = 1000 ∨ bracketUnit t = 60000) ∧
        roundedUnits (t / bracketUnit t) > 30) →
      Post (if span > 86400000 ∧ bracketUnit t < 86400000 then 86400000
        else roundedStep t)) :
    ∀ fuel unit temp, Inv temp → (temp < 60000 → unit = 1000) →
      9300000000000000000 < temp + fuel →
      ∃ s, (∀ j, calculateStepLoop span m (fuel + j) unit temp = Run.done s) ∧ Post s := by
  intro fuel
  induction fuel with
  | zero =>
    intro unit temp hI _ h4
    have := (hb temp hI).2
    omega
  | succ fuel ih =>
    intro unit temp hI h3 h4
    obtain ⟨h1, h2⟩ := hb temp hI
    obtain ⟨hU1, hU2, hU3⟩ := bracketUnit_bounds temp h1
    obtain ⟨hT1, hT2, hT3⟩ := roundedStep_bounds temp h1
    have hstep := fun j => calculateStepLoop_step span m (fuel + j) unit temp h1 h2 h3
    have hfuel : ∀ j, fuel + 1 + j = fuel + j + 1 := fun j => by omega
    by_cases hwd : toInt32 (span / roundedStep temp) > m
    · obtain ⟨s, hj, hres⟩ := ih (bracketUnit temp)
        (if bracketUnit temp = 2592000000 then 31536000000
          else roundedStep temp + bracketUnit temp)
        (hw temp hI hwd)
        (by
          intro hlt
          rcases bracketUnit_cases temp with h | h | h | h | h | h <;>
            split_ifs at hlt <;> omega)
        (by rcases bracketUnit_cases temp with h | h | h | h | h | h <;> split_ifs <;> omega)
      refine ⟨s, fun j => ?_, hres⟩
      rw [hfuel j, hstep j, if_pos hwd]
      exact hj j
    · by_cases hcol : (bracketUnit temp = 1000 ∨ bracketUnit temp = 60000) ∧
          roundedUnits (temp / bracketUnit temp) > 30
      · obtain ⟨s, hj, hres⟩ := ih (bracketUnit temp) (60 * bracketUnit temp)
          (hc temp hI hwd hcol) (by intro hlt; omega)
          (by rcases bracketUnit_cases temp with h | h | h | h | h | h <;> omega)
        refine ⟨s, fun j => ?_, hres⟩
        rw [hfuel j, hstep j, if_neg hwd, if_pos hcol]
        exact hj j
      · refine ⟨_, fun j => ?_, he temp hI hwd hcol⟩
        rw [hfuel j, hstep j, if_neg hwd, if_neg hcol]

/-- The first iteration of the loop when `maxNumberOfTextMarks` is 1 and the span is so
large that the candidate step can wrap around in 64 bits. -/
theorem calculateStepLoop_wide (span fuel : Nat) (h1 : 9223372068390775808 < span)
    (h2 : span < 2 ^ 64) :
    calculateStepLoop span 1 (fuel + 1) 1000 span =
      if span / 31536000000 ≤ 584942415 then Run.done (roundedStep span)
      else calculateStepLoop span 1 fuel 31536000000 114946448384 := by
  have hb : bracketUnit span = 31536000000 := by
    rcases bracketUnit_cases span with h | h | h | h | h | h <;> omega
  have hn : span / 31536000000 < 2147483648 := by omega
  obtain ⟨hx1, hx2, hx3⟩ := roundedUnits_bounds (span / 31536000000)
  rw [calculateStepLoop]
  simp only [classify_eq 1000 span (by omega) (fun _ => rfl), hb]
  rw [if_neg (by norm_num)]
  simp only [toInt32_of_lt _ hn, roundedUnits_cast]
  rw [if_neg (by omega)]
  rw [toQuint64_natCast _ (by omega)]
  by_cases hsmall : span / 31536000000 ≤ 584942415
  · rw [if_pos hsmall]
    have hru : roundedUnits (span / 31536000000) ≤ 584942415 := by
      unfold roundedUnits
      split <;> omega
    have hmod : (roundedUnits (span / 31536000000) * 31536000000) % 2 ^ 64
        = roundedStep span := by
      unfold roundedStep
      rw [hb]
      exact Nat.mod_eq_of_lt (by omega)
    have hR : roundedStep span = roundedUnits (span / 31536000000) * 31536000000 := by
      unfold roundedStep
      rw [hb]
    simp only [hmod]
    have hdiv : span / roundedStep span < 2 := by
      rw [Nat.div_lt_iff_lt_mul (by omega)]
      omega
    rw [if_neg (by omega)]
    rw [toInt32_of_lt _ (by omega)]
    rw [if_neg (by omega)]
    simp only [second, minute, hour, day]
    norm_num
  · rw [if_neg hsmall]
    have hru : roundedUnits (span / 31536000000) = 584942420 := by
      unfold roundedUnits
      split <;> omega
    rw [hru]
    have hmod : (584942420 * 31536000000) % 2 ^ 64 = 83410448384 := by norm_num
    simp only [hmod]
    rw [if_neg (by norm_num)]
    have hq : span / 83410448384 < 2147483648 := by omega
    rw [toInt32_of_lt _ hq]
    have hgt : ((span / 83410448384 : Nat) : Int) > 1 := by omega
    rw [if_pos hgt]
    simp only [second, minute, hour, day, month, year]
    norm_num

/-- The outcome of `calculateStep` for every half-span and every `int` label count that is
at least 1: with the fuel `2 ^ 64` or more it returns a value, which is the sentinel when the
raw step is below one second and otherwise the exit value of an iteration. -/
theorem calculateStep_total (self : TimeLineGrid) (maxLabels : Nat) (h1 : 1 ≤ maxLabels)
    (h2 : maxLabels < 2 ^ 31) :
    ∃ s, (∀ fuel, 2 ^ 64 ≤ fuel → self.calculateStep fuel (maxLabels : Int) = Run.done s) ∧
      ((2 * self.mTimeDelta % 2 ^ 64 / maxLabels < 1000 ∧ s = 2 ^ 64 - 1) ∨
        (1000 ≤ 2 * self.mTimeDelta % 2 ^ 64 / maxLabels ∧ ∃ temp0, 1000 ≤ temp0 ∧
          ¬ ((bracketUnit temp0 = 1000 ∨ bracketUnit temp0 = 60000) ∧
            roundedUnits (temp0 / bracketUnit temp0) > 30) ∧
          s = if 2 * self.mTimeDelta % 2 ^ 64 > 86400000 ∧ bracketUnit temp0 < 86400000
            then 86400000 else roundedStep temp0)) := by
  have hq : toQuint64 (maxLabels : Int) = maxLabels := toQuint64_natCast _ (by omega)
  have hz : ¬ (maxLabels = 0) := by omega
  have hspan : 2 * self.mTimeDelta % 2 ^ 64 < 2 ^ 64 := Nat.mod_lt _ (by norm_num)
  have hcs : ∀ fuel, self.calculateStep fuel (maxLabels : Int) =
      if 2 * self.mTimeDelta % 2 ^ 64 / maxLabels < second then Run.done (2 ^ 64 - 1)
      else calculateStepLoop (2 * self.mTimeDelta % 2 ^ 64) (maxLabels : Int) fuel second
        (2 * self.mTimeDelta % 2 ^ 64 / maxLabels) := by
    intro fuel
    simp only [calculateStep, hq, if_neg hz]
  generalize 2 * self.mTimeDelta % 2 ^ 64 = span at hspan hcs ⊢
  have hgen : ∀ unit temp fuel, 1000 ≤ temp → temp ≤ 9223372068390775808 →
      (temp < 60000 → unit = 1000) → 9300000000000000000 < temp + fuel →
      ∃ s, (∀ j, calculateStepLoop span (maxLabels : Int) (fuel + j) unit temp = Run.done s) ∧
        ∃ temp0, 1000 ≤ temp0 ∧
          ¬ ((bracketUnit temp0 = 1000 ∨ bracketUnit temp0 = 60000) ∧
            roundedUnits (temp0 / bracketUnit temp0) > 30) ∧
          s = if span > 86400000 ∧ bracketUnit temp0 < 86400000
            then 86400000 else roundedStep temp0 := by
    intro unit temp fuel ht1 ht2 hinv hfuel
    exact calculateStepLoop_invariant span (maxLabels : Int)
      (fun t => 1000 ≤ t ∧ t ≤ 9223372068390775808) _
      (fun t ht => ⟨ht.1, by omega⟩)
      (fun t ht hwd => by
        obtain ⟨hU1, hU2, hU3⟩ := bracketUnit_bounds t ht.1
        obtain ⟨hT1, hT2, hT3⟩ := roundedStep_bounds t ht.1
        have hle := toInt32_le (span / roundedStep t)
        have h2le : 2 ≤ span / roundedStep t := by omega
        have hmul := (Nat.le_div_iff_mul_le (by omega)).mp h2le
        rcases bracketUnit_cases t with h | h | h | h | h | h <;> split_ifs <;> omega)
      (fun t ht _ hcol => by omega)
      (fun t ht _ hcol => ⟨t, ht.1, hcol, rfl⟩)
      fuel unit temp ⟨ht1, ht2⟩ hinv hfuel
  by_cases hinf : span / maxLabels < 1000
  · refine ⟨2 ^ 64 - 1, fun fuel _ => ?_, Or.inl ⟨hinf, rfl⟩⟩
    have hlt : span / maxLabels < second := hinf
    rw [hcs, if_pos hlt]
  · have hlt : ¬ (span / maxLabels < second) := hinf
    by_cases hbig : span / maxLabels ≤ 9223372068390775808
    · obtain ⟨s, hrun, hpost⟩ := hgen second (span / maxLabels) 18000000000000000000
        (by omega) hbig (fun _ => rfl) (by omega)
      refine ⟨s, fun fuel hfuel => ?_, Or.inr ⟨by omega, hpost⟩⟩
      rw [hcs, if_neg hlt]
      have := hrun (fuel - 18000000000000000000)
      rw [show 18000000000000000000 + (fuel - 18000000000000000000) = fuel by omega] at this
      exact this
    · have hm1 : maxLabels = 1 := by
        by_contra hne
        have h2m : 2 ≤ maxLabels := by omega
        have := Nat.div_le_div_left (a := span) h2m (by norm_num)
        omega
      subst hm1
      simp only [Nat.div_one] at hbig hlt hinf hcs ⊢
      by_cases hsmall : span / 31536000000 ≤ 584942415
      · refine ⟨roundedStep span, fun fuel hfuel => ?_, Or.inr ⟨by omega, span, by omega, ?_, ?_⟩⟩
        · rw [hcs, if_neg hlt]
          obtain ⟨k, rfl⟩ : ∃ k, fuel = k + 1 := ⟨fuel - 1, by omega⟩
          have := calculateStepLoop_wide span k (by omega) hspan
          rw [if_pos hsmall] at this
          exact_mod_cast this
        · rcases bracketUnit_cases span with h | h | h | h | h | h <;> omega
        · rw [if_neg]
          rcases bracketUnit_cases span with h | h | h | h | h | h <;> omega
      · obtain ⟨s, hrun, hpost⟩ := hgen 31536000000 114946448384 18000000000000000000
          (by omega) (by omega) (fun h => by omega) (by omega)
        refine ⟨s, fun fuel hfuel => ?_, Or.inr ⟨by omega, hpost⟩⟩
        rw [hcs, if_neg hlt]
        obtain ⟨k, rfl⟩ : ∃ k, fuel = k + 1 := ⟨fuel - 1, by omega⟩
        have hw := calculateStepLoop_wide span k (by omega) hspan
        rw [if_neg hsmall] at hw
        have hw2 : calculateStepLoop span ((1 : Nat) : Int) (k + 1) second span
            = calculateStepLoop span ((1 : Nat) : Int) k 31536000000 114946448384 := by
          exact_mod_cast hw
        rw [hw2]
        have := hrun (k - 18000000000000000000)
        rw [show 18000000000000000000 + (k - 18000000000000000000) = k by omega] at this
        exact this

theorem calculateStepTrace_snd (span : Nat) (m : Int) (fuel unit temp : Nat) :
    (calculateStepTrace span m fuel unit temp).2 = calculateStepLoop span m fuel unit temp := by
  induction fuel generalizing unit temp with
  | zero => rfl
  | succ fuel ih =>
    rw [calculateStepTrace, calculateStepLoop]
    generalize (if minute ≤ temp ∧ temp < hour then minute
      else if hour ≤ temp ∧ temp < day then hour
      else if day ≤ temp ∧ temp < month then day
      else if month ≤ temp ∧ temp < year then month
      else if year ≤ temp then year
      else unit) = timeUnit
    generalize toInt32 (temp / timeUnit) = n0
    dsimp only
    generalize (if n0 > 2 then 5 * ((n0 + 4) / 5) else n0) = n
    generalize (toQuint64 n * timeUnit) % 2 ^ 64 = t1
    generalize (if timeUnit = second then (t1 + second) % 2 ^ 64
              else if timeUnit = minute then (t1 + minute) % 2 ^ 64
              else if timeUnit = hour then (t1 + hour) % 2 ^ 64
              else if timeUnit = day then (t1 + day) % 2 ^ 64
              else if timeUnit = month then year
              else if timeUnit = year then (t1 + year) % 2 ^ 64
              else t1) = t2
    by_cases h1 : timeUnit = 0
    · rw [if_pos h1, if_pos h1]
    · rw [if_neg h1, if_neg h1]
      by_cases h2 : n ≥ 2 ^ 31
      · rw [if_pos h2, if_pos h2]
      · rw [if_neg h2, if_neg h2]
        by_cases h3 : t1 = 0
        · rw [if_pos h3, if_pos h3]
        · rw [if_neg h3, if_neg h3]
          by_cases h4 : toInt32 (span / t1) > m
          · rw [if_pos h4, if_pos h4]
            exact ih _ _
          · rw [if_neg h4, if_neg h4]
            by_cases h5 : (timeUnit = second ∨ timeUnit = minute) ∧ n > 30
            · rw [if_pos h5, if_pos h5]
              exact ih _ _
            · rw [if_neg h5, if_neg h5]

theorem calculateStepTraced_snd (self : TimeLineGrid) (fuel : Nat) (m : Int) :
    (self.calculateStepTraced fuel m).2 = self.calculateStep fuel m := by
  unfold calculateStepTraced calculateStep
  dsimp only
  by_cases h1 : toQuint64 m = 0
  · rw [if_pos h1, if_pos h1]
  · rw [if_neg h1, if_neg h1]
    by_cases h2 : 2 * self.mTimeDelta % 2 ^ 64 / toQuint64 m < second
    · rw [if_pos h2, if_pos h2]
    · rw [if_neg h2, if_neg h2]
      exact calculateStepTrace_snd _ _ _ _ _

theorem calculateStepTrace_step (span : Nat) (m : Int) (fuel unit temp : Nat)
    (h1 : 1000 ≤ temp) (h2 : temp ≤ 9300000000000000000)
    (hinv : temp < 60000 → unit = 1000) :
    (calculateStepTrace span m (fuel + 1) unit temp).1 =
      ⟨bracketUnit temp, temp, (roundedUnits (temp / bracketUnit temp) : Nat),
          roundedStep temp⟩ ::
        (if toInt32 (span / roundedStep temp) > m then
          (calculateStepTrace span m fuel (bracketUnit temp)
            (if bracketUnit temp = 2592000000 then 31536000000
              else roundedStep temp + bracketUnit temp)).1
        else if (bracketUnit temp = 1000 ∨ bracketUnit temp = 60000) ∧
            roundedUnits (temp / bracketUnit temp) > 30 then
          (calculateStepTrace span m fuel (bracketUnit temp) (60 * bracketUnit temp)).1
        else []) := by
  obtain ⟨hU1, hU2, hU3⟩ := bracketUnit_bounds temp h1
  have hUc : bracketUnit temp = 1000 ∨ bracketUnit temp = 60000 ∨ bracketUnit temp = 3600000 ∨
      bracketUnit temp = 86400000 ∨ bracketUnit temp = 2592000000 ∨
      bracketUnit temp = 31536000000 := by
    rcases bracketUnit_cases temp with h | h | h | h | h | h <;> omega
  have hn0 : temp / bracketUnit temp < 1000000000 := by
    rcases bracketUnit_cases temp with h | h | h | h | h | h <;> rw [h.1] <;> omega
  have hn : temp / bracketUnit temp < 2147483648 := by omega
  have hn1 : 1 ≤ temp / bracketUnit temp := (Nat.one_le_div_iff (by omega)).mpr hU2
  obtain ⟨hx1, hx2, hx3⟩ := roundedUnits_bounds (temp / bracketUnit temp)
  have hx4 := hx3 hn1
  obtain ⟨hT2, _, hT1⟩ := roundedStep_bounds temp h1
  rw [calculateStepTrace]
  simp only [classify_eq unit temp h1 hinv]
  have hz : ¬ (bracketUnit temp = 0) := by omega
  rw [if_neg hz]
  simp only [toInt32_of_lt _ hn, roundedUnits_cast]
  have hx5 : ¬ (((roundedUnits (temp / bracketUnit temp) : Nat) : Int) ≥ 2 ^ 31) := by
    omega
  rw [if_neg hx5]
  rw [toQuint64_natCast _ (by omega)]
  have hmod : (roundedUnits (temp / bracketUnit temp) * bracketUnit temp) % 2 ^ 64
      = roundedStep temp := by
    unfold roundedStep at hT1 ⊢
    exact Nat.mod_eq_of_lt (by omega)
  simp only [hmod]
  have hz2 : ¬ (roundedStep temp = 0) := by omega
  rw [if_neg hz2]
  rw [switch_eq _ _ (by omega) hUc]
  have h60 : (60 * bracketUnit temp) % 2 ^ 64 = 60 * bracketUnit temp :=
    Nat.mod_eq_of_lt (by omega)
  simp only [h60, second, minute, hour, day]
  split_ifs <;> simp_all

theorem calculateStepTrace_wide (span fuel : Nat) (h1 : 9223372068390775808 < span)
    (h2 : span < 2 ^ 64) :
    (calculateStepTrace span 1 (fuel + 1) 1000 span).1 =
      if span / 31536000000 ≤ 584942415 then
        [⟨31536000000, span, (roundedUnits (span / 31536000000) : Nat), roundedStep span⟩]
      else ⟨31536000000, span, 584942420, 83410448384⟩ ::
        (calculateStepTrace span 1 fuel 31536000000 114946448384).1 := by
  have hb : bracketUnit span = 31536000000 := by
    rcases bracketUnit_cases span with h | h | h | h | h | h <;> omega
  have hn : span / 31536000000 < 2147483648 := by omega
  obtain ⟨hx1, hx2, hx3⟩ := roundedUnits_bounds (span / 31536000000)
  rw [calculateStepTrace]
  simp only [classify_eq 1000 span (by omega) (fun _ => rfl), hb]
  rw [if_neg (by norm_num)]
  simp only [toInt32_of_lt _ hn, roundedUnits_cast]
  rw [if_neg (by omega)]
  rw [toQuint64_natCast _ (by omega)]
  by_cases hsmall : span / 31536000000 ≤ 584942415
  · rw [if_pos hsmall]
    have hru : roundedUnits (span / 31536000000) ≤ 584942415 := by
      unfold roundedUnits
      split <;> omega
    have hmod : (roundedUnits (span / 31536000000) * 31536000000) % 2 ^ 64
        = roundedStep span := by
      unfold roundedStep
      rw [hb]
      exact Nat.mod_eq_of_lt (by omega)
    have hR : roundedStep span = roundedUnits (span / 31536000000) * 31536000000 := by
      unfold roundedStep
      rw [hb]
    simp only [hmod]
    have hdiv : span / roundedStep span < 2 := by
      rw [Nat.div_lt_iff_lt_mul (by omega)]
      omega
    rw [if_neg (by omega)]
    rw [toInt32_of_lt _ (by omega)]
    rw [if_neg (by omega)]
    simp only [second, minute, hour, day]
    norm_num
  · rw [if_neg hsmall]
    have hru : roundedUnits (span / 31536000000) = 584942420 := by
      unfold roundedUnits
      split <;> omega
    rw [hru]
    have hmod : (584942420 * 31536000000) % 2 ^ 64 = 83410448384 := by norm_num
    simp only [hmod]
    rw [if_neg (by norm_num)]
    have hq : span / 83410448384 < 2147483648 := by omega
    rw [toInt32_of_lt _ hq]
    have hgt : ((span / 83410448384 : Nat) : Int) > 1 := by omega
    rw [if_pos hgt]
    simp only [second, minute, hour, day, month, year]
    norm_num

theorem calculateStepTrace_safe (span : Nat) (m : Int) (hspan : span < 2 ^ 64) (hm : 1 ≤ m) :
    ∀ fuel unit temp, 1000 ≤ temp → temp ≤ 9223372068390775808 →
      (temp < 60000 → unit = 1000) →
      ∀ it ∈ (calculateStepTrace span m fuel unit temp).1, it.safe := by
  intro fuel
  induction fuel with
  | zero =>
    intro unit temp _ _ _ it hit
    simp [calculateStepTrace] at hit
  | succ fuel ih =>
    intro unit temp h1 h2 h3 it hit
    obtain ⟨hU1, hU2, hU3⟩ := bracketUnit_bounds temp h1
    obtain ⟨hT1, hT2, hT3⟩ := roundedStep_bounds temp h1
    have hn1 : 1 ≤ temp / bracketUnit temp := (Nat.one_le_div_iff (by omega)).mpr hU2
    obtain ⟨hx1, hx2, hx3⟩ := roundedUnits_bounds (temp / bracketUnit temp)
    rw [calculateStepTrace_step span m fuel unit temp h1 (by omega) h3] at hit
    rcases List.mem_cons.mp hit with h | h
    · rw [h]
      refine ⟨hU1, hU2, ?_, hT1⟩
      show (1 : Int) ≤ ((roundedUnits (temp / bracketUnit temp) : Nat) : Int)
      have := hx3 hn1
      exact_mod_cast this
    · by_cases hwd : toInt32 (span / roundedStep temp) > m
      · rw [if_pos hwd] at h
        have hle := toInt32_le (span / roundedStep temp)
        have h2le : 2 ≤ span / roundedStep temp := by omega
        have hmul := (Nat.le_div_iff_mul_le (by omega)).mp h2le
        exact ih (bracketUnit temp) _
          (by rcases bracketUnit_cases temp with hb | hb | hb | hb | hb | hb <;>
            split_ifs <;> omega)
          (by rcases bracketUnit_cases temp with hb | hb | hb | hb | hb | hb <;>
            split_ifs <;> omega)
          (by
            intro hlt
            rcases bracketUnit_cases temp with hb | hb | hb | hb | hb | hb <;>
              split_ifs at hlt <;> omega)
          it h
      · rw [if_neg hwd] at h
        by_cases hcol : (bracketUnit temp = 1000 ∨ bracketUnit temp = 60000) ∧
            roundedUnits (temp / bracketUnit temp) > 30
        · rw [if_pos hcol] at h
          exact ih (bracketUnit temp) _ (by omega) (by omega) (by intro hlt; omega) it h
        · rw [if_neg hcol] at h
          cases h

theorem calculateStepLoop_no_crash (span : Nat) (m : Int) (hspan : span < 2 ^ 64)
    (hm : 1 ≤ m) :
    ∀ fuel unit temp, 1000 ≤ temp → temp ≤ 9223372068390775808 →
      (temp < 60000 → unit = 1000) →
      calculateStepLoop span m fuel unit temp ≠ Run.crash := by
  intro fuel
  induction fuel with
  | zero =>
    intro unit temp _ _ _ h
    rw [calculateStepLoop] at h
    cases h
  | succ fuel ih =>
    intro unit temp h1 h2 h3
    obtain ⟨hU1, hU2, hU3⟩ := bracketUnit_bounds temp h1
    obtain ⟨hT1, hT2, hT3⟩ := roundedStep_bounds temp h1
    rw [calculateStepLoop_step span m fuel unit temp h1 (by omega) h3]
    by_cases hwd : toInt32 (span / roundedStep temp) > m
    · rw [if_pos hwd]
      have hle := toInt32_le (span / roundedStep temp)
      have h2le : 2 ≤ span / roundedStep temp := by omega
      have hmul := (Nat.le_div_iff_mul_le (by omega)).mp h2le
      exact ih (bracketUnit temp) _
        (by rcases bracketUnit_cases temp with hb | hb | hb | hb | hb | hb <;>
          split_ifs <;> omega)
        (by rcases bracketUnit_cases temp with hb | hb | hb | hb | hb | hb <;>
          split_ifs <;> omega)
        (by
          intro hlt
          rcases bracketUnit_cases temp with hb | hb | hb | hb | hb | hb <;>
            split_ifs at hlt <;> omega)
    · rw [if_neg hwd]
      by_cases hcol : (bracketUnit temp = 1000 ∨ bracketUnit temp = 60000) ∧
          roundedUnits (temp / bracketUnit temp) > 30
      · rw [if_pos hcol]
        exact ih (bracketUnit temp) _ (by omega) (by omega) (by intro hlt; omega)
      · rw [if_neg hcol]
        intro h
        cases h

theorem niceStep_day : NiceStep 86400000 := by
  unfold NiceStep timeUnits
  decide

theorem niceStep_roundedStep (t : Nat) (h1 : 1000 ≤ t)
    (hcol : ¬ ((bracketUnit t = 1000 ∨ bracketUnit t = 60000) ∧
      roundedUnits (t / bracketUnit t) > 30)) :
    NiceStep (roundedStep t) ∧ ¬ (30000 < roundedStep t ∧ roundedStep t < 60000) ∧
      ¬ (1800000 < roundedStep t ∧ roundedStep t < 3600000) := by
  obtain ⟨hU1, hU2, hU3⟩ := bracketUnit_bounds t h1
  have hn1 : 1 ≤ t / bracketUnit t := (Nat.one_le_div_iff (by omega)).mpr hU2
  have hk : roundedUnits (t / bracketUnit t) = 1 ∨ roundedUnits (t / bracketUnit t) = 2 ∨
      (0 < roundedUnits (t / bracketUnit t) ∧ roundedUnits (t / bracketUnit t) % 5 = 0) := by
    unfold roundedUnits
    split <;> omega
  have hmem : bracketUnit t ∈ timeUnits := by
    unfold timeUnits
    rcases bracketUnit_cases t with h | h | h | h | h | h <;> rw [h.1] <;> decide
  have hdiv : roundedStep t / bracketUnit t = roundedUnits (t / bracketUnit t) := by
    unfold roundedStep
    exact Nat.mul_div_cancel _ (by omega)
  have hmod : roundedStep t % bracketUnit t = 0 := by
    unfold roundedStep
    exact Nat.mul_mod_left _ _
  have hR : roundedStep t = roundedUnits (t / bracketUnit t) * bracketUnit t := rfl
  refine ⟨⟨bracketUnit t, hmem, hmod, by rw [hdiv]; exact hk, fun hu => ?_⟩, ?_, ?_⟩
  · rw [hdiv]
    by_contra hgt
    exact hcol ⟨hu, by omega⟩
  · rcases bracketUnit_cases t with h | h | h | h | h | h <;> rw [hR, h.1] <;>
      rw [h.1] at hcol <;> omega
  · rcases bracketUnit_cases t with h | h | h | h | h | h <;> rw [hR, h.1] <;>
      rw [h.1] at hcol <;> omega

theorem niceStep_ne_sentinel (s : Nat) (h : NiceStep s) : s ≠ 2 ^ 64 - 1 := by
  obtain ⟨U, hU, hmod, _, _⟩ := h
  intro hs
  rw [hs] at hmod
  simp only [timeUnits, List.mem_cons, List.mem_singleton, List.not_mem_nil, or_false] at hU
  rcases hU with h | h | h | h | h | h <;> rw [h] at hmod <;> norm_num at hmod

/-- C22: for every half-span and every `int` label count `maxLabels >= 1`,
`TimeLineGrid::calculateStep` returns (for every fuel from `2 ^ 64` on) a value `s` that
differs from the sentinel `2 ^ 64 - 1` iff the raw step `(2 * mTimeDelta mod 2 ^ 64) /
maxLabels` is at least one second; and every such `s` is a nice step: `k * U` with `U` one of
the six units and `k` equal to 1, 2 or a positive multiple of 5, with `k <= 30` when `U` is
the second or the minute; so `s` lies neither strictly between 30 and 60 seconds nor
strictly between 30 and 60 minutes.  The arithmetic is the 64-bit and `int` arithmetic of the
code. -/
theorem calculateStep_nice (self : TimeLineGrid) (maxLabels : Nat) (h1 : 1 ≤ maxLabels)
    (h2 : maxLabels < 2 ^ 31) :
    ∃ s, (∀ fuel, 2 ^ 64 ≤ fuel → self.calculateStep fuel (maxLabels : Int) = Run.done s) ∧
      (s ≠ 2 ^ 64 - 1 ↔ 1000 ≤ 2 * self.mTimeDelta % 2 ^ 64 / maxLabels) ∧
      (s ≠ 2 ^ 64 - 1 →
        NiceStep s ∧ ¬ (30000 < s ∧ s < 60000) ∧ ¬ (1800000 < s ∧ s < 3600000)) := by
  obtain ⟨s, hrun, hs⟩ := calculateStep_total self maxLabels h1 h2
  rcases hs with ⟨hinf, hsent⟩ | ⟨hfeas, temp0, ht, hcol, hs⟩
  · exact ⟨s, hrun, ⟨fun hne => absurd hsent hne, fun h => by omega⟩,
      fun hne => absurd hsent hne⟩
  · have hnice : NiceStep s ∧ ¬ (30000 < s ∧ s < 60000) ∧ ¬ (1800000 < s ∧ s < 3600000) := by
      by_cases hday : 2 * self.mTimeDelta % 2 ^ 64 > 86400000 ∧ bracketUnit temp0 < 86400000
      · rw [if_pos hday] at hs
        rw [hs]
        exact ⟨niceStep_day, by omega, by omega⟩
      · rw [if_neg hday] at hs
        rw [hs]
        exact niceStep_roundedStep temp0 ht hcol
    exact ⟨s, hrun, ⟨fun _ => hfeas, fun _ => niceStep_ne_sentinel s hnice.1⟩, fun _ => hnice⟩

/-- Witness for C22: a span of 20 minutes (half-span 600000 ms) and 5 labels. -/
theorem calculateStep_nice_witness :
    ∃ s, (∀ fuel, 2 ^ 64 ≤ fuel →
        (exampleGrid 600000).calculateStep fuel ((5 : Nat) : Int) = Run.done s) ∧
      (s ≠ 2 ^ 64 - 1 ↔ 1000 ≤ 2 * (exampleGrid 600000).mTimeDelta % 2 ^ 64 / 5) ∧
      (s ≠ 2 ^ 64 - 1 →
        NiceStep s ∧ ¬ (30000 < s ∧ s < 60000) ∧ ¬ (1800000 < s ∧ s < 3600000)) :=
  calculateStep_nice (exampleGrid 600000) 5 (by decide) (by decide)

theorem calculateStep_eq_loop (self : TimeLineGrid) (maxLabels : Nat) (h1 : 1 ≤ maxLabels)
    (h2 : maxLabels < 2 ^ 31) (fuel : Nat) :
    self.calculateStep fuel (maxLabels : Int) =
      if 2 * self.mTimeDelta % 2 ^ 64 / maxLabels < 1000 then Run.done (2 ^ 64 - 1)
      else calculateStepLoop (2 * self.mTimeDelta % 2 ^ 64) (maxLabels : Int) fuel 1000
        (2 * self.mTimeDelta % 2 ^ 64 / maxLabels) := by
  have hq : toQuint64 (maxLabels : Int) = maxLabels := toQuint64_natCast _ (by omega)
  have hz : ¬ (maxLabels = 0) := by omega
  simp only [calculateStep, hq, if_neg hz, second]

theorem calculateStepTraced_eq_trace (self : TimeLineGrid) (maxLabels : Nat)
    (h1 : 1 ≤ maxLabels) (h2 : maxLabels < 2 ^ 31) (fuel : Nat) :
    self.calculateStepTraced fuel (maxLabels : Int) =
      if 2 * self.mTimeDelta % 2 ^ 64 / maxLabels < 1000 then ([], Run.done (2 ^ 64 - 1))
      else calculateStepTrace (2 * self.mTimeDelta % 2 ^ 64) (maxLabels : Int) fuel 1000
        (2 * self.mTimeDelta % 2 ^ 64 / maxLabels) := by
  have hq : toQuint64 (maxLabels : Int) = maxLabels := toQuint64_natCast _ (by omega)
  have hz : ¬ (maxLabels = 0) := by omega
  simp only [calculateStepTraced, hq, if_neg hz, second]

theorem wide_only_one_label (span maxLabels : Nat) (h1 : 1 ≤ maxLabels)
    (hspan : span < 2 ^ 64) (hbig : ¬ (span / maxLabels ≤ 9223372068390775808)) :
    maxLabels = 1 := by
  by_contra hne
  have h2m : 2 ≤ maxLabels := by omega
  have := Nat.div_le_div_left (a := span) h2m (by norm_num)
  omega

theorem calculateStep_no_crash (self : TimeLineGrid) (maxLabels : Nat) (h1 : 1 ≤ maxLabels)
    (h2 : maxLabels < 2 ^ 31) (fuel : Nat) :
    self.calculateStep fuel (maxLabels : Int) ≠ Run.crash := by
  rw [calculateStep_eq_loop self maxLabels h1 h2]
  have hspan : 2 * self.mTimeDelta % 2 ^ 64 < 2 ^ 64 := Nat.mod_lt _ (by norm_num)
  generalize 2 * self.mTimeDelta % 2 ^ 64 = span at hspan ⊢
  by_cases hinf : span / maxLabels < 1000
  · rw [if_pos hinf]
    intro h
    cases h
  · rw [if_neg hinf]
    by_cases hbig : span / maxLabels ≤ 9223372068390775808
    · exact calculateStepLoop_no_crash span _ hspan (by omega) fuel 1000 _ (by omega) hbig
        (fun _ => rfl)
    · have hm1 := wide_only_one_label span maxLabels h1 hspan hbig
      subst hm1
      simp only [Nat.div_one] at hbig hinf ⊢
      cases fuel with
      | zero =>
        rw [calculateStepLoop]
        intro h
        cases h
      | succ k =>
        have hw := calculateStepLoop_wide span k (by omega) hspan
        have hw2 : calculateStepLoop span ((1 : Nat) : Int) (k + 1) 1000 span =
            if span / 31536000000 ≤ 584942415 then Run.done (roundedStep span)
            else calculateStepLoop span ((1 : Nat) : Int) k 31536000000 114946448384 := by
          exact_mod_cast hw
        rw [hw2]
        split_ifs
        · intro h
          cases h
        · exact calculateStepLoop_no_crash span _ hspan (by norm_num) k _ _ (by omega)
            (by omega) (fun h => by omega)

theorem calculateStepTraced_safe (self : TimeLineGrid) (maxLabels : Nat) (h1 : 1 ≤ maxLabels)
    (h2 : maxLabels < 2 ^ 31) (fuel : Nat) :
    ∀ it ∈ (self.calculateStepTraced fuel (maxLabels : Int)).1, it.safe := by
  rw [calculateStepTraced_eq_trace self maxLabels h1 h2]
  have hspan : 2 * self.mTimeDelta % 2 ^ 64 < 2 ^ 64 := Nat.mod_lt _ (by norm_num)
  generalize 2 * self.mTimeDelta % 2 ^ 64 = span at hspan ⊢
  by_cases hinf : span / maxLabels < 1000
  · rw [if_pos hinf]
    intro it hit
    cases hit
  · rw [if_neg hinf]
    by_cases hbig : span / maxLabels ≤ 9223372068390775808
    · exact calculateStepTrace_safe span _ hspan (by omega) fuel 1000 _ (by omega) hbig
        (fun _ => rfl)
    · have hm1 := wide_only_one_label span maxLabels h1 hspan hbig
      subst hm1
      simp only [Nat.div_one] at hbig hinf ⊢
      cases fuel with
      | zero =>
        intro it hit
        rw [calculateStepTrace] at hit
        cases hit
      | succ k =>
        have hw := calculateStepTrace_wide span k (by omega) hspan
        have hw2 : (calculateStepTrace span ((1 : Nat) : Int) (k + 1) 1000 span).1 =
            if span / 31536000000 ≤ 584942415 then
              [⟨31536000000, span, (roundedUnits (span / 31536000000) : Nat), roundedStep span⟩]
            else ⟨31536000000, span, 584942420, 83410448384⟩ ::
              (calculateStepTrace span ((1 : Nat) : Int) k 31536000000 114946448384).1 := by
          exact_mod_cast hw
        rw [hw2]
        have hb : bracketUnit span = 31536000000 := by
          rcases bracketUnit_cases span with h | h | h | h | h | h <;> omega
        obtain ⟨hT1, hT2, hT3⟩ := roundedStep_bounds span (by omega)
        obtain ⟨hx1, hx2, hx3⟩ := roundedUnits_bounds (span / 31536000000)
        intro it hit
        split_ifs at hit
        · rw [List.mem_singleton] at hit
          rw [hit]
          refine ⟨by norm_num, by show 31536000000 ≤ span; omega, ?_, by
            show 31536000000 ≤ roundedStep span; omega⟩
          show (1 : Int) ≤ ((roundedUnits (span / 31536000000) : Nat) : Int)
          have : 1 ≤ roundedUnits (span / 31536000000) := hx3 (by omega)
          exact_mod_cast this
        · rcases List.mem_cons.mp hit with h | h
          · rw [h]
            exact ⟨by norm_num, by show 31536000000 ≤ span; omega, by norm_num, by norm_num⟩
          · exact calculateStepTrace_safe span _ hspan (by norm_num) k _ _ (by omega)
              (by omega) (fun h => by omega) it h

/-- C23: for every half-span and every `int` label count `maxLabels >= 1`,
`TimeLineGrid::calculateStep` terminates: there is a value that it returns for every fuel
from `2 ^ 64` on (the sentinel when the request is infeasible), and for no fuel it divides by
zero or overflows an `int`.  The loop cannot cycle: the widening and the collapse to 60 units
both strictly increase the loop-head value of `tempStepMsec`.  The arithmetic is the machine
arithmetic of the code, which agrees with exact arithmetic on every run without overflow. -/
theorem calculateStep_terminates (self : TimeLineGrid) (maxLabels : Nat) (h1 : 1 ≤ maxLabels)
    (h2 : maxLabels < 2 ^ 31) :
    (∃ s, ∀ fuel, 2 ^ 64 ≤ fuel → self.calculateStep fuel (maxLabels : Int) = Run.done s) ∧
    (∀ fuel, self.calculateStep fuel (maxLabels : Int) ≠ Run.crash) ∧
    (∀ t, 1000 ≤ t →
      t < (if bracketUnit t = 2592000000 then 31536000000 else roundedStep t + bracketUnit t) ∧
      ((bracketUnit t = 1000 ∨ bracketUnit t = 60000) → t < 60 * bracketUnit t)) := by
  obtain ⟨s, hrun, _⟩ := calculateStep_total self maxLabels h1 h2
  refine ⟨⟨s, hrun⟩, ?_, ?_⟩
  · intro fuel
    exact calculateStep_no_crash self maxLabels h1 h2 fuel
  · intro t ht
    obtain ⟨hT1, hT2, hT3⟩ := roundedStep_bounds t ht
    rcases bracketUnit_cases t with h | h | h | h | h | h <;> split_ifs <;> omega

/-- Witness for C23: a span of 20 minutes (half-span 600000 ms) and 5 labels. -/
theorem calculateStep_terminates_witness :
    ∃ s, ∀ fuel, 2 ^ 64 ≤ fuel →
      (exampleGrid 600000).calculateStep fuel ((5 : Nat) : Int) = Run.done s :=
  (calculateStep_terminates (exampleGrid 600000) 5 (by decide) (by decide)).1

/-- C29: for every half-span, every `int` label count `maxLabels >= 1` and every fuel,
`TimeLineGrid::calculateStep` does not crash (no division by zero, no `int` overflow), and at
every iteration that it runs the unit is at least one second and not above `tempStepMsec`
where `tempStepMsec / timeUnit` is evaluated, `numberOfUnits` is at least 1, and the new
`tempStepMsec`, the divisor of `2 * mTimeDelta / tempStepMsec`, is at least one unit.  An
infeasible request runs no iteration, so the feasibility of the request is not needed. -/
theorem calculateStep_division_safe (self : TimeLineGrid) (maxLabels : Nat)
    (h1 : 1 ≤ maxLabels) (h2 : maxLabels < 2 ^ 31) (fuel : Nat) :
    self.calculateStep fuel (maxLabels : Int) ≠ Run.crash ∧
    (self.calculateStepTraced fuel (maxLabels : Int)).2
      = self.calculateStep fuel (maxLabels : Int) ∧
    ∀ it ∈ (self.calculateStepTraced fuel (maxLabels : Int)).1,
      1000 ≤ it.timeUnit ∧ it.timeUnit ≤ it.tempStepMsec ∧ 1 ≤ it.numberOfUnits ∧
        it.timeUnit ≤ it.nextStepMsec :=
  ⟨calculateStep_no_crash self maxLabels h1 h2 fuel, calculateStepTraced_snd self fuel _,
    calculateStepTraced_safe self maxLabels h1 h2 fuel⟩

/-- Witness for C29: a span of 20 minutes and 5 labels run one iteration, with the unit one
minute, `tempStepMsec` 240000, 5 units and the new `tempStepMsec` 300000. -/
theorem calculateStep_division_safe_witness :
    (exampleGrid 600000).calculateStepTraced 10 ((5 : Nat) : Int)
      = ([⟨60000, 240000, 5, 300000⟩], Run.done 300000) ∧
    (exampleGrid 600000).calculateStep 10 ((5 : Nat) : Int) ≠ Run.crash :=
  ⟨by decide, (calculateStep_division_safe (exampleGrid 600000) 5 (by decide) (by decide) 10).1⟩

/-! ## TimeLineGrid::calculateStep: the sentinel and spans above one day -/

/-- C12 (amended): for every half-span `d < 2 ^ 63` ms (the product `2 * d` fits in 64 bits)
and every `int` label count `maxLabels >= 1`, `TimeLineGrid::calculateStep` returns (for
every fuel from `2 ^ 64` on) the sentinel `quint64(-1) = 2 ^ 64 - 1` iff
`floor(2 * d / maxLabels) < 1000`; in every other case it returns a step that is `>= 1000`
and different from the sentinel. -/
theorem calculateStep_sentinel_iff (self : TimeLineGrid) (maxLabels : Nat)
    (h1 : 1 ≤ maxLabels) (h2 : maxLabels < 2 ^ 31) (hd : self.mTimeDelta < 2 ^ 63) :
    ∃ s, (∀ fuel, 2 ^ 64 ≤ fuel → self.calculateStep fuel (maxLabels : Int) = Run.done s) ∧
      (s = 2 ^ 64 - 1 ↔ 2 * self.mTimeDelta / maxLabels < 1000) ∧
      (¬ (2 * self.mTimeDelta / maxLabels < 1000) → 1000 ≤ s ∧ s ≠ 2 ^ 64 - 1) := by
  have hspan : 2 * self.mTimeDelta % 2 ^ 64 = 2 * self.mTimeDelta :=
    Nat.mod_eq_of_lt (by omega)
  obtain ⟨s, hrun, hs⟩ := calculateStep_total self maxLabels h1 h2
  rw [hspan] at hs
  rcases hs with ⟨hinf, hsent⟩ | ⟨hfeas, temp0, ht, hcol, hs⟩
  · exact ⟨s, hrun, ⟨fun _ => hinf, fun _ => hsent⟩, fun h => absurd hinf h⟩
  · obtain ⟨hU1, _, _⟩ := bracketUnit_bounds temp0 ht
    obtain ⟨hT1, _, _⟩ := roundedStep_bounds temp0 ht
    have hres : 1000 ≤ s ∧ s ≠ 2 ^ 64 - 1 := by
      by_cases hday : 2 * self.mTimeDelta > 86400000 ∧ bracketUnit temp0 < 86400000
      · rw [if_pos hday] at hs
        rw [hs]
        exact ⟨by norm_num, niceStep_ne_sentinel _ niceStep_day⟩
      · rw [if_neg hday] at hs
        rw [hs]
        exact ⟨by omega, niceStep_ne_sentinel _ (niceStep_roundedStep temp0 ht hcol).1⟩
    exact ⟨s, hrun, ⟨fun h => absurd h hres.2, fun h => by omega⟩, fun _ => hres⟩

/-- Witness for C12: half-span 600000 ms with 5 labels (feasible). -/
theorem calculateStep_sentinel_iff_witness :
    ∃ s, (∀ fuel, 2 ^ 64 ≤ fuel →
        (exampleGrid 600000).calculateStep fuel ((5 : Nat) : Int) = Run.done s) ∧
      (s = 2 ^ 64 - 1 ↔ 2 * (exampleGrid 600000).mTimeDelta / 5 < 1000) ∧
      (¬ (2 * (exampleGrid 600000).mTimeDelta / 5 < 1000) → 1000 ≤ s ∧ s ≠ 2 ^ 64 - 1) :=
  calculateStep_sentinel_iff (exampleGrid 600000) 5 (by decide) (by decide) (by decide)

/-- C14 (amended): for every half-span `d < 2 ^ 63` ms (the product `2 * d` fits in 64 bits)
and every `int` label count `maxLabels >= 1` for which the request is feasible
(`floor(2 * d / maxLabels) >= 1000`) and whose visible span `2 * d` exceeds one day
(86400000 ms), `TimeLineGrid::calculateStep` returns (for every fuel from `2 ^ 64` on) a step
`>= 86400000` ms. -/
theorem calculateStep_multi_day (self : TimeLineGrid) (maxLabels : Nat) (h1 : 1 ≤ maxLabels)
    (h2 : maxLabels < 2 ^ 31) (hd : self.mTimeDelta < 2 ^ 63)
    (hfeas : 1000 ≤ 2 * self.mTimeDelta / maxLabels) (hday : 86400000 < 2 * self.mTimeDelta) :
    ∃ s, (∀ fuel, 2 ^ 64 ≤ fuel → self.calculateStep fuel (maxLabels : Int) = Run.done s) ∧
      86400000 ≤ s := by
  have hspan : 2 * self.mTimeDelta % 2 ^ 64 = 2 * self.mTimeDelta :=
    Nat.mod_eq_of_lt (by omega)
  obtain ⟨s, hrun, hs⟩ := calculateStep_total self maxLabels h1 h2
  rw [hspan] at hs
  rcases hs with ⟨hinf, _⟩ | ⟨_, temp0, ht, _, hs⟩
  · omega
  · obtain ⟨hT1, _, _⟩ := roundedStep_bounds temp0 ht
    refine ⟨s, hrun, ?_⟩
    by_cases hc : 2 * self.mTimeDelta > 86400000 ∧ bracketUnit temp0 < 86400000
    · rw [if_pos hc] at hs
      omega
    · rw [if_neg hc] at hs
      omega

/-- Witness for C14: a span of four days (half-span 172800000 ms) and 10 labels. -/
theorem calculateStep_multi_day_witness :
    86400000 < 2 * (exampleGrid 172800000).mTimeDelta ∧
    ∃ s, (∀ fuel, 2 ^ 64 ≤ fuel →
        (exampleGrid 172800000).calculateStep fuel ((10 : Nat) : Int) = Run.done s) ∧
      86400000 ≤ s :=
  ⟨by decide,
    calculateStep_multi_day (exampleGrid 172800000) 10 (by decide) (by decide) (by decide)
      (by decide) (by decide)⟩

/-! ## TimeLineGrid::calculateStep: spans up to 20 hours -/

/-- C30: `TimeLineGrid::setTimeRange` never emits `rangeChanged`: for every call, accepted or
rejected, the list of emitted signals is empty.  Executed statement by statement, the body
gives the flag and the grid of `setTimeRange` and no signal, because the `emit` stands
after `return true`; the same statements with the `emit` before the `return` do emit one
signal. -/
theorem setTimeRange_never_emits (self : TimeLineGrid) (centralTime : QDateTime)
    (timeDelta : Nat) :
    (self.setTimeRange centralTime timeDelta).2.2 = [] ∧
    self.setTimeRangeStmts centralTime timeDelta =
      (some (self.setTimeRange centralTime timeDelta).1,
        (self.setTimeRange centralTime timeDelta).2.1, []) ∧
    (execStmts centralTime timeDelta
      [SetTimeRangeStmt.assignCenterMark, SetTimeRangeStmt.assignTimeDelta,
        SetTimeRangeStmt.update, SetTimeRangeStmt.emitRangeChanged,
        SetTimeRangeStmt.returnValue true] (self, [])).2.2.length = 1 := by
  unfold setTimeRange setTimeRangeStmts
  by_cases h : timeDelta ≥ self.mSettings.maximumScale ∧ timeDelta ≤ self.mSettings.minimumScale
  · rw [if_pos h, if_pos h]
    exact ⟨rfl, rfl, rfl⟩
  · rw [if_neg h, if_neg h]
    exact ⟨rfl, rfl, rfl⟩

end TimeLineGrid

/-! ## SphereTimeLineScroller -/

namespace SphereTimeLineScroller

theorem scrollTime_eq (v0 mu : ℚ) (hmu : 0 < mu) : scrollTime v0 mu = 100 * abs v0 / mu := by
  unfold scrollTime mFreeFallAcceleration
  rw [abs_div, abs_of_pos (by positivity : (0:ℚ) < mu * 10)]
  field_simp
  ring

theorem abs_newPos (v0 mu t : ℚ) (hmu : 0 < mu) (h0 : 0 ≤ t)
    (ht : t ≤ scrollTime v0 mu) :
    abs (newPos v0 mu t) = abs v0 * t - mu / 200 * t * t := by
  rw [scrollTime_eq v0 mu hmu, le_div_iff₀ hmu] at ht
  unfold newPos acceleration mFreeFallAcceleration
  by_cases hv : v0 > 0
  · rw [if_pos hv, abs_of_pos hv] at *
    rw [abs_of_nonneg]
    · ring
    · have : v0 * t + -(mu * 10 / 1000) * t * t / 2 = t * (200 * v0 - t * mu) / 200 := by ring
      rw [this]
      apply div_nonneg _ (by norm_num)
      apply mul_nonneg h0
      linarith
  · have hvn : v0 ≤ 0 := not_lt.mp hv
    rw [if_neg hv]
    rw [abs_of_nonpos hvn] at *
    rw [abs_of_nonpos]
    · ring
    · have : v0 * t + mu * 10 / 1000 * t * t / 2 = - (t * (200 * (-v0) - t * mu) / 200) := by ring
      rw [this]
      apply neg_nonpos.mpr
      apply div_nonneg _ (by norm_num)
      apply mul_nonneg h0
      linarith

/-- C25: scroll kinematics in exact rational arithmetic.  For every non-zero initial velocity
`v0` and friction coefficient `mu > 0`, with `a = mu * 10 / 1000` and the duration
`T = |v0 / (mu * 10)| * 1000` of `startScrolling`, the position `p(t) = v0 * t + acc * t * t
/ 2` computed by `onUpdateScroll` (`acc = -a` if `v0 > 0`, else `+a`) satisfies for every
`0 <= t <= T`: `|p(t)| <= v0 * v0 / (2 * a)`, and `|p|` is non-decreasing on `[0, T]`; at
`t = T` the velocity `v0 + acc * T` is exactly 0 and `|p(T)| = v0 * v0 / (2 * a)`.  The bound
holds in particular at every `int` elapsed time up to `T` that the time line reports; and
`T > 0`. -/
theorem scroll_kinematics (v0 mu : ℚ) (hv : v0 ≠ 0) (hmu : 0 < mu) :
    (∀ t : ℚ, 0 ≤ t → t ≤ scrollTime v0 mu →
      abs (newPos v0 mu t) ≤ v0 * v0 / (2 * (mu * 10 / 1000))) ∧
    (∀ t1 t2 : ℚ, 0 ≤ t1 → t1 ≤ t2 → t2 ≤ scrollTime v0 mu →
      abs (newPos v0 mu t1) ≤ abs (newPos v0 mu t2)) ∧
    v0 + acceleration v0 mu * scrollTime v0 mu = 0 ∧
    abs (newPos v0 mu (scrollTime v0 mu)) = v0 * v0 / (2 * (mu * 10 / 1000)) ∧
    (∀ n : Int, 0 ≤ n → (n : ℚ) ≤ scrollTime v0 mu →
      abs (onUpdateScroll v0 mu n) ≤ v0 * v0 / (2 * (mu * 10 / 1000))) ∧
    0 < scrollTime v0 mu := by
  have hT := scrollTime_eq v0 mu hmu
  have hTpos : 0 < scrollTime v0 mu := by
    rw [hT]
    have := abs_pos.mpr hv
    positivity
  have hsq : v0 * v0 = abs v0 * abs v0 := (abs_mul_abs_self v0).symm
  have hbound : ∀ t : ℚ, 0 ≤ t → t ≤ scrollTime v0 mu →
      abs (newPos v0 mu t) ≤ v0 * v0 / (2 * (mu * 10 / 1000)) := by
    intro t h0 ht
    rw [abs_newPos v0 mu t hmu h0 ht, hsq]
    have e : abs v0 * abs v0 / (2 * (mu * 10 / 1000)) - (abs v0 * t - mu / 200 * t * t)
        = (mu * t - 100 * abs v0) ^ 2 / (200 * mu) := by
      generalize abs v0 = w
      field_simp
      ring
    have : 0 ≤ (mu * t - 100 * abs v0) ^ 2 / (200 * mu) := by positivity
    linarith
  refine ⟨hbound, ?_, ?_, ?_, ?_, hTpos⟩
  · intro t1 t2 h0 h12 ht
    rw [abs_newPos v0 mu t1 hmu h0 (le_trans h12 ht),
      abs_newPos v0 mu t2 hmu (le_trans h0 h12) ht]
    rw [hT, le_div_iff₀ hmu] at ht
    have e : (abs v0 * t2 - mu / 200 * t2 * t2) - (abs v0 * t1 - mu / 200 * t1 * t1)
        = (t2 - t1) * (200 * abs v0 - mu * (t1 + t2)) / 200 := by ring
    have h3 : 0 ≤ (t2 - t1) * (200 * abs v0 - mu * (t1 + t2)) / 200 := by
      apply div_nonneg _ (by norm_num)
      apply mul_nonneg (by linarith)
      nlinarith
    linarith
  · rw [hT]
    unfold acceleration mFreeFallAcceleration
    by_cases h : v0 > 0
    · rw [if_pos h, abs_of_pos h]
      field_simp
      ring
    · rw [if_neg h, abs_of_nonpos (not_lt.mp h)]
      field_simp
      ring
  · rw [abs_newPos v0 mu _ hmu (le_of_lt hTpos) (le_refl _), hT, hsq]
    generalize abs v0 = w
    field_simp
    ring
  · intro n h0 hn
    exact hbound (n : ℚ) (by exact_mod_cast h0) hn

/-- Witness for C25: initial velocity 1 px/ms and the default friction coefficient 0.66. -/
theorem scroll_kinematics_witness :
    ((1 : ℚ) ≠ 0 ∧ (0 : ℚ) < 66 / 100) ∧
    abs (newPos 1 (66 / 100) (scrollTime 1 (66 / 100))) = 1 * 1 / (2 * (66 / 100 * 10 / 1000)) :=
  ⟨⟨by norm_num, by norm_num⟩,
    (scroll_kinematics 1 (66 / 100) (by norm_num) (by norm_num)).2.2.2.1⟩

end SphereTimeLineScroller

/-! ## TimeLineItems: info marks and event items -/

namespace TimeLineItems

theorem InfoMarks.marks_find_inserted (k : Int) (v : TaskStylePtr)
    (l : List (Int × TaskStylePtr)) :
    InfoMarks.findList k (InfoMarks.insertList k v l) = some v := by
  induction l with
  | nil => simp [InfoMarks.insertList, InfoMarks.findList]
  | cons hd rest ih =>
    obtain ⟨k0, v0⟩ := hd
    by_cases h1 : k < k0
    · simp [InfoMarks.insertList, h1, InfoMarks.findList]
    · by_cases h2 : k0 < k
      · have hne : ¬ (k = k0) := by omega
        simp [InfoMarks.insertList, h1, h2, InfoMarks.findList, hne, ih]
      · simp [InfoMarks.insertList, h1, h2, InfoMarks.findList]

theorem InfoMarks.marks_find_other (k j : Int) (v : TaskStylePtr)
    (l : List (Int × TaskStylePtr)) (hne : j ≠ k) :
    InfoMarks.findList j (InfoMarks.insertList k v l) = InfoMarks.findList j l := by
  induction l with
  | nil => simp [InfoMarks.insertList, InfoMarks.findList, hne]
  | cons hd rest ih =>
    obtain ⟨k0, v0⟩ := hd
    by_cases h1 : k < k0
    · simp [InfoMarks.insertList, h1, InfoMarks.findList, hne]
    · by_cases h2 : k0 < k
      · simp [InfoMarks.insertList, h1, h2, InfoMarks.findList, ih]
      · have hk : k = k0 := by omega
        have hne2 : ¬ (j = k0) := by omega
        simp [InfoMarks.insertList, h1, h2, InfoMarks.findList, hne, hne2]

theorem lt_trans_time {a b c : QDateTime} (h1 : QDateTime.lt a b = true)
    (h2 : QDateTime.lt b c = true) : QDateTime.lt a c = true := by
  cases a <;> cases b <;> cases c <;> simp_all [QDateTime.lt]
  omega

theorem lowerBoundList_of_mem {α : Type} (k : QDateTime) (l : List (QDateTime × α))
    (x : QDateTime × α) (hx : x ∈ l) (hk : QDateTime.lt x.1 k = false) :
    x ∈ QMap.lowerBoundList k l := by
  induction l with
  | nil => cases hx
  | cons hd rest ih =>
    obtain ⟨k0, v0⟩ := hd
    by_cases h : QDateTime.lt k0 k = true
    · rw [QMap.lowerBoundList, if_pos h]
      rcases List.mem_cons.mp hx with h2 | h2
      · rw [h2] at hk
        simp only at hk
        rw [hk] at h
        cases h
      · exact ih h2
    · rw [QMap.lowerBoundList, if_neg h]
      exact hx

theorem lowerBoundList_sorted {α : Type} (k : QDateTime) (l : List (QDateTime × α))
    (hs : l.Pairwise fun a b => QDateTime.lt a.1 b.1 = true) :
    (QMap.lowerBoundList k l).Pairwise (fun a b => QDateTime.lt a.1 b.1 = true) ∧
    ∀ x ∈ QMap.lowerBoundList k l, QDateTime.lt x.1 k = false := by
  induction l with
  | nil => exact ⟨List.Pairwise.nil, fun x hx => by cases hx⟩
  | cons hd rest ih =>
    obtain ⟨k0, v0⟩ := hd
    rw [List.pairwise_cons] at hs
    by_cases h : QDateTime.lt k0 k = true
    · rw [QMap.lowerBoundList, if_pos h]
      exact ih hs.2
    · rw [QMap.lowerBoundList, if_neg h]
      refine ⟨List.pairwise_cons.mpr hs, fun x hx => ?_⟩
      rcases List.mem_cons.mp hx with h2 | h2
      · rw [h2]
        simpa using h
      · have h3 := hs.1 x h2
        simp only at h3
        cases hxk : QDateTime.lt x.1 k with
        | false => rfl
        | true => exact absurd (lt_trans_time h3 hxk) h

/-- Inserting marks of one style keeps a mark of that style. -/
theorem collectMarks_keeps (geom : PixelGeometry) (style : TaskStylePtr)
    (vs ve : QDateTime) (p : Int) (l : List (QDateTime × EventItemPtr)) (marks : InfoMarks)
    (h : marks.find p = some style) :
    (collectMarks geom style vs ve l marks).find p = some style := by
  induction l generalizing marks with
  | nil => exact h
  | cons hd rest ih =>
    obtain ⟨k, ptr⟩ := hd
    rw [collectMarks]
    split_ifs
    · apply ih
      by_cases hp : p = geom.markPos (k.toMSecsSinceEpoch - vs.toMSecsSinceEpoch)
      · rw [hp]
        exact InfoMarks.marks_find_inserted _ _ _
      · unfold InfoMarks.find InfoMarks.insert
        rw [InfoMarks.marks_find_other _ _ _ _ hp]
        exact h
    · exact h

/-- The mark loop over a sorted map reaches every entry whose key is before the window
end. -/
theorem collectMarks_complete (geom : PixelGeometry) (style : TaskStylePtr)
    (vs ve : QDateTime) (l : List (QDateTime × EventItemPtr)) (marks : InfoMarks)
    (hs : l.Pairwise fun a b => QDateTime.lt a.1 b.1 = true)
    (x : QDateTime × EventItemPtr) (hx : x ∈ l) (hlt : QDateTime.lt x.1 ve = true) :
    (collectMarks geom style vs ve l marks).find
      (geom.markPos (x.1.toMSecsSinceEpoch - vs.toMSecsSinceEpoch)) = some style := by
  induction l generalizing marks with
  | nil => cases hx
  | cons hd rest ih =>
    obtain ⟨k, ptr⟩ := hd
    rw [List.pairwise_cons] at hs
    rcases List.mem_cons.mp hx with h | h
    · rw [h] at hlt ⊢
      simp only at hlt
      rw [collectMarks, if_pos hlt]
      exact collectMarks_keeps geom style vs ve _ rest _
        (InfoMarks.marks_find_inserted _ _ _)
    · have hk : QDateTime.lt k ve = true := lt_trans_time (hs.1 x h) hlt
      rw [collectMarks, if_pos hk]
      exact ih _ hs.2 h

/-- A mark after the mark loop was there before or was put by the loop. -/
theorem collectMarks_sound (geom : PixelGeometry) (style : TaskStylePtr)
    (vs ve : QDateTime) (p : Int) (l : List (QDateTime × EventItemPtr)) (marks : InfoMarks) :
    (collectMarks geom style vs ve l marks).find p = marks.find p ∨
    ((collectMarks geom style vs ve l marks).find p = some style ∧
      ∃ x ∈ l, QDateTime.lt x.1 ve = true ∧
        geom.markPos (x.1.toMSecsSinceEpoch - vs.toMSecsSinceEpoch) = p) := by
  induction l generalizing marks with
  | nil => exact Or.inl rfl
  | cons hd rest ih =>
    obtain ⟨k, ptr⟩ := hd
    rw [collectMarks]
    by_cases hk : QDateTime.lt k ve = true
    · rw [if_pos hk]
      rcases ih (marks.insert (geom.markPos (k.toMSecsSinceEpoch - vs.toMSecsSinceEpoch)) style)
        with h | ⟨h, x, hx, hx2⟩
      · by_cases hp : p = geom.markPos (k.toMSecsSinceEpoch - vs.toMSecsSinceEpoch)
        · refine Or.inr ⟨?_, (k, ptr), List.mem_cons_self _ _, hk, hp.symm⟩
          rw [h, hp]
          exact InfoMarks.marks_find_inserted _ _ _
        · refine Or.inl ?_
          rw [h]
          unfold InfoMarks.find InfoMarks.insert
          exact InfoMarks.marks_find_other _ _ _ _ hp
      · exact Or.inr ⟨h, x, List.mem_cons_of_mem _ hx, hx2⟩
    · rw [if_neg hk]
      exact Or.inl rfl

/-- The marks after the body of the task loop for one live task: unchanged when the task is
not shown, else the result of the mark loop over its failure-marker map. -/
theorem projectTask_marks (self : TimeLineItems) (w : World) (geom : PixelGeometry)
    (a1 : Nat) (t1 : TaskItem) (acc : List VisibleItem × InfoMarks)
    (ht : w.tasks.find a1 = some t1)
    (hl : ∀ x ∈ t1.mEvent.entries, w.eventEntryLive x = true) :
    ∃ res, projectTask self w geom self.visibleRangeStartTime self.visibleRangeEndTime
        (some a1) acc = some res ∧
      ((¬ self.showsTask t1 ∧ res.2 = acc.2) ∨
        (self.showsTask t1 ∧ ∃ axis style,
          self.mItemStyles.find t1.mTaskType = some (axis, style) ∧
          res.2 = collectMarks geom style self.visibleRangeStartTime self.visibleRangeEndTime
            (QMap.lowerBoundList self.visibleRangeStartTime t1.mEventsWithInfoSigh.entries)
            acc.2)) := by
  simp only [projectTask, ht]
  by_cases hskip : t1.eventCount = 0 ∧ t1.mEndTime.isValid = false
  · rw [if_pos hskip]
    exact ⟨acc, rfl, Or.inl ⟨fun h => h.2.2 hskip, rfl⟩⟩
  · rw [if_neg hskip]
    cases hst : self.mItemStyles.find t1.mTaskType with
    | none =>
      refine ⟨acc, rfl, Or.inl ⟨fun h => ?_, rfl⟩⟩
      have := h.1
      rw [hst] at this
      cases this
    | some axst =>
      obtain ⟨axis, style⟩ := axst
      simp only
      by_cases hint : (t1.toAbstractItem.getIntersection self.visibleRangeStartTime
          self.visibleRangeEndTime).1.isValid = false
      · rw [if_pos hint]
        refine ⟨acc, rfl, Or.inl ⟨fun h => ?_, rfl⟩⟩
        have := h.2.1
        rw [hint] at this
        cases this
      · rw [if_neg hint]
        have hshow : self.showsTask t1 := ⟨by rw [hst]; rfl, by simpa using hint, hskip⟩
        split_ifs with hev
        · obtain ⟨evs, hevs, hsub⟩ := eventsFrom_some w self.visibleRangeStartTime
            t1.mEvent.entries hl
          obtain ⟨items, hitems, hzero⟩ := collectEvents_some w geom axis style
            self.visibleRangeStartTime self.visibleRangeEndTime evs
            (fun x hx => hl x (hsub x hx))
          simp only [hevs, hitems]
          exact ⟨_, rfl, Or.inr ⟨hshow, axis, style, rfl, rfl⟩⟩
        · exact ⟨_, rfl, Or.inr ⟨hshow, axis, style, rfl, rfl⟩⟩

theorem marksPixel_mono (self : TimeLineItems) (w : World) (geom : PixelGeometry)
    (hd : Nat × TaskItemPtr) (es : List (Nat × TaskItemPtr)) (p : Int) (st : TaskStylePtr)
    (h : self.marksPixel w geom es p st) : self.marksPixel w geom (hd :: es) p st := by
  obtain ⟨kv, hkv, rest⟩ := h
  exact ⟨kv, List.mem_cons_of_mem _ hkv, rest⟩

theorem markersSorted_elim (w : World) (kv : Nat × TaskItemPtr) (a : Nat) (t : TaskItem)
    (hs : w.storedMarkersSorted = true) (hkv : kv ∈ w.mTasks.entries) (ha : kv.2 = some a)
    (ht : w.tasks.find a = some t) : t.mEventsWithInfoSigh.Sorted := by
  have := List.all_eq_true.mp hs kv hkv
  simp only [ha, ht] at this
  exact of_decide_eq_true this

/-- Every mark after the task loop was there before or belongs to a shown task of the
list. -/
theorem projectTasks_marks_sound (self : TimeLineItems) (w : World) (geom : PixelGeometry)
    (p : Int) (es : List (Nat × TaskItemPtr)) (acc : List VisibleItem × InfoMarks)
    (hlive : ∀ kv ∈ es, w.taskEntryLive kv = true)
    (hsorted : ∀ kv ∈ es, ∀ a t, kv.2 = some a → w.tasks.find a = some t →
      t.mEventsWithInfoSigh.Sorted) :
    ∃ res, projectTasks self w geom self.visibleRangeStartTime self.visibleRangeEndTime es acc
        = some res ∧
      (res.2.find p = acc.2.find p ∨
        ∃ st, res.2.find p = some st ∧ self.marksPixel w geom es p st) := by
  induction es generalizing acc with
  | nil => exact ⟨acc, rfl, Or.inl rfl⟩
  | cons hd rest ih =>
    obtain ⟨k, ptr⟩ := hd
    obtain ⟨a1, t1, hp, ht1, hev⟩ := taskEntryLive_elim w (k, ptr)
      (hlive _ (List.mem_cons_self _ _))
    simp only at hp
    subst hp
    obtain ⟨res1, hres1, hm1⟩ := projectTask_marks self w geom a1 t1 acc ht1 hev
    obtain ⟨res, hres, hm⟩ := ih res1 (fun kv hkv => hlive kv (List.mem_cons_of_mem _ hkv))
      (fun kv hkv => hsorted kv (List.mem_cons_of_mem _ hkv))
    refine ⟨res, by simp only [projectTasks, hres1, hres], ?_⟩
    rcases hm with hm | ⟨st, hst, hpix⟩
    · rcases hm1 with ⟨_, he⟩ | ⟨hshow, axis, style, hfind, he⟩
      · exact Or.inl (by rw [hm, he])
      · rw [he] at hm
        rcases collectMarks_sound geom style self.visibleRangeStartTime
          self.visibleRangeEndTime p
          (QMap.lowerBoundList self.visibleRangeStartTime t1.mEventsWithInfoSigh.entries)
          acc.2 with h | ⟨h, x, hx, hx1, hx2⟩
        · exact Or.inl (by rw [hm, h])
        · have hsrt := hsorted (k, some a1) (List.mem_cons_self _ _) a1 t1 rfl ht1
          refine Or.inr ⟨style, by rw [hm, h], (k, some a1), List.mem_cons_self _ _, a1, t1,
            rfl, ht1, hshow, by rw [hfind]; rfl, x, lowerBoundList_mem _ _ x hx,
            (lowerBoundList_sorted _ _ hsrt).2 x hx, hx1, hx2⟩
    · exact Or.inr ⟨st, hst, marksPixel_mono self w geom _ rest p st hpix⟩

/-- Every failure marker in the window of a shown task of the list has a mark. -/
theorem projectTasks_marks_complete (self : TimeLineItems) (w : World) (geom : PixelGeometry)
    (es : List (Nat × TaskItemPtr)) (acc : List VisibleItem × InfoMarks)
    (hlive : ∀ kv ∈ es, w.taskEntryLive kv = true)
    (hsorted : ∀ kv ∈ es, ∀ a t, kv.2 = some a → w.tasks.find a = some t →
      t.mEventsWithInfoSigh.Sorted)
    (k a : Nat) (t : TaskItem) (hmem : (k, some a) ∈ es) (ht : w.tasks.find a = some t)
    (hshow : self.showsTask t) (entry : QDateTime × EventItemPtr)
    (hentry : entry ∈ t.mEventsWithInfoSigh.entries)
    (h1 : QDateTime.lt entry.1 self.visibleRangeStartTime = false)
    (h2 : QDateTime.lt entry.1 self.visibleRangeEndTime = true) :
    ∃ res, projectTasks self w geom self.visibleRangeStartTime self.visibleRangeEndTime es acc
        = some res ∧
      ∃ st, res.2.find (geom.markPos (entry.1.toMSecsSinceEpoch
          - self.visibleRangeStartTime.toMSecsSinceEpoch)) = some st ∧
        self.marksPixel w geom es (geom.markPos (entry.1.toMSecsSinceEpoch
          - self.visibleRangeStartTime.toMSecsSinceEpoch)) st := by
  induction es generalizing acc with
  | nil => cases hmem
  | cons hd rest ih =>
    obtain ⟨k1, ptr⟩ := hd
    obtain ⟨a1, t1, hp, ht1, hev⟩ := taskEntryLive_elim w (k1, ptr)
      (hlive _ (List.mem_cons_self _ _))
    simp only at hp
    subst hp
    obtain ⟨res1, hres1, hm1⟩ := projectTask_marks self w geom a1 t1 acc ht1 hev
    have hlive2 : ∀ kv ∈ rest, w.taskEntryLive kv = true :=
      fun kv hkv => hlive kv (List.mem_cons_of_mem _ hkv)
    have hsorted2 : ∀ kv ∈ rest, ∀ a t, kv.2 = some a → w.tasks.find a = some t →
        t.mEventsWithInfoSigh.Sorted :=
      fun kv hkv => hsorted kv (List.mem_cons_of_mem _ hkv)
    rcases List.mem_cons.mp hmem with hhd | hrest
    · have ha : a = a1 := by
        have := congrArg Prod.snd hhd
        simpa using this
      subst ha
      have htt : t1 = t := by
        rw [ht1] at ht
        exact Option.some.inj ht
      subst htt
      obtain ⟨res, hres, hm⟩ := projectTasks_marks_sound self w geom
        (geom.markPos (entry.1.toMSecsSinceEpoch
          - self.visibleRangeStartTime.toMSecsSinceEpoch)) rest res1 hlive2 hsorted2
      refine ⟨res, by simp only [projectTasks, hres1, hres], ?_⟩
      rcases hm with hm | ⟨st, hst, hpix⟩
      · rcases hm1 with ⟨hns, _⟩ | ⟨_, axis, style, hfind, he⟩
        · exact absurd hshow hns
        · have hsrt := hsorted (k1, some a) (List.mem_cons_self _ _) a t1 rfl ht1
          have hc := collectMarks_complete geom style self.visibleRangeStartTime
            self.visibleRangeEndTime
            (QMap.lowerBoundList self.visibleRangeStartTime t1.mEventsWithInfoSigh.entries)
            acc.2 (lowerBoundList_sorted _ _ hsrt).1 entry
            (lowerBoundList_of_mem _ _ entry hentry h1) h2
          refine ⟨style, by rw [hm, he]; exact hc, (k1, some a), List.mem_cons_self _ _, a, t1,
            rfl, ht1, hshow, by rw [hfind]; rfl, entry, hentry, h1, h2, rfl⟩
      · exact ⟨st, hst, marksPixel_mono self w geom _ rest _ st hpix⟩
    · obtain ⟨res, hres, st, hst, hpix⟩ := ih res1 hlive2 hsorted2 hrest
      exact ⟨res, by simp only [projectTasks, hres1, hres], st, hst,
        marksPixel_mono self w geom _ rest _ st hpix⟩

/-- C21 as stated fails, in two ways.  In `markerOutsideTaskWorld` (reached through `addTask`
and `addEvent`) the stored task has a registered style and a failure marker with the key 50
inside the window `[10, 90]`, but its interval `[1000, 2000]` does not intersect the window:
the task is skipped and the marker output is empty.  In `markerClashWorld` two shown tasks
with different styles have a failure marker on the same pixel 40; the marker output holds one
entry there, with the style of the task visited last, so the style of the first task is
absent. -/
theorem calculateVisibleItems_marker_dropped :
    ((TaskStorage.addTask markerOutsideTaskHeap (some 0)).bind fun r0 =>
      TaskStorage.addEvent r0.2 1 (some 0)) = some (true, markerOutsideTaskWorld) ∧
    (markerOutsideTaskWorld.tasks.find 0).map
        (fun t => (((exampleItems 50 40).mItemStyles.find t.mTaskType).isSome,
          t.mEventsWithInfoSigh.entries))
      = some (true, [(QDateTime.msecs 50, some 0)]) ∧
    (exampleItems 50 40).visibleRangeStartTime = QDateTime.msecs 10 ∧
    (exampleItems 50 40).visibleRangeEndTime = QDateTime.msecs 90 ∧
    (calculateVisibleItems (exampleItems 50 40) markerOutsideTaskWorld exampleGeometry).map
      (fun r => (r.mVisibleItems, r.mInfoMarks.entries)) = some ([], []) ∧
    (markerClashWorld.tasks.find 0).map
        (fun t => (((twoStyleItems 50 40).mItemStyles.find t.mTaskType).map Prod.snd,
          t.mEventsWithInfoSigh.entries))
      = some (some (some 0), [(QDateTime.msecs 50, some 0)]) ∧
    exampleGeometry.markPos (50 - 10) = 40 ∧
    (calculateVisibleItems (twoStyleItems 50 40) markerClashWorld exampleGeometry).map
      (fun r => r.mInfoMarks.entries) = some [(40, some 1)] := by
  refine ⟨by decide, by decide, by decide, by decide, by decide, by decide, by decide,
    by decide⟩

/-- C21 (amended): in one projection pass (storage attached, at least one registered style,
live stored pointers, failure-marker maps with ascending keys), for every stored task that
the pass shows (registered style, valid intersection with the visible range, not zero events
with an invalid end) and every entry of its failure-marker map whose key `m` satisfies
`windowStart <= m < windowEnd`, the marker output has an entry at the pixel position of
`m - windowStart`; the style of that entry is the style of a shown stored task that has a
failure marker inside the window on that pixel: the style of the task itself unless another
shown task marks the same pixel.  Nothing is assumed about the half-span and the
events-visible threshold. -/
theorem calculateVisibleItems_failure_marks (self : TimeLineItems) (w : World)
    (geom : PixelGeometry) (hs : self.mTaskStorage ≠ none)
    (hst : self.mItemStyles.isEmpty = false) (hlive : w.storedEventsLive = true)
    (hsorted : w.storedMarkersSorted = true) (k a : Nat) (t : TaskItem)
    (hmem : (k, some a) ∈ w.mTasks.entries) (ht : w.tasks.find a = some t)
    (hshow : self.showsTask t) (entry : QDateTime × EventItemPtr)
    (hentry : entry ∈ t.mEventsWithInfoSigh.entries)
    (h1 : QDateTime.lt entry.1 self.visibleRangeStartTime = false)
    (h2 : QDateTime.lt entry.1 self.visibleRangeEndTime = true) :
    ∃ r, self.calculateVisibleItems w geom = some r ∧
      ∃ st, r.mInfoMarks.find (geom.markPos (entry.1.toMSecsSinceEpoch
          - self.visibleRangeStartTime.toMSecsSinceEpoch)) = some st ∧
        self.marksPixel w geom w.mTasks.entries (geom.markPos (entry.1.toMSecsSinceEpoch
          - self.visibleRangeStartTime.toMSecsSinceEpoch)) st := by
  obtain ⟨res, hres, st, hfind, hpix⟩ := projectTasks_marks_complete self w geom
    w.mTasks.entries ([], ⟨[]⟩) (fun kv hkv => List.all_eq_true.mp hlive kv hkv)
    (fun kv hkv a t ha ht => markersSorted_elim w kv a t hsorted hkv ha ht)
    k a t hmem ht hshow entry hentry h1 h2
  refine ⟨{ self with mVisibleItems := res.1, mInfoMarks := res.2 }, ?_, st, hfind, hpix⟩
  have hc : ¬ (self.mTaskStorage = none ∨ self.mItemStyles.isEmpty = true) := by
    rw [hst]
    simp [hs]
  simp only [calculateVisibleItems, if_neg hc, hres]

/-- Witness for C21 (amended): in `markerClashWorld` the marker with key 50 of the first
task has an entry at pixel 40; its style is the one of the second task, which marks the same
pixel. -/
theorem calculateVisibleItems_failure_marks_witness :
    (calculateVisibleItems (twoStyleItems 50 40) markerClashWorld exampleGeometry).map
      (fun r => r.mInfoMarks.find 40) = some (some (some 1)) ∧
    ∃ r, (twoStyleItems 50 40).calculateVisibleItems markerClashWorld exampleGeometry
        = some r ∧
      ∃ st, r.mInfoMarks.find (exampleGeometry.markPos
          ((QDateTime.msecs 50, (some 0 : EventItemPtr)).1.toMSecsSinceEpoch
            - (twoStyleItems 50 40).visibleRangeStartTime.toMSecsSinceEpoch)) = some st ∧
        (twoStyleItems 50 40).marksPixel markerClashWorld exampleGeometry
          markerClashWorld.mTasks.entries (exampleGeometry.markPos
            ((QDateTime.msecs 50, (some 0 : EventItemPtr)).1.toMSecsSinceEpoch
              - (twoStyleItems 50 40).visibleRangeStartTime.toMSecsSinceEpoch)) st :=
  ⟨by decide,
    calculateVisibleItems_failure_marks (twoStyleItems 50 40) markerClashWorld exampleGeometry
      (by decide) (by decide) (by decide) (by decide) 1 0 _ (by decide) rfl (by decide)
      (QDateTime.msecs 50, some 0) (by decide) (by decide) (by decide)⟩

/-- C28 (the code at the failing input): the task over `[0, 100]` holds the zero-length event
`[20, 20]` (start `<=` end), added through `addEvent`; the window is `[10, 40]` with events
visible.  The intersection of the event with the window is invalid (empty), yet the event
loop appends an event item for it, with a rectangle computed from the invalid intersection:
offset `0 - 10 = -10` ms from the window start and length 0, left of the drawing area. -/
theorem calculateVisibleItems_zero_length_event :
    ((TaskStorage.addTask zeroLengthEventHeap (some 0)).bind fun r0 =>
      TaskStorage.addEvent r0.2 1 (some 0)) = some (true, zeroLengthEventWorld) ∧
    (zeroLengthEventWorld.events.find 0).map
        (fun ev => (ev.mStartTime, ev.mEndTime, QDateTime.le ev.mStartTime ev.mEndTime))
      = some (QDateTime.msecs 20, QDateTime.msecs 20, true) ∧
    (exampleItems 25 15).visibleRangeStartTime = QDateTime.msecs 10 ∧
    (exampleItems 25 15).visibleRangeEndTime = QDateTime.msecs 40 ∧
    (exampleEvent 20 20).toAbstractItem.getIntersection (QDateTime.msecs 10) (QDateTime.msecs 40)
      = (QDateTime.invalid, QDateTime.invalid) ∧
    (calculateVisibleItems (exampleItems 25 15) zeroLengthEventWorld exampleGeometry).map
        (fun r => r.mVisibleItems)
      = some [VisibleItem.mk (TimeLineItemPtr.task 0) (some 0) (QRect.ofSize 0 98 30 5),
          VisibleItem.mk (TimeLineItemPtr.event 0) (some 0) (QRect.ofSize (-10) 93 0 15)] := by
  decide

theorem lt_of_not_lt_of_ne {a b : QDateTime} (h1 : QDateTime.lt a b = false) (h2 : a ≠ b) :
    QDateTime.lt b a = true := by
  cases a <;> cases b <;> simp_all [QDateTime.lt]
  omega

theorem getIntersection_valid (it : AbstractItem) (vs ve : QDateTime)
    (hv : vs.isValid = true)
    (h1 : QDateTime.lt vs ve = true) (h2 : QDateTime.lt vs it.mEndTime = true)
    (h3 : QDateTime.lt it.mStartTime ve = true)
    (h4 : QDateTime.lt it.mStartTime it.mEndTime = true) :
    (it.getIntersection vs ve).1.isValid = true := by
  have hmax : (QDateTime.max vs it.mStartTime).isValid = true := by
    unfold QDateTime.max
    split_ifs with h
    · cases hs : it.mStartTime with
      | invalid =>
        rw [hs] at h
        cases vs <;> simp [QDateTime.lt] at h
      | msecs x => rfl
    · exact hv
  have hlt : QDateTime.lt (QDateTime.max vs it.mStartTime) (QDateTime.min ve it.mEndTime)
      = true := by
    unfold QDateTime.max QDateTime.min
    split_ifs <;> assumption
  simp only [AbstractItem.getIntersection, h1, if_true, QDateTime.ge, hlt, Bool.not_true,
    Bool.false_eq_true, if_false]
  exact hmax

theorem window_of_valid (it : AbstractItem) (vs ve : QDateTime)
    (h : (it.getIntersection vs ve).1.isValid = true) : QDateTime.lt vs ve = true := by
  by_contra hn
  simp only [AbstractItem.getIntersection, hn, QDateTime.ge, QDateTime.lt_irrefl] at h
  simp [QDateTime.isValid] at h

/-- A valid intersection with a window of valid times lies inside the window and is not
empty. -/
theorem getIntersection_inside (it : AbstractItem) (a b : Int)
    (h : (it.getIntersection (QDateTime.msecs a) (QDateTime.msecs b)).1.isValid = true) :
    ∃ i1 i2, it.getIntersection (QDateTime.msecs a) (QDateTime.msecs b)
        = (QDateTime.msecs i1, QDateTime.msecs i2) ∧ a ≤ i1 ∧ i1 < i2 ∧ i2 ≤ b := by
  have key : ∀ x y : Int,
      ((AbstractItem.mk (QDateTime.msecs x) (QDateTime.msecs y)).getIntersection
        (QDateTime.msecs a) (QDateTime.msecs b)).1.isValid = true →
      ∃ i1 i2, (AbstractItem.mk (QDateTime.msecs x) (QDateTime.msecs y)).getIntersection
          (QDateTime.msecs a) (QDateTime.msecs b)
          = (QDateTime.msecs i1, QDateTime.msecs i2) ∧ a ≤ i1 ∧ i1 < i2 ∧ i2 ≤ b := by
    intro x y hxy
    rw [AbstractItem.getIntersection_msecs] at hxy ⊢
    by_cases hc : a < b ∧ Max.max a x < Min.min b y
    · rw [if_pos hc]
      exact ⟨Max.max a x, Min.min b y, rfl, le_max_left _ _, hc.2, min_le_left _ _⟩
    · rw [if_neg hc] at hxy
      cases hxy
  obtain ⟨s, e⟩ := it
  cases e with
  | invalid =>
    exfalso
    have hmin : QDateTime.min (QDateTime.msecs b) QDateTime.invalid = QDateTime.invalid := by
      simp [QDateTime.min, QDateTime.lt]
    have hge : ∀ q : QDateTime, QDateTime.ge q QDateTime.invalid = true := QDateTime.ge_invalid
    simp only [AbstractItem.getIntersection, hmin] at h
    split_ifs at h <;> simp_all [QDateTime.isValid]
  | msecs y =>
    cases s with
    | msecs x => exact key x y h
    | invalid =>
      have e1 : (AbstractItem.mk QDateTime.invalid (QDateTime.msecs y)).getIntersection
          (QDateTime.msecs a) (QDateTime.msecs b)
          = (AbstractItem.mk (QDateTime.msecs a) (QDateTime.msecs y)).getIntersection
            (QDateTime.msecs a) (QDateTime.msecs b) := by
        simp [AbstractItem.getIntersection, QDateTime.max, QDateTime.lt]
      rw [e1] at h ⊢
      exact key a y h

theorem eventEntryProper_elim (w : World) (x : QDateTime × EventItemPtr)
    (h : w.eventEntryProper x = true) :
    ∃ e ev, x.2 = some e ∧ w.events.find e = some ev ∧ ev.mEndTime = x.1 ∧
      QDateTime.lt ev.mStartTime ev.mEndTime = true := by
  unfold World.eventEntryProper at h
  cases hp : x.2 with
  | none => simp [hp] at h
  | some e =>
    cases hf : w.events.find e with
    | none => simp [hp, hf] at h
    | some ev =>
      simp only [hp, hf, Bool.and_eq_true, decide_eq_true_eq] at h
      exact ⟨e, ev, rfl, hf, h.1, h.2⟩

theorem storedEventsProper_elim (w : World) (kv : Nat × TaskItemPtr) (a : Nat) (t : TaskItem)
    (hs : w.storedEventsProper = true) (hkv : kv ∈ w.mTasks.entries) (ha : kv.2 = some a)
    (ht : w.tasks.find a = some t) :
    t.mEvent.Sorted ∧ ∀ x ∈ t.mEvent.entries, w.eventEntryProper x = true := by
  have := List.all_eq_true.mp hs kv hkv
  simp only [ha, ht, Bool.and_eq_true, decide_eq_true_eq] at this
  exact ⟨this.1, fun x hx => List.all_eq_true.mp this.2 x hx⟩

/-- Over a sorted primary map filed under end times the event loop starts at events that end
after the window start. -/
theorem eventsFrom_proper (w : World) (vs : QDateTime) (l : List (QDateTime × EventItemPtr))
    (hs : l.Pairwise fun a b => QDateTime.lt a.1 b.1 = true)
    (hp : ∀ x ∈ l, w.eventEntryProper x = true) :
    ∃ l1, eventsFrom w vs l = some l1 ∧
      ∀ x ∈ l1, ∃ e ev, x.2 = some e ∧ w.events.find e = some ev ∧
        QDateTime.lt vs ev.mEndTime = true ∧
        QDateTime.lt ev.mStartTime ev.mEndTime = true := by
  unfold eventsFrom
  have hmem := lowerBoundList_mem vs l
  obtain ⟨hsorted, hge⟩ := lowerBoundList_sorted vs l hs
  cases hlb : QMap.lowerBoundList vs l with
  | nil => exact ⟨[], rfl, fun x hx => by cases hx⟩
  | cons hd rest =>
    obtain ⟨k, ptr⟩ := hd
    rw [hlb] at hmem hsorted hge
    rw [List.pairwise_cons] at hsorted
    obtain ⟨e, ev, hptr, hf, hend, hstrict⟩ := eventEntryProper_elim w (k, ptr)
      (hp _ (hmem _ (List.mem_cons_self _ _)))
    simp only at hptr hend
    subst hptr
    have hk := hge (k, some e) (List.mem_cons_self _ _)
    simp only at hk
    have hrest : ∀ x ∈ rest, QDateTime.lt vs k = true ∨ vs = k →
        ∃ e ev, x.2 = some e ∧ w.events.find e = some ev ∧
          QDateTime.lt vs ev.mEndTime = true ∧
          QDateTime.lt ev.mStartTime ev.mEndTime = true := by
      intro x hx hvk
      obtain ⟨e1, ev1, hptr1, hf1, hend1, hstrict1⟩ := eventEntryProper_elim w x
        (hp _ (hmem _ (List.mem_cons_of_mem _ hx)))
      have hkx := hsorted.1 x hx
      simp only at hkx
      refine ⟨e1, ev1, hptr1, hf1, ?_, hstrict1⟩
      rw [hend1]
      rcases hvk with h | h
      · exact lt_trans_time h hkx
      · rw [h]
        exact hkx
    simp only [hf]
    by_cases heq : ev.mEndTime = vs
    · rw [if_pos heq]
      refine ⟨rest, rfl, fun x hx => hrest x hx (Or.inr ?_)⟩
      rw [← heq, hend]
    · rw [if_neg heq]
      have hlt : QDateTime.lt vs k = true := by
        apply lt_of_not_lt_of_ne hk
        rw [← hend]
        exact heq
      refine ⟨_, rfl, fun x hx => ?_⟩
      rcases List.mem_cons.mp hx with h | h
      · rw [h]
        exact ⟨e, ev, rfl, hf, by rw [hend]; exact hlt, hstrict⟩
      · exact hrest x h (Or.inl hlt)

/-- The event loop appends only items of events with a valid intersection. -/
theorem collectEvents_valid (w : World) (geom : PixelGeometry) (axis : Nat)
    (style : TaskStylePtr) (vs ve : QDateTime) (hv : vs.isValid = true)
    (hw : QDateTime.lt vs ve = true) (l : List (QDateTime × EventItemPtr))
    (hl : ∀ x ∈ l, ∃ e ev, x.2 = some e ∧ w.events.find e = some ev ∧
      QDateTime.lt vs ev.mEndTime = true ∧ QDateTime.lt ev.mStartTime ev.mEndTime = true) :
    ∃ items, collectEvents w geom axis style vs ve l = some items ∧
      ∀ v ∈ items, eventItemValid w geom vs ve v := by
  induction l with
  | nil => exact ⟨[], rfl, fun v hv => by cases hv⟩
  | cons hd rest ih =>
    obtain ⟨k, ptr⟩ := hd
    obtain ⟨e, ev, hptr, hf, hend, hstrict⟩ := hl (k, ptr) (List.mem_cons_self _ _)
    simp only at hptr
    subst hptr
    obtain ⟨items, hitems, hvalid⟩ := ih (fun x hx => hl x (List.mem_cons_of_mem _ hx))
    simp only [collectEvents, hf, hitems]
    by_cases hst : QDateTime.lt ev.mStartTime ve = true
    · rw [if_pos hst]
      refine ⟨_, rfl, fun v hvm => ?_⟩
      rcases List.mem_cons.mp hvm with h | h
      · rw [h]
        intro e1 he1
        have : e = e1 := by
          simp only [TimeLineItemPtr.event.injEq] at he1
          exact he1
        subst this
        exact ⟨ev, axis, hf,
          getIntersection_valid ev.toAbstractItem vs ve hv hw hend hst hstrict, rfl⟩
      · exact hvalid v h
    · rw [if_neg hst]
      exact ⟨[], rfl, fun v hvm => by cases hvm⟩

theorem valid_of_lt {a b : QDateTime} (h : QDateTime.lt a b = true) : b.isValid = true := by
  cases a <;> cases b <;> simp_all [QDateTime.lt, QDateTime.isValid]

theorem visibleRange_valid (self : TimeLineItems) :
    self.visibleRangeStartTime.isValid = self.visibleRangeEndTime.isValid := by
  unfold visibleRangeStartTime visibleRangeEndTime
  generalize self.mCentralTime = c
  cases c <;> simp only [QDateTime.addMSecs, QDateTime.isValid]

/-- The body of the task loop keeps the event items valid. -/
theorem projectTask_valid (self : TimeLineItems) (w : World) (geom : PixelGeometry)
    (a1 : Nat) (t1 : TaskItem) (acc : List VisibleItem × InfoMarks)
    (ht : w.tasks.find a1 = some t1) (hsorted : t1.mEvent.Sorted)
    (hp : ∀ x ∈ t1.mEvent.entries, w.eventEntryProper x = true)
    (hacc : ∀ v ∈ acc.1, eventItemValid w geom self.visibleRangeStartTime
      self.visibleRangeEndTime v) :
    ∃ res, projectTask self w geom self.visibleRangeStartTime self.visibleRangeEndTime
        (some a1) acc = some res ∧
      ∀ v ∈ res.1, eventItemValid w geom self.visibleRangeStartTime
        self.visibleRangeEndTime v := by
  simp only [projectTask, ht]
  by_cases hskip : t1.eventCount = 0 ∧ t1.mEndTime.isValid = false
  · rw [if_pos hskip]
    exact ⟨acc, rfl, hacc⟩
  · rw [if_neg hskip]
    cases hst : self.mItemStyles.find t1.mTaskType with
    | none => exact ⟨acc, rfl, hacc⟩
    | some axst =>
      obtain ⟨axis, style⟩ := axst
      simp only
      by_cases hint : (t1.toAbstractItem.getIntersection self.visibleRangeStartTime
          self.visibleRangeEndTime).1.isValid = false
      · rw [if_pos hint]
        exact ⟨acc, rfl, hacc⟩
      · rw [if_neg hint]
        have hw : QDateTime.lt self.visibleRangeStartTime self.visibleRangeEndTime = true :=
          window_of_valid t1.toAbstractItem _ _ (by simpa using hint)
        have hv : self.visibleRangeStartTime.isValid = true := by
          rw [visibleRange_valid]
          exact valid_of_lt hw
        have hacc1 : ∀ v ∈ acc.1 ++ [VisibleItem.mk (TimeLineItemPtr.task a1) style
            (geom.taskRect axis
              ((t1.toAbstractItem.getIntersection self.visibleRangeStartTime
                self.visibleRangeEndTime).1.toMSecsSinceEpoch
                - self.visibleRangeStartTime.toMSecsSinceEpoch)
              ((t1.toAbstractItem.getIntersection self.visibleRangeStartTime
                self.visibleRangeEndTime).2.toMSecsSinceEpoch
                - (t1.toAbstractItem.getIntersection self.visibleRangeStartTime
                  self.visibleRangeEndTime).1.toMSecsSinceEpoch))],
            eventItemValid w geom self.visibleRangeStartTime self.visibleRangeEndTime v := by
          intro v hvm
          rcases List.mem_append.mp hvm with h | h
          · exact hacc v h
          · rw [List.mem_singleton.mp h]
            intro e he
            cases he
        split_ifs with hev
        · obtain ⟨evs, hevs, hevsp⟩ := eventsFrom_proper w self.visibleRangeStartTime
            t1.mEvent.entries hsorted hp
          obtain ⟨items, hitems, hvalid⟩ := collectEvents_valid w geom axis style
            self.visibleRangeStartTime self.visibleRangeEndTime hv hw evs hevsp
          simp only [hevs, hitems]
          refine ⟨_, rfl, fun v hvm => ?_⟩
          rcases List.mem_append.mp hvm with h | h
          · exact hacc1 v h
          · exact hvalid v h
        · exact ⟨_, rfl, hacc1⟩

theorem projectTasks_valid (self : TimeLineItems) (w : World) (geom : PixelGeometry)
    (es : List (Nat × TaskItemPtr)) (acc : List VisibleItem × InfoMarks)
    (hlive : ∀ kv ∈ es, w.taskEntryLive kv = true)
    (hproper : ∀ kv ∈ es, ∀ a t, kv.2 = some a → w.tasks.find a = some t →
      t.mEvent.Sorted ∧ ∀ x ∈ t.mEvent.entries, w.eventEntryProper x = true)
    (hacc : ∀ v ∈ acc.1, eventItemValid w geom self.visibleRangeStartTime
      self.visibleRangeEndTime v) :
    ∃ res, projectTasks self w geom self.visibleRangeStartTime self.visibleRangeEndTime es acc
        = some res ∧
      ∀ v ∈ res.1, eventItemValid w geom self.visibleRangeStartTime
        self.visibleRangeEndTime v := by
  induction es generalizing acc with
  | nil => exact ⟨acc, rfl, hacc⟩
  | cons hd rest ih =>
    obtain ⟨k, ptr⟩ := hd
    obtain ⟨a1, t1, hp, ht1, _⟩ := taskEntryLive_elim w (k, ptr)
      (hlive _ (List.mem_cons_self _ _))
    simp only at hp
    subst hp
    obtain ⟨hsrt, hpr⟩ := hproper (k, some a1) (List.mem_cons_self _ _) a1 t1 rfl ht1
    obtain ⟨res1, hres1, hv1⟩ := projectTask_valid self w geom a1 t1 acc ht1 hsrt hpr hacc
    obtain ⟨res, hres, hv⟩ := ih res1 (fun kv hkv => hlive kv (List.mem_cons_of_mem _ hkv))
      (fun kv hkv => hproper kv (List.mem_cons_of_mem _ hkv)) hv1
    exact ⟨res, by simp only [projectTasks, hres1, hres], hv⟩

/-- Soundness of the event items when every stored event starts strictly before it ends: in
one projection pass over a world with live pointers whose primary maps are sorted and filed
under end times, every event item of the visible list refers to a live event whose
intersection with the visible range is valid, and its rectangle is computed from that
intersection; a valid intersection with a window `[a, b]` of valid times is some
`[i1, i2]` with `a <= i1 < i2 <= b`. -/
theorem calculateVisibleItems_event_items_valid (self : TimeLineItems) (w : World)
    (geom : PixelGeometry) (hs : self.mTaskStorage ≠ none)
    (hst : self.mItemStyles.isEmpty = false) (hlive : w.storedEventsLive = true)
    (hproper : w.storedEventsProper = true) :
    (∃ r, self.calculateVisibleItems w geom = some r ∧
      ∀ v ∈ r.mVisibleItems, eventItemValid w geom self.visibleRangeStartTime
        self.visibleRangeEndTime v) ∧
    (∀ (it : AbstractItem) (a b : Int),
      (it.getIntersection (QDateTime.msecs a) (QDateTime.msecs b)).1.isValid = true →
      ∃ i1 i2, it.getIntersection (QDateTime.msecs a) (QDateTime.msecs b)
        = (QDateTime.msecs i1, QDateTime.msecs i2) ∧ a ≤ i1 ∧ i1 < i2 ∧ i2 ≤ b) := by
  refine ⟨?_, getIntersection_inside⟩
  obtain ⟨res, hres, hv⟩ := projectTasks_valid self w geom w.mTasks.entries ([], ⟨[]⟩)
    (fun kv hkv => List.all_eq_true.mp hlive kv hkv)
    (fun kv hkv a t ha ht => storedEventsProper_elim w kv a t hproper hkv ha ht)
    (fun v hvm => by cases hvm)
  refine ⟨{ self with mVisibleItems := res.1, mInfoMarks := res.2 }, ?_, hv⟩
  have hc : ¬ (self.mTaskStorage = none ∨ self.mItemStyles.isEmpty = true) := by
    rw [hst]
    simp [hs]
  simp only [calculateVisibleItems, if_neg hc, hres]

end TimeLineItems

end Timeline
